import Mathlib

/-!
# clean_airport_routes: a shallow embedding of `app.js` and `modules/utils.js`

Text is modelled by `String`: the Unicode characters that `fs.readFileSync(…, "utf-8")` decodes.
JavaScript counts the length of a string in UTF-16 code units, two for a character outside the
Basic Multilingual Plane: `jsLength` and `substr03` count that way.
JavaScript objects are modelled by their own enumerable string-keyed properties, kept in the
order in which `Object.keys` / `Object.values` enumerate them.
File contents are passed in as text, the files of the cache directory as what `JSON.parse`
makes of them; the file system, the network and the console are not modelled.
The numbers of `haversine` are an abstract type with the operations the function uses.
-/

set_option autoImplicit false
set_option maxRecDepth 20000

namespace CleanAirportRoutes

/-! ## JavaScript values and objects -/

/-- The JavaScript values that occur as property values in this program: `undefined`, strings,
integral numbers (the result of `Math.round`) and `NaN`. -/
inductive Val where
  | undefined : Val
  | str (s : String) : Val
  | num (n : Int) : Val
  | nan : Val
  deriving DecidableEq, Repr

/-- JavaScript strict equality `a === b` on `Val`: `NaN` is not equal to itself. -/
def strictEq : Val → Val → Bool
  | .undefined, .undefined => true
  | .str a, .str b => a == b
  | .num a, .num b => a == b
  | _, _ => false

/-- The `ToString` conversion used by `+` when one operand is a string. -/
def jsToString : Val → String
  | .undefined => "undefined"
  | .str s => s
  | .num n => toString n
  | .nan => "NaN"

/-- The conversion `Array.prototype.join` applies to an element: `undefined` becomes the empty
string. -/
def joinToString : Val → String
  | .undefined => ""
  | .str s => s
  | .num n => toString n
  | .nan => "NaN"

/-- JavaScript `a + b`: string concatenation as soon as one operand is a string, numeric addition
otherwise (`undefined` converts to `NaN`). -/
def jsAdd : Val → Val → Val
  | .str a, b => .str (a ++ jsToString b)
  | a, .str b => .str (jsToString a ++ b)
  | .num a, .num b => .num (a + b)
  | _, _ => .nan

/-- `arr.join(sep)` on an array of strings. -/
def jsJoin (sep : String) (xs : List String) : String :=
  String.mk (List.intercalate sep.data (xs.map String.data))

/-- A JavaScript object: its own properties in `Object.keys` order. -/
abbrev Obj := List (String × Val)

/-- Value of a decimal digit string. -/
def digitsValue (cs : List Char) : Nat :=
  cs.foldl (fun acc c => 10 * acc + (c.toNat - 48)) 0

/-- A property key is an array index when it is the canonical decimal form of an integer
below `2^32 - 1`; such keys are enumerated first, in ascending numeric order. -/
def arrayIndex (k : String) : Option Nat :=
  match k.data with
  | [] => none
  | c :: cs =>
    if (c :: cs).all Char.isDigit && (c != '0' || cs.isEmpty) && (c :: cs).length ≤ 10
        && digitsValue (c :: cs) < 4294967295 then
      some (digitsValue (c :: cs))
    else none

/-- Insert a new array-index key at its numeric position among the leading array-index keys. -/
def insertIndex (n : Nat) (k : String) (v : Val) : Obj → Obj
  | [] => [(k, v)]
  | (k', v') :: rest =>
    match arrayIndex k' with
    | some m => if m < n then (k', v') :: insertIndex n k v rest else (k, v) :: (k', v') :: rest
    | none => (k, v) :: (k', v') :: rest

/-- The property read `o[k]` for a key that is not a member of `Object.prototype`: the own value,
or `undefined`. -/
def Obj.get (o : Obj) (k : String) : Val :=
  match o.lookup k with
  | some v => v
  | none => .undefined

/-- The assignment `o[k] = v` of a primitive value on a plain object: an existing own property
keeps its position, a new one is enumerated after the existing ones (array-index keys first),
and assigning a primitive to `__proto__` stores nothing. -/
def Obj.set (o : Obj) (k : String) (v : Val) : Obj :=
  if k = "__proto__" then o
  else if o.any (fun kv => kv.1 == k) then o.map (fun kv => if kv.1 == k then (k, v) else kv)
  else
    match arrayIndex k with
    | some n => insertIndex n k v o
    | none => o ++ [(k, v)]

/-- `Object.keys(o)`. -/
def Obj.keys (o : Obj) : List String := o.map Prod.fst

/-- `Object.values(o)`. -/
def Obj.values (o : Obj) : List Val := o.map Prod.snd

/-! ## `modules/utils.js` -/

/-- `str.replace(/(^")|("$)/g, "")` scanned left to right: a double quote is removed when it
stands at the start or at the end of the input. -/
def stripQuotesAux (atStart : Bool) : List Char → List Char
  | [] => []
  | c :: cs =>
    if c = '"' ∧ (atStart = true ∨ cs = []) then stripQuotesAux false cs
    else c :: stripQuotesAux false cs

/-- `stripQuotes` of `utils.js`. -/
def stripQuotes (str : String) : String := String.mk (stripQuotesAux true str.data)

/-- `removeCommas` of `utils.js`: `str.replace(/,/g, "")`. -/
def removeCommas (str : String) : String := String.mk (str.data.filter (fun c => c != ','))

/-- `compose` of `utils.js`: `fn1 => fn2 => val => fn2(fn1(val))`. -/
def compose {α β γ : Type} (fn1 : α → β) (fn2 : β → γ) (val : α) : γ := fn2 (fn1 val)

/-- `cleanTxt` of `utils.js`. -/
def cleanTxt : String → String := compose stripQuotes removeCommas

/-- Prepend a character to the first piece of a split. -/
def consHead (c : Char) : List (List Char) → List (List Char)
  | [] => [[c]]
  | h :: t => (c :: h) :: t

/-- `text.split(/\r?\n/)`: a break is a line feed, together with the carriage return right
before it when there is one. -/
def splitLines : List Char → List (List Char)
  | [] => [[]]
  | c :: rest =>
    if c = '\n' then [] :: splitLines rest
    else if c = '\r' ∧ rest.head? = some '\n' then splitLines rest
    else consHead c (splitLines rest)

/-- The regular expression `[^"]*"`: skip to just after the next double quote. -/
def upToQuote : List Char → Option (List Char)
  | [] => none
  | c :: cs => if c = '"' then some cs else upToQuote cs

/-- The regular expression `[^"]*$`. -/
def noQuoteToEnd (s : List Char) : Bool := s.all (fun c => c != '"')

/-- The regular expression `(?:(?:[^"]*"){2})*[^"]*$` with at most `fuel` iterations of the
outer star; the star is greedy, and falls back to `[^"]*$`. -/
def lookaheadFuel : Nat → List Char → Bool
  | 0, s => noQuoteToEnd s
  | fuel + 1, s =>
    (match upToQuote s with
      | some r1 =>
        match upToQuote r1 with
        | some r2 => lookaheadFuel fuel r2
        | none => false
      | none => false) || noQuoteToEnd s

/-- The lookahead `(?=(?:(?:[^"]*"){2})*[^"]*$)` on the rest of the line; every iteration of the
star consumes at least two characters, so `s.length` iterations are never exceeded. -/
def lookahead (s : List Char) : Bool := lookaheadFuel s.length s

/-- `line.split(/,(?=(?:(?:[^"]*"){2})*[^"]*$)/)`. -/
def splitFields : List Char → List (List Char)
  | [] => [[]]
  | c :: rest =>
    if c = ',' ∧ lookahead rest = true then [] :: splitFields rest
    else consHead c (splitFields rest)

/-- `prop_list[idx]` used as a property key: an index past the end gives the key `undefined`. -/
def propKey (prop_list : List String) (idx : Nat) : String :=
  match prop_list.get? idx with
  | some k => k
  | none => "undefined"

/-- The reducer of `csv_to_object_array`, folded over the fields from index `idx` on. -/
def fieldsToObject (prop_list : List String) : Nat → List (List Char) → Obj → Obj
  | _, [], acc => acc
  | idx, el :: rest, acc =>
    fieldsToObject prop_list (idx + 1) rest
      (acc.set (propKey prop_list idx) (.str (cleanTxt (String.mk el))))

/-- The mapper of `csv_to_object_array`: an empty line becomes `null`. -/
def lineToObject (prop_list : List String) (line : List Char) : Option Obj :=
  if line.length > 0 then some (fieldsToObject prop_list 0 (splitFields line) [])
  else none

/-- `csv_to_object_array` of `utils.js`, applied to the text of the file. -/
def csv_to_object_array (text : String) (prop_list : List String) (hasHdr : Bool) : List Obj :=
  ((if hasHdr then (splitLines text.data).drop 1 else splitLines text.data).map
    (lineToObject prop_list)).filterMap id

/-- `Array.prototype.concat` with one argument: an argument that is itself an array is spread
into the result, any other argument is appended as one element. `asArray` tells which elements
are arrays. -/
def concatArg {α : Type} (asArray : α → Option (List α)) (arr : List α) (el : α) : List α :=
  match asArray el with
  | some items => arr ++ items
  | none => arr ++ [el]

/-- `partitionWith` of `utils.js`, `this` being the array it is called on. -/
def partitionWith {α : Type} (asArray : α → Option (List α)) (predFn : α → Bool)
    (this : List α) : List α × List α :=
  this.foldl
    (fun acc el =>
      if predFn el then (acc.1, concatArg asArray acc.2 el)
      else (concatArg asArray acc.1 el, acc.2))
    ([], [])

/-- Records and property values are not arrays. -/
def notArray {α : Type} (_ : α) : Option (List α) := none

/-- Arrays whose elements may themselves be arrays. -/
inductive JsItem where
  | num (n : Int) : JsItem
  | arr (items : List JsItem) : JsItem

/-- The elements of a `JsItem` that is an array. -/
def JsItem.asArray : JsItem → Option (List JsItem)
  | .num _ => none
  | .arr items => some items

/-- `find_kv_in_obj_array` of `utils.js`; `none` stands for `undefined`. -/
def find_kv_in_obj_array (obj_array : List Obj) (key : String) (value : Val) : Option Obj :=
  obj_array.find? (fun el => strictEq (el.get key) value)

/-- `object_array_to_csv` of `utils.js`; `none` is the `TypeError` of `Object.keys(undefined)`. -/
def object_array_to_csv (objArray : List Obj) (hasHdr : Bool) : Option String :=
  let lines := objArray.map (fun obj => jsJoin "," (obj.values.map joinToString))
  if hasHdr then
    match objArray with
    | [] => none
    | first :: _ => some (jsJoin "\n" ([jsJoin "," first.keys] ++ lines))
  else some (jsJoin "\n" lines)

/-- An entry of `csv_properties.airports` in `openflights.js`. -/
structure PropertyEl where
  dat_property : String
  csv_property : String
  query_property : String

/-- `dat_to_csv_mapper` of `utils.js`. -/
def dat_to_csv_mapper (csv_properties : List PropertyEl) (datEl : Obj) : Obj :=
  csv_properties.foldl (fun acc propertyEl =>
    acc.set propertyEl.csv_property (datEl.get propertyEl.dat_property)) []

/-- The operations on JavaScript numbers that `haversine` uses, over a type `F` standing for
the numbers (IEEE 754 doubles): the arithmetic operators, the functions of `Math`, the
constant `Math.PI`, `Number.parseFloat`, and the number a decimal literal denotes. -/
structure JsMath (F : Type) where
  add : F → F → F
  sub : F → F → F
  mul : F → F → F
  div : F → F → F
  sin : F → F
  cos : F → F
  asin : F → F
  sqrt : F → F
  round : F → F
  PI : F
  parseFloat : String → F
  num : ℚ → F

/-- An argument of `degToRad`: a number, or a value of another type, given by the string that
`Number.parseFloat` converts it to. -/
inductive Coord (F : Type) where
  | number (x : F) : Coord F
  | text (s : String) : Coord F

/-- `degToRad` of `utils.js`:
`val => (deg => (deg / 180.0) * Math.PI)(typeof val === "number" ? val : Number.parseFloat(val))`. -/
def degToRad {F : Type} (M : JsMath F) (val : Coord F) : F :=
  (fun deg => M.mul (M.div deg (M.num 180)) M.PI)
    (match val with
      | .number x => x
      | .text s => M.parseFloat s)

/-- `kmPerRadian` of `utils.js`. -/
def kmPerRadian {F : Type} (M : JsMath F) : F := M.num 6372.8

/-- `haversine` of `utils.js`, operation by operation. -/
def haversine {F : Type} (M : JsMath F) (lat1val lng1val lat2val lng2val : Coord F) : F :=
  let lat1 := degToRad M lat1val
  let lng1 := degToRad M lng1val
  let lat2 := degToRad M lat2val
  let lng2 := degToRad M lng2val
  let deltaLat := M.sub lat2 lat1
  let deltaLng := M.sub lng2 lng1
  let sinDeltaLatBy2 := M.sin (M.div deltaLat (M.num 2))
  let sinDeltaLngBy2 := M.sin (M.div deltaLng (M.num 2))
  let a := M.add (M.mul sinDeltaLatBy2 sinDeltaLatBy2)
    (M.mul (M.mul (M.mul sinDeltaLngBy2 sinDeltaLngBy2) (M.cos lat1)) (M.cos lat2))
  M.round (M.mul (M.mul (M.num 2) (M.asin (M.sqrt a))) (kmPerRadian M))

/-! ## `modules/openflights.js` -/

/-- `dat_properties.airports`. -/
def dat_properties_airports : List String :=
  ["id", "name", "city", "country", "iata", "icao", "lat", "lng", "elevation", "tz", "dst",
   "olson_tz_name", "type", "source"]

/-- `dat_properties.routes`. -/
def dat_properties_routes : List String :=
  ["airline", "airline_id", "source_airport", "source_airport_id", "destination_airport",
   "destination_airport_id", "codeshare", "stops", "equipment"]

/-- `csv_properties.extra_airports`. -/
def csv_properties_extra_airports : List String :=
  ["IATA3", "Name", "City", "Country", "Elevation", "Latitude", "Longitude"]

/-- `csv_properties.extra_routes`. -/
def csv_properties_extra_routes : List String :=
  ["ID", "StartingAirport", "DestinationAirport", "Airline", "Distance",
   "Equipment1", "Equipment2", "Equipment3", "Equipment4", "Equipment5",
   "Equipment6", "Equipment7", "Equipment8", "Equipment9"]

/-- `csv_properties.airports`. -/
def csv_properties_airports : List PropertyEl :=
  [⟨"iata", "IATA3", "iata"⟩, ⟨"name", "Name", "name"⟩, ⟨"city", "City", "city"⟩,
   ⟨"country", "Country", "country"⟩, ⟨"elevation", "Elevation", "elevation"⟩,
   ⟨"lat", "Latitude", "x"⟩, ⟨"lng", "Longitude", "y"⟩]

/-! ## `app.js` -/

/-- `ignore_files`. -/
def ignore_files : List Val := [.str ".DS_Store", .str "airports.dat", .str "routes.dat"]

/-- `arr.indexOf(v)`, searching with strict equality from position `i`. -/
def indexOfFrom (v : Val) : Int → List Val → Int
  | _, [] => -1
  | i, x :: xs => if strictEq x v then i else indexOfFrom v (i + 1) xs

/-- `arr.indexOf(v)`. -/
def indexOf (arr : List Val) (v : Val) : Int := indexOfFrom v 0 arr

/-- The number of UTF-16 code units of a character: two (a surrogate pair) from U+10000 on. -/
def utf16Units (c : Char) : Nat := if c.toNat < 65536 then 1 else 2

/-- `str.length`: the number of UTF-16 code units of the string. -/
def jsLength (s : String) : Nat := (s.data.map utf16Units).sum

/-- `v.length === n`: reading `length` of `undefined` throws (`none`); a number has no `length`. -/
def lengthIs (n : Nat) : Val → Option Bool
  | .undefined => none
  | .str s => some (jsLength s == n)
  | .num _ => some false
  | .nan => some false

/-- `rows.filter(el => el.airline.length === 2)`; `none` when the callback throws. -/
def filterAirline : List Obj → Option (List Obj)
  | [] => some []
  | el :: rest =>
    match lengthIs 2 (el.get "airline") with
    | none => none
    | some keep =>
      match filterAirline rest with
      | none => none
      | some kept => some (if keep then el :: kept else kept)

/-- The airline code of a route row is a string of length exactly two, the length counted as
JavaScript counts it (the rows the spec keeps). -/
def twoCharAirline (el : Obj) : Bool :=
  match el.get "airline" with
  | .str s => jsLength s == 2
  | _ => false

/-- `openflights_airports`: the decoded airport feed. -/
def openflights_airports (airportsText : String) : List Obj :=
  csv_to_object_array airportsText dat_properties_airports false

/-- `openflights_routes`: the decoded route feed, filtered on the airline code. -/
def openflights_routes (routesText : String) : Option (List Obj) :=
  filterAirline (csv_to_object_array routesText dat_properties_routes false)

/-- `Array.from(new Set(xs))`: first occurrences, in insertion order. -/
def arrayFromSet (xs : List Val) : List Val :=
  xs.foldl (fun acc x => if x ∈ acc then acc else acc ++ [x]) []

/-- The array the reducer of `unique_route_airports` builds: source then destination of every
route. -/
def routeEndpoints (routes : List Obj) : List Val :=
  routes.foldl (fun acc el => acc ++ [el.get "source_airport"] ++ [el.get "destination_airport"]) []

/-- `unique_route_airports`. -/
def unique_route_airports (routes : List Obj) : List Val :=
  arrayFromSet (routeEndpoints routes)

/-- The predicate `el => el.iata === "\\N" || el.iata === ""`. -/
def hasNoIata (el : Obj) : Bool :=
  strictEq (el.get "iata") (.str "\\N") || strictEq (el.get "iata") (.str "")

/-- `airports_with_iata3` together with the discarded second part of the partition. -/
def partitionAirports (airports : List Obj) : List Obj × List Obj :=
  partitionWith notArray hasNoIata airports

/-- `airports_with_iata3`. -/
def airports_with_iata3 (airports : List Obj) : List Obj := (partitionAirports airports).1

/-- `airports_with_iata3_codes`. -/
def airports_with_iata3_codes (airports : List Obj) : List Val :=
  airports.foldl (fun acc el =>
    if !strictEq (el.get "iata") (.str "\\N") && !strictEq (el.get "iata") (.str "")
    then acc ++ [el.get "iata"] else acc) []

/-- `airports_missing_from_routes`. -/
def airports_missing_from_routes (routes airports : List Obj) : List Val :=
  (partitionWith notArray (fun el => indexOf (airports_with_iata3_codes airports) el == -1)
    (unique_route_airports routes)).2

/-- A file of the directory `./data/` that is read back without a throw: its name and the
`airports` array of the JSON document it holds, a response of the lookup service. `DataFile`
is a file with an arbitrary body, which can make the read-back throw. -/
structure CacheFile where
  filename : String
  airports : List Obj

/-- The characters that start within the first `n` UTF-16 code units of a text. -/
def takeUnits : Nat → List Char → List Char
  | 0, _ => []
  | _ + 1, [] => []
  | n + 1, c :: cs => c :: takeUnits (n + 1 - utf16Units c) cs

/-- `filename.substr(0,3)`: the first three UTF-16 code units. When the third code unit is the
first half of a surrogate pair JavaScript keeps that half alone, which no `String` holds: the
whole character is kept here, and like the half it makes the result differ from every shorter
text. -/
def substr03 (filename : String) : String := String.mk (takeUnits 3 filename.data)

/-- The object built from the first match of a lookup response (the inner `reduce` over
`csv_properties.airports`). -/
def queryToCsv (thisAirport : Obj) : Obj :=
  csv_properties_airports.foldl (fun acc2 propertyEl =>
    acc2.set propertyEl.csv_property (thisAirport.get propertyEl.query_property)) []

/-- The reducer over `fs.readdirSync(local_path)` on a file that is read back without a throw:
the state is `airport_data_via_api` together with the array `nothing` it pushes to.
`readDataDirStep` is the reducer on an arbitrary file. -/
def readCacheStep (acc : List Obj × List Val) (file : CacheFile) : List Obj × List Val :=
  if indexOf ignore_files (.str file.filename) > -1 then acc
  else
    match file.airports with
    | thisAirport :: _ => (acc.1 ++ [queryToCsv thisAirport], acc.2)
    | [] => (acc.1, acc.2 ++ [.str (substr03 file.filename)])

/-- `airport_data_via_api` and `nothing` after the read-back of a cache directory all of whose
files are read back without a throw. -/
def readCache (files : List CacheFile) : List Obj × List Val :=
  files.foldl readCacheStep ([], [])

/-- What the read-back makes of the text of a file of `./data/`, which `save_body` writes for
every non-empty response body: the outcome of `JSON.parse` followed by the property reads
`airportInfo.airports.length`, `airportInfo.airports[0]` and `thisAirport[...]`. -/
inductive CacheBody where
  /-- The text is not JSON, as the error page of a failed request that `save_body` wrote:
  `JSON.parse` throws. -/
  | notJson : CacheBody
  /-- The text is JSON on which a property read of the reducer throws: the value `null`, a
  value whose `airports` is `undefined` or `null`, or one whose `airports` has a positive
  `length` and `null` or `undefined` as `airports[0]`. -/
  | malformed : CacheBody
  /-- The text is a JSON document whose `airports` is an array of records, as the lookup
  service answers: the first record is `thisAirport`, the empty array is the answer without a
  match. -/
  | response (airports : List Obj) : CacheBody

/-- A file of the directory `./data/`: its name and what the read-back makes of its text. -/
structure DataFile where
  filename : String
  body : CacheBody

/-- The reducer over `fs.readdirSync(local_path)`; `none` when `JSON.parse` or a property read
throws. An ignored file is not read. -/
def readDataDirStep (acc : List Obj × List Val) (file : DataFile) :
    Option (List Obj × List Val) :=
  if indexOf ignore_files (.str file.filename) > -1 then some acc
  else
    match file.body with
    | .notJson => none
    | .malformed => none
    | .response (thisAirport :: _) => some (acc.1 ++ [queryToCsv thisAirport], acc.2)
    | .response [] => some (acc.1, acc.2 ++ [.str (substr03 file.filename)])

/-- `reduce` over the directory with a callback that may throw. -/
def readDataDirFrom : List Obj × List Val → List DataFile → Option (List Obj × List Val)
  | acc, [] => some acc
  | acc, file :: rest =>
    match readDataDirStep acc file with
    | some acc' => readDataDirFrom acc' rest
    | none => none

/-- `airport_data_via_api` and `nothing` after the read-back of the directory `./data/`; `none`
when the read-back throws. -/
def readDataDir (dataDir : List DataFile) : Option (List Obj × List Val) :=
  readDataDirFrom ([], []) dataDir

/-- `airports_csv`. -/
def airports_csv (airportsWithIata3 : List Obj) : List Obj :=
  airportsWithIata3.map (dat_to_csv_mapper csv_properties_airports)

/-- `extra_airports`. -/
def extra_airports (extraAirportsText : String) : List Obj :=
  csv_to_object_array extraAirportsText csv_properties_extra_airports true

/-- `extra_routes`. -/
def extra_routes (extraRoutesText : String) : List Obj :=
  csv_to_object_array extraRoutesText csv_properties_extra_routes true

/-- `all_airports`. -/
def all_airports (airportsWithIata3 : List Obj) (files : List CacheFile)
    (extraAirportsText : String) : List Obj :=
  airports_csv airportsWithIata3 ++ (readCache files).1 ++ extra_airports extraAirportsText

/-- `still_nothing`. -/
def still_nothing (files : List CacheFile) (extraAirportsText : String) : List Val :=
  (partitionWith notArray
    (fun el1 =>
      ((extra_airports extraAirportsText).filter
        (fun el2 => strictEq (el2.get "IATA3") el1)).length > 0)
    (readCache files).2).1

/-- `str.split(" ")`. -/
def splitOnSpace : List Char → List (List Char)
  | [] => [[]]
  | c :: rest => if c = ' ' then [] :: splitOnSpace rest else consHead c (splitOnSpace rest)

/-- `equip_codes[i]`: `undefined` past the end of the array. -/
def equipAt (equip_codes : List (List Char)) (i : Nat) : Val :=
  match equip_codes.get? i with
  | some code => .str (String.mk code)
  | none => .undefined

/-- The key `"Equipment" + (i+1)` of the loop over the nine equipment fields. -/
def equipmentKey (i : Nat) : String := "Equipment" ++ toString (i + 1)

/-- `newRoute` as built by the `else` branch of the route reducer. The distance function is a
parameter here: the values of `Val` hold no fractional numbers, and the route resolver does
nothing with the distance but store it. -/
def newRoute (haversine : Val → Val → Val → Val → Val) (start_airport dest_airport dat_el : Obj)
    (equip_codes : List (List Char)) : Obj :=
  let route : Obj := []
  let route := route.set "ID"
    (jsAdd (jsAdd (dat_el.get "source_airport") (dat_el.get "destination_airport"))
      (dat_el.get "airline"))
  let route := route.set "StartingAirport" (dat_el.get "source_airport")
  let route := route.set "DestinationAirport" (dat_el.get "destination_airport")
  let route := route.set "Airline" (dat_el.get "airline")
  let route := route.set "Distance"
    (haversine (start_airport.get "Latitude") (start_airport.get "Longitude")
      (dest_airport.get "Latitude") (dest_airport.get "Longitude"))
  (List.range 9).foldl
    (fun route i => route.set (equipmentKey i) (equipAt equip_codes i)) route

/-- The reducer of `clean_routes_csv`; `none` is the `TypeError` of calling `split` on an
equipment value that is not a string. -/
def routeReducer (haversine : Val → Val → Val → Val → Val) (allAirports : List Obj)
    (acc : List Obj) (dat_el : Obj) : Option (List Obj) :=
  match find_kv_in_obj_array allAirports "IATA3" (dat_el.get "source_airport"),
        find_kv_in_obj_array allAirports "IATA3" (dat_el.get "destination_airport") with
  | some start_airport, some dest_airport =>
    match dat_el.get "equipment" with
    | .str equipment =>
      some (acc ++ [newRoute haversine start_airport dest_airport dat_el
        (splitOnSpace equipment.data)])
    | _ => none
  | _, _ => some acc

/-- `reduce` with a callback that may throw. -/
def reduceRoutes (haversine : Val → Val → Val → Val → Val) (allAirports : List Obj) :
    List Obj → List Obj → Option (List Obj)
  | acc, [] => some acc
  | acc, dat_el :: rest =>
    match routeReducer haversine allAirports acc dat_el with
    | some acc' => reduceRoutes haversine allAirports acc' rest
    | none => none

/-- The filter in front of the route reducer. -/
def notStillNothing (stillNothing : List Val) (el : Obj) : Bool :=
  indexOf stillNothing (el.get "source_airport") == -1 &&
  indexOf stillNothing (el.get "destination_airport") == -1

/-- `clean_routes_csv`. -/
def clean_routes_csv (haversine : Val → Val → Val → Val → Val) (routes : List Obj)
    (stillNothing : List Val) (allAirports : List Obj) : Option (List Obj) :=
  reduceRoutes haversine allAirports [] (routes.filter (notStillNothing stillNothing))

/-- The table written to `earthroutes.csv`: `clean_routes_csv.concat(extra_routes)`. -/
def routes_output (haversine : Val → Val → Val → Val → Val) (routes airportsWithIata3 : List Obj)
    (files : List CacheFile) (extraAirportsText extraRoutesText : String) : Option (List Obj) :=
  match clean_routes_csv haversine routes (still_nothing files extraAirportsText)
      (all_airports airportsWithIata3 files extraAirportsText) with
  | some computed => some (computed ++ extra_routes extraRoutesText)
  | none => none

/-- The finalisation branch of `fetch_missing_airports`: the texts written to `airports.csv` and
to `earthroutes.csv`; `none` when the step throws, which the read-back of `./data/`, the
encoding of either table and the route reducer can do. -/
def finalise (haversine : Val → Val → Val → Val → Val) (routes airportsWithIata3 : List Obj)
    (dataDir : List DataFile) (extraAirportsText extraRoutesText : String) :
    Option (String × String) :=
  match readDataDir dataDir with
  | none => none
  | some (airport_data_via_api, nothing) =>
    let allAirports :=
      airports_csv airportsWithIata3 ++ airport_data_via_api ++ extra_airports extraAirportsText
    match object_array_to_csv allAirports true with
    | none => none
    | some airportsOut =>
      let stillNothing :=
        (partitionWith notArray
          (fun el1 =>
            ((extra_airports extraAirportsText).filter
              (fun el2 => strictEq (el2.get "IATA3") el1)).length > 0)
          nothing).1
      match clean_routes_csv haversine routes stillNothing allAirports with
      | none => none
      | some computed =>
        match object_array_to_csv (computed ++ extra_routes extraRoutesText) true with
        | none => none
        | some routesOut => some (airportsOut, routesOut)

/-- `local_filename`: `iata3 => local_path + iata3 + ".json"`, with `local_path` the string
`./data/`. -/
def local_filename (iata3 : Val) : String := "./data/" ++ jsToString iata3 ++ ".json"

/-- `request_airport_info`; `existsSync` is `fs.existsSync` on the file system as it is when the
list is computed. -/
def request_airport_info (existsSync : String → Bool) (airportsMissing : List Val) : List Val :=
  airportsMissing.foldl
    (fun acc airport => if existsSync (local_filename airport) then acc else acc ++ [airport]) []

/-- The state of the backfill loop: the cursor `idx`, the airports of the lookup requests posted
so far, and whether the finalisation branch has been entered (which clears the timer). -/
structure BackfillState where
  idx : Nat
  requested : List Val
  finalised : Bool
  deriving DecidableEq, Repr

/-- The state in which the timer is started: `idx = 0`, nothing posted. -/
def backfillStart : BackfillState := ⟨0, [], false⟩

/-- One call of `fetch_missing_airports`: when the cursor has reached the length of the list the
finalisation branch is entered, otherwise the request for `request_airport_info[idx++]` is
posted. -/
def fetch_missing_airports (requestInfo : List Val) (st : BackfillState) : BackfillState :=
  if st.idx ≥ requestInfo.length then { st with finalised := true }
  else
    { idx := st.idx + 1
      requested := st.requested ++
        [match requestInfo.get? st.idx with
          | some airport => airport
          | none => .undefined]
      finalised := st.finalised }

/-- The first `n` ticks of `setInterval(fetch_missing_airports, 250)`: no tick runs the callback
after `clearInterval`. -/
def runTicks (requestInfo : List Val) : Nat → BackfillState → BackfillState
  | 0, st => st
  | n + 1, st =>
    if st.finalised then st
    else runTicks requestInfo n (fetch_missing_airports requestInfo st)

/-- An event of the backfill loop: a tick of the timer, or the callback of
`save_http_response` for a posted request; `saved` tells whether the callback writes the cache
file (no error and a non-empty body). -/
inductive BackfillEvent where
  | tick : BackfillEvent
  | response (airport : Val) (saved : Bool) : BackfillEvent
  deriving DecidableEq, Repr

/-- The loop together with its environment: the requests posted whose callback has not run yet,
and the cache files written by the callbacks. -/
structure BackfillRun where
  loop : BackfillState
  inFlight : List Val
  written : List String
  deriving DecidableEq, Repr

/-- The run when the timer is started. -/
def backfillRunStart : BackfillRun := ⟨backfillStart, [], []⟩

/-- The effect of one event. A tick runs `fetch_missing_airports` and puts the request it posts
in flight; a response runs the callback of `save_http_response`, which writes
`local_filename(airport)` when `saved`. `none` when the event cannot occur: a tick after
`clearInterval`, or a response for a request that is not in flight. -/
def handleEvent (requestInfo : List Val) (run : BackfillRun) :
    BackfillEvent → Option BackfillRun
  | .tick =>
    if run.loop.finalised then none
    else
      some
        { loop := fetch_missing_airports requestInfo run.loop
          inFlight := run.inFlight ++
            (fetch_missing_airports requestInfo run.loop).requested.drop
              run.loop.requested.length
          written := run.written }
  | .response airport saved =>
    if airport ∈ run.inFlight then
      some
        { loop := run.loop
          inFlight := run.inFlight.erase airport
          written := if saved then run.written ++ [local_filename airport] else run.written }
    else none

/-- An execution: the events in the order in which the event loop runs their callbacks. -/
def runEvents (requestInfo : List Val) : List BackfillEvent → BackfillRun → Option BackfillRun
  | [], run => some run
  | ev :: evs, run =>
    match handleEvent requestInfo run ev with
    | some run' => runEvents requestInfo evs run'
    | none => none

/-! ## Notions used to state the properties -/

/-- The field list `fields` has a boundary between the text `pre` and the text `post`: the fields
before the boundary, joined by commas, are `pre`, and those after it are `post`. -/
def FieldBoundary (fields : List (List Char)) (pre post : List Char) : Prop :=
  ∃ before after : List (List Char), before ≠ [] ∧ after ≠ [] ∧ fields = before ++ after ∧
    List.intercalate [','] before = pre ∧ List.intercalate [','] after = post

/-- Remove one leading double quote, when there is one. -/
def dropLeadingQuote : List Char → List Char
  | [] => []
  | c :: rest => if c = '"' then rest else c :: rest

/-- Remove one trailing double quote, when there is one. -/
def dropTrailingQuote (s : List Char) : List Char :=
  if s.getLast? = some '"' then s.dropLast else s

/-- The pieces of a text between line feeds. -/
def splitOnLF : List Char → List (List Char)
  | [] => [[]]
  | c :: rest => if c = '\n' then [] :: splitOnLF rest else consHead c (splitOnLF rest)

/-- Remove one trailing carriage return, when there is one. -/
def dropTrailingCR (s : List Char) : List Char :=
  if s.getLast? = some '\r' then s.dropLast else s

/-- The carriage return right before a line feed belongs to the break: it is removed from every
piece but the last, which no line feed follows. -/
def stripBreakCR : List (List Char) → List (List Char)
  | [] => []
  | [piece] => [piece]
  | piece :: next :: pieces => dropTrailingCR piece :: stripBreakCR (next :: pieces)

/-- Both lookups of the route reducer find a record for the route. -/
def bothFound (allAirports : List Obj) (el : Obj) : Bool :=
  (find_kv_in_obj_array allAirports "IATA3" (el.get "source_airport")).isSome &&
  (find_kv_in_obj_array allAirports "IATA3" (el.get "destination_airport")).isSome

/-- The airport table holds a record whose `IATA3` is the code `c`, compared as `===`
compares. -/
def hasAirport (allAirports : List Obj) (c : Val) : Bool :=
  allAirports.any (fun airport => strictEq (airport.get "IATA3") c)

/-- A route that is resolved, in the words of the specification: neither endpoint code is an
element of the excluded set, and the airport table holds a record for each of the two. -/
def routeKept (stillNothing : List Val) (allAirports : List Obj) (el : Obj) : Bool :=
  decide (el.get "source_airport" ∉ stillNothing) &&
  decide (el.get "destination_airport" ∉ stillNothing) &&
  hasAirport allAirports (el.get "source_airport") &&
  hasAirport allAirports (el.get "destination_airport")

/-- The lookup responses of a directory all of whose files that are not ignored hold one, as
the read-back sees them. -/
def lookupResponses (dataDir : List DataFile) : List CacheFile :=
  dataDir.map (fun file =>
    ⟨file.filename, match file.body with
      | .response airports => airports
      | _ => []⟩)

/-- The facts about the arithmetic of doubles on which the distance of a point from itself
rests, for a number type with a notion of finite number (neither `NaN` nor an infinity) and
the two zeros `+0` and `-0`. They are those of IEEE 754 in the rounding mode of ECMAScript and
of the ECMAScript definitions of the functions of `Math`. -/
structure ZeroFacts {F : Type} (M : JsMath F) (finite : F → Prop) (posZero negZero : F) :
    Prop where
  /-- The difference of a finite number and itself is `+0`. -/
  sub_self : ∀ x, finite x → M.sub x x = posZero
  /-- A finite number of degrees is a finite number of radians: `(x / 180) * π` is smaller in
  magnitude than `x`. -/
  finite_radians : ∀ x, finite x → finite (M.mul (M.div x (M.num 180)) M.PI)
  /-- The cosine of a finite number is finite. -/
  finite_cos : ∀ x, finite x → finite (M.cos x)
  /-- `+0 / 2` is `+0`. -/
  zero_div_two : M.div posZero (M.num 2) = posZero
  /-- `Math.sin(+0)` is `+0`. -/
  sin_zero : M.sin posZero = posZero
  /-- `+0 * +0` is `+0`. -/
  zero_mul_zero : M.mul posZero posZero = posZero
  /-- A zero times a finite number is a zero, of either sign. -/
  zero_mul_finite : ∀ z c, z = posZero ∨ z = negZero → finite c →
    M.mul z c = posZero ∨ M.mul z c = negZero
  /-- `+0` plus a zero of either sign is `+0`. -/
  zero_add_zero : ∀ z, z = posZero ∨ z = negZero → M.add posZero z = posZero
  /-- `Math.sqrt(+0)` is `+0`. -/
  sqrt_zero : M.sqrt posZero = posZero
  /-- `Math.asin(+0)` is `+0`. -/
  asin_zero : M.asin posZero = posZero
  /-- `2 * +0` is `+0`. -/
  two_mul_zero : M.mul (M.num 2) posZero = posZero
  /-- `+0 * 6372.8` is `+0`. -/
  zero_mul_km : M.mul posZero (M.num 6372.8) = posZero
  /-- `Math.round(+0)` is `+0`. -/
  round_zero : M.round posZero = posZero

/-- The record `r` is the one computed for the route `el`: the `newRoute` built from the two
airports found for its endpoints and from its equipment string. -/
def ComputedFrom (haversine : Val → Val → Val → Val → Val) (allAirports : List Obj)
    (el r : Obj) : Prop :=
  ∃ (s d : Obj) (e : String),
    find_kv_in_obj_array allAirports "IATA3" (el.get "source_airport") = some s ∧
    find_kv_in_obj_array allAirports "IATA3" (el.get "destination_airport") = some d ∧
    el.get "equipment" = .str e ∧
    r = newRoute haversine s d el (splitOnSpace e.data)

/-! ## Example data -/

/-- A distance function standing in for `haversine` on the examples. -/
def exampleDistance : Val → Val → Val → Val → Val := fun _ _ _ _ => .num 3983

/-- The decoded route `AA,24,JFK,3797,LAX,3484,,0,738 320`. -/
def exampleRoute : Obj :=
  [("airline", .str "AA"), ("airline_id", .str "24"), ("source_airport", .str "JFK"),
   ("source_airport_id", .str "3797"), ("destination_airport", .str "LAX"),
   ("destination_airport_id", .str "3484"), ("codeshare", .str ""), ("stops", .str "0"),
   ("equipment", .str "738 320")]

/-- The airport record of JFK. -/
def exampleJfk : Obj :=
  [("IATA3", .str "JFK"), ("Name", .str "John F Kennedy Intl"), ("City", .str "New York"),
   ("Country", .str "United States"), ("Elevation", .str "13"), ("Latitude", .str "40.6398"),
   ("Longitude", .str "-73.7789")]

/-- The airport record of LAX. -/
def exampleLax : Obj :=
  [("IATA3", .str "LAX"), ("Name", .str "Los Angeles Intl"), ("City", .str "Los Angeles"),
   ("Country", .str "United States"), ("Elevation", .str "126"), ("Latitude", .str "33.9425"),
   ("Longitude", .str "-118.408")]

/-- An airport table holding JFK and LAX. -/
def exampleAirports : List Obj := [exampleJfk, exampleLax]

/-- A cache directory holding the lookup responses for JFK and LAX. -/
def exampleCache : List CacheFile :=
  [⟨"JFK.json", [[("iata", .str "JFK"), ("name", .str "John F Kennedy Intl"),
      ("city", .str "New York"), ("country", .str "United States"), ("elevation", .str "13"),
      ("x", .str "40.6398"), ("y", .str "-73.7789")]]⟩,
   ⟨"LAX.json", [[("iata", .str "LAX"), ("name", .str "Los Angeles Intl"),
      ("city", .str "Los Angeles"), ("country", .str "United States"),
      ("elevation", .str "126"), ("x", .str "33.9425"), ("y", .str "-118.408")]]⟩]

/-- The directory `./data/` after a run: the two feeds and the lookup responses for JFK and
LAX. -/
def exampleDataDir : List DataFile :=
  [⟨"airports.dat", .notJson⟩, ⟨"routes.dat", .notJson⟩] ++
    exampleCache.map (fun file => ⟨file.filename, .response file.airports⟩)

/-- Both operands are numbers: the operation on them; `none`, standing for `NaN` and the
infinities, otherwise. -/
def exampleLift (f : ℚ → ℚ → ℚ) : Option ℚ → Option ℚ → Option ℚ
  | some x, some y => some (f x y)
  | _, _ => none

/-- A number type on which the facts of `ZeroFacts` hold: exact rational numbers, with `none`
for the numbers that are not finite, and stand-ins for the functions of `Math` that agree with
them at zero. -/
def exampleMath : JsMath (Option ℚ) where
  add := exampleLift (fun x y => x + y)
  sub := exampleLift (fun x y => x - y)
  mul := exampleLift (fun x y => x * y)
  div := exampleLift (fun x y => x / y)
  sin := Option.map (fun x => x)
  cos := Option.map (fun x => 1 - x * x / 2)
  asin := Option.map (fun x => x)
  sqrt := Option.map (fun x => x)
  round := Option.map (fun x => ((Int.floor (x + 1 / 2) : Int) : ℚ))
  PI := some (355 / 113)
  parseFloat := fun _ => none
  num := fun q => some q

/-- The record computed for `exampleRoute`. -/
def exampleComputed : Obj :=
  [("ID", .str "JFKLAXAA"), ("StartingAirport", .str "JFK"), ("DestinationAirport", .str "LAX"),
   ("Airline", .str "AA"), ("Distance", .num 3983), ("Equipment1", .str "738"),
   ("Equipment2", .str "320"), ("Equipment3", .undefined), ("Equipment4", .undefined),
   ("Equipment5", .undefined), ("Equipment6", .undefined), ("Equipment7", .undefined),
   ("Equipment8", .undefined), ("Equipment9", .undefined)]

/-- An `extra_airports.csv` with one airport. -/
def exampleExtraAirportsText : String :=
  "IATA3,Name,City,Country,Elevation,Latitude,Longitude\nMON,Moon Base,Luna,Moon,0,0.6741,23.4729"

/-- An `extra_routes.csv` with one route, from a code that is in no airport table. -/
def exampleExtraRoutesText : String :=
  "ID,StartingAirport,DestinationAirport,Airline,Distance,Equipment1,Equipment2,Equipment3," ++
  "Equipment4,Equipment5,Equipment6,Equipment7,Equipment8,Equipment9\n" ++
  "ERTMONXX,ERT,MON,XX,384400,SAT,,,,,,,,"

/-- A decoded airport row of `airports.dat` for JFK, with other coordinates than the override
row below. -/
def examplePrimaryAirport : Obj :=
  [("id", .str "3797"), ("name", .str "John F Kennedy International Airport"),
   ("city", .str "New York"), ("country", .str "United States"), ("iata", .str "JFK"),
   ("icao", .str "KJFK"), ("lat", .str "40.6398"), ("lng", .str "-73.7789"),
   ("elevation", .str "13"), ("tz", .str "-5"), ("dst", .str "A"),
   ("olson_tz_name", .str "America/New_York"), ("type", .str "airport"),
   ("source", .str "OurAirports")]

/-- An `extra_airports.csv` that also lists JFK. -/
def exampleOverrideJfkText : String :=
  "IATA3,Name,City,Country,Elevation,Latitude,Longitude\nJFK,Override,Nowhere,None,0,0,0"

/-- The decoded route `XX,1,JFK,3797,MON,9999,,0,SAT`. -/
def exampleMoonRoute : Obj :=
  [("airline", .str "XX"), ("airline_id", .str "1"), ("source_airport", .str "JFK"),
   ("source_airport_id", .str "3797"), ("destination_airport", .str "MON"),
   ("destination_airport_id", .str "9999"), ("codeshare", .str ""), ("stops", .str "0"),
   ("equipment", .str "SAT")]

/-- A decoded airport row of `airports.dat` for MON. -/
def examplePrimaryMoon : Obj :=
  [("id", .str "9999"), ("name", .str "Moon Base"), ("city", .str "Luna"),
   ("country", .str "Moon"), ("iata", .str "MON"), ("icao", .str "MOON"),
   ("lat", .str "0.6741"), ("lng", .str "23.4729"), ("elevation", .str "0"), ("tz", .str "0"),
   ("dst", .str "U"), ("olson_tz_name", .str "\\N"), ("type", .str "airport"),
   ("source", .str "User")]

/-- A cache directory in which the lookup response for MON holds no match. -/
def exampleCacheWithUnknown : List CacheFile :=
  exampleCache ++ [⟨"MON.json", []⟩]

/-- The decoded route row `AA,24,JFK,3797,LAX`, which has five of the nine columns. -/
def exampleShortRoute : Obj :=
  [("airline", .str "AA"), ("airline_id", .str "24"), ("source_airport", .str "JFK"),
   ("source_airport_id", .str "3797"), ("destination_airport", .str "LAX")]

end CleanAirportRoutes


/-! ## Auxiliary facts -/

namespace CleanAirportRoutes

theorem strictEq_eq {a b : Val} (h : strictEq a b = true) : a = b := by
  cases a <;> cases b <;> simp_all [strictEq]

theorem find_kv_some {obj_array : List Obj} {key : String} {value : Val} {el : Obj}
    (h : find_kv_in_obj_array obj_array key value = some el) :
    el ∈ obj_array ∧ el.get key = value := by
  unfold find_kv_in_obj_array at h
  have h2 : strictEq (el.get key) value = true :=
    List.find?_some (p := fun (el : Obj) => strictEq (el.get key) value) h
  exact ⟨List.mem_of_find?_eq_some h, strictEq_eq h2⟩

theorem set_new (o : Obj) (k : String) (v : Val) (h1 : k ≠ "__proto__")
    (h2 : o.any (fun kv => kv.1 == k) = false) (h3 : arrayIndex k = none) :
    o.set k v = o ++ [(k, v)] := by
  simp [Obj.set, h1, h2, h3]

theorem newRoute_eq (hav : Val → Val → Val → Val → Val) (s d el : Obj)
    (codes : List (List Char)) :
    newRoute hav s d el codes =
      [("ID", jsAdd (jsAdd (el.get "source_airport") (el.get "destination_airport"))
          (el.get "airline")),
       ("StartingAirport", el.get "source_airport"),
       ("DestinationAirport", el.get "destination_airport"),
       ("Airline", el.get "airline"),
       ("Distance", hav (s.get "Latitude") (s.get "Longitude") (d.get "Latitude")
          (d.get "Longitude")),
       ("Equipment1", equipAt codes 0), ("Equipment2", equipAt codes 1),
       ("Equipment3", equipAt codes 2), ("Equipment4", equipAt codes 3),
       ("Equipment5", equipAt codes 4), ("Equipment6", equipAt codes 5),
       ("Equipment7", equipAt codes 6), ("Equipment8", equipAt codes 7),
       ("Equipment9", equipAt codes 8)] := by
  have e0 : equipmentKey 0 = "Equipment1" := by decide
  have e1 : equipmentKey 1 = "Equipment2" := by decide
  have e2 : equipmentKey 2 = "Equipment3" := by decide
  have e3 : equipmentKey 3 = "Equipment4" := by decide
  have e4 : equipmentKey 4 = "Equipment5" := by decide
  have e5 : equipmentKey 5 = "Equipment6" := by decide
  have e6 : equipmentKey 6 = "Equipment7" := by decide
  have e7 : equipmentKey 7 = "Equipment8" := by decide
  have e8 : equipmentKey 8 = "Equipment9" := by decide
  have hr : List.range 9 = [0, 1, 2, 3, 4, 5, 6, 7, 8] := by decide
  unfold newRoute
  simp only [hr, List.foldl, e0, e1, e2, e3, e4, e5, e6, e7, e8]
  have keyOk : ∀ k ∈ ["ID", "StartingAirport", "DestinationAirport", "Airline", "Distance",
      "Equipment1", "Equipment2", "Equipment3", "Equipment4", "Equipment5", "Equipment6",
      "Equipment7", "Equipment8", "Equipment9"], k ≠ "__proto__" ∧ arrayIndex k = none := by
    decide
  simp +decide [set_new, keyOk]

theorem newRoute_get (hav : Val → Val → Val → Val → Val) (s d el : Obj)
    (codes : List (List Char)) :
    (newRoute hav s d el codes).get "StartingAirport" = el.get "source_airport" ∧
    (newRoute hav s d el codes).get "DestinationAirport" = el.get "destination_airport" ∧
    (newRoute hav s d el codes).get "Airline" = el.get "airline" := by
  rw [newRoute_eq]
  simp +decide [Obj.get, List.lookup]

/-- What a record of the accumulator of the route reducer is: either it was there before, or it
is the `newRoute` of one of the reduced routes, both of whose lookups succeeded. -/
theorem reduceRoutes_mem (hav : Val → Val → Val → Val → Val) (allAirports : List Obj) :
    ∀ (rest acc out : List Obj), reduceRoutes hav allAirports acc rest = some out →
      ∀ r ∈ out, r ∈ acc ∨ ∃ dat_el ∈ rest, ∃ s d e,
        find_kv_in_obj_array allAirports "IATA3" (dat_el.get "source_airport") = some s ∧
        find_kv_in_obj_array allAirports "IATA3" (dat_el.get "destination_airport") = some d ∧
        dat_el.get "equipment" = .str e ∧
        r = newRoute hav s d dat_el (splitOnSpace e.data) := by
  intro rest
  induction rest with
  | nil =>
    intro acc out h r hr
    simp [reduceRoutes] at h
    subst h
    exact Or.inl hr
  | cons dat_el rest ih =>
    intro acc out h r hr
    simp only [reduceRoutes] at h
    cases hstep : routeReducer hav allAirports acc dat_el with
    | none => simp [hstep] at h
    | some acc' =>
      simp only [hstep] at h
      rcases ih acc' out h r hr with hacc | ⟨el, hel, s, d, e, h1, h2, h3, h4⟩
      · unfold routeReducer at hstep
        cases hs : find_kv_in_obj_array allAirports "IATA3" (dat_el.get "source_airport") with
        | none =>
          simp [hs] at hstep
          subst hstep
          exact Or.inl hacc
        | some s =>
          cases hd : find_kv_in_obj_array allAirports "IATA3"
              (dat_el.get "destination_airport") with
          | none =>
            simp [hs, hd] at hstep
            subst hstep
            exact Or.inl hacc
          | some d =>
            cases he : dat_el.get "equipment" with
            | str e =>
              simp [hs, hd, he] at hstep
              subst hstep
              rcases List.mem_append.mp hacc with h' | h'
              · exact Or.inl h'
              · right
                refine ⟨dat_el, List.mem_cons_self _ _, s, d, e, hs, hd, he, ?_⟩
                simpa using h'
            | undefined => simp [hs, hd, he] at hstep
            | num n => simp [hs, hd, he] at hstep
            | nan => simp [hs, hd, he] at hstep
      · exact Or.inr ⟨el, List.mem_cons_of_mem _ hel, s, d, e, h1, h2, h3, h4⟩

theorem lookup_cons_eq (a k : String) (v : Val) (rest : Obj) :
    List.lookup a ((k, v) :: rest) = if a = k then some v else List.lookup a rest := by
  by_cases h : a = k
  · subst h
    simp [List.lookup]
  · have hb : (a == k) = false := by simpa using h
    simp [List.lookup, hb, h]

theorem lookup_insertIndex (a : String) (n : Nat) (k : String) (v : Val) :
    ∀ o : Obj, o.lookup k = none →
      (insertIndex n k v o).lookup a = if a = k then some v else o.lookup a := by
  intro o
  induction o with
  | nil =>
    intro _
    simp only [insertIndex, lookup_cons_eq]
  | cons kv rest ih =>
    obtain ⟨k', v'⟩ := kv
    intro hk
    rw [lookup_cons_eq] at hk
    have hne : k ≠ k' := by
      intro h
      simp [h] at hk
    have hrest : rest.lookup k = none := by simpa [hne] using hk
    unfold insertIndex
    cases arrayIndex k' with
    | none => simp only [lookup_cons_eq]
    | some m =>
      by_cases hmn : m < n
      · simp only [hmn, if_true, lookup_cons_eq, ih hrest]
        by_cases hak' : a = k'
        · have : a ≠ k := fun h => hne (h.symm.trans hak')
          subst hak'
          simp [this]
        · simp [hak']
      · simp only [hmn, if_false, lookup_cons_eq]

theorem lookup_map_update (a k : String) (v : Val) :
    ∀ o : Obj, (o.map (fun kv => if kv.1 == k then (k, v) else kv)).lookup a
      = if a = k then (o.lookup k).map (fun _ => v) else o.lookup a := by
  intro o
  induction o with
  | nil => by_cases hak : a = k <;> simp [List.lookup, hak]
  | cons kv rest ih =>
    obtain ⟨k', v'⟩ := kv
    rw [List.map_cons]
    by_cases hk : k' = k
    · have hb : (k' == k) = true := by simpa using hk
      simp only [hb, if_true, lookup_cons_eq, ih]
      subst hk
      by_cases hak : a = k' <;> simp [hak]
    · have hb : (k' == k) = false := by simpa using hk
      have hk' : ¬ k = k' := fun h => hk h.symm
      simp only [hb, Bool.false_eq_true, if_false, lookup_cons_eq, ih, hk']
      by_cases hak : a = k
      · subst hak
        simp [hk']
      · simp [hak]

theorem any_key_iff_lookup (k : String) :
    ∀ o : Obj, o.any (fun kv => kv.1 == k) = (o.lookup k).isSome := by
  intro o
  induction o with
  | nil => simp [List.lookup]
  | cons kv rest ih =>
    obtain ⟨k', v'⟩ := kv
    rw [List.any_cons, ih, lookup_cons_eq]
    by_cases hk : k = k'
    · subst hk
      simp
    · have hb' : (k' == k) = false := by simpa using fun h : k' = k => hk h.symm
      simp [hk, hb']

/-- Reading after an assignment: the assigned key reads the new value, every other key is
unchanged. -/
theorem lookup_set (o : Obj) (a k : String) (v : Val) (hk : k ≠ "__proto__") :
    (o.set k v).lookup a = if a = k then some v else o.lookup a := by
  unfold Obj.set
  rw [if_neg hk, any_key_iff_lookup]
  cases hl : o.lookup k with
  | some w =>
    simp only [Option.isSome_some, if_true]
    rw [lookup_map_update, hl]
    rfl
  | none =>
    simp only [Option.isSome_none, Bool.false_eq_true, if_false]
    cases arrayIndex k with
    | some n => exact lookup_insertIndex a n k v o hl
    | none =>
      rw [List.lookup_append]
      by_cases hak : a = k
      · subst hak
        simp [hl, List.lookup]
      · have hb : (a == k) = false := by simpa using hak
        simp [hak, List.lookup, hb]

theorem get_set_self (o : Obj) (k : String) (v : Val) (hk : k ≠ "__proto__") :
    (o.set k v).get k = v := by
  simp [Obj.get, lookup_set o k k v hk]

theorem get_set_of_ne (o : Obj) (a k : String) (v : Val) (hak : a ≠ k) :
    (o.set k v).get a = o.get a := by
  by_cases hk : k = "__proto__"
  · simp [Obj.set, hk]
  · simp [Obj.get, lookup_set o a k v hk, hak]

theorem partitionWith_foldl {α : Type} (predFn : α → Bool) :
    ∀ (xs : List α) (acc : List α × List α),
      xs.foldl
        (fun acc el =>
          if predFn el then (acc.1, concatArg notArray acc.2 el)
          else (concatArg notArray acc.1 el, acc.2)) acc
      = (acc.1 ++ xs.filter (fun el => !predFn el), acc.2 ++ xs.filter predFn) := by
  intro xs
  induction xs with
  | nil => intro acc; simp
  | cons x xs ih =>
    intro acc
    rw [List.foldl_cons, ih]
    by_cases hp : predFn x <;> simp [hp, concatArg, notArray]

/-- On an array none of whose elements is an array, `partitionWith` is the pair of the two
filters. -/
theorem partitionWith_notArray {α : Type} (predFn : α → Bool) (xs : List α) :
    partitionWith notArray predFn xs = (xs.filter (fun el => !predFn el), xs.filter predFn) := by
  unfold partitionWith
  rw [partitionWith_foldl]
  simp

theorem arrayFromSet_foldl :
    ∀ (xs acc : List Val), acc.Nodup →
      (xs.foldl (fun acc x => if x ∈ acc then acc else acc ++ [x]) acc).Nodup ∧
      ∀ c, c ∈ xs.foldl (fun acc x => if x ∈ acc then acc else acc ++ [x]) acc ↔
        c ∈ acc ∨ c ∈ xs := by
  intro xs
  induction xs with
  | nil => intro acc h; simp [h]
  | cons x xs ih =>
    intro acc h
    rw [List.foldl_cons]
    by_cases hx : x ∈ acc
    · rw [if_pos hx]
      refine ⟨(ih acc h).1, fun c => ?_⟩
      rw [(ih acc h).2 c]
      constructor
      · rintro (h1 | h1)
        · exact Or.inl h1
        · exact Or.inr (List.mem_cons_of_mem _ h1)
      · rintro (h1 | h1)
        · exact Or.inl h1
        · rcases List.mem_cons.mp h1 with h2 | h2
          · exact Or.inl (h2 ▸ hx)
          · exact Or.inr h2
    · rw [if_neg hx]
      have hnd : (acc ++ [x]).Nodup := by
        rw [List.nodup_append]
        refine ⟨h, List.nodup_singleton x, ?_⟩
        intro a ha hb
        rw [List.mem_singleton] at hb
        exact hx (hb ▸ ha)
      refine ⟨(ih _ hnd).1, fun c => ?_⟩
      rw [(ih _ hnd).2 c]
      simp only [List.mem_append, List.mem_singleton, List.mem_cons]
      tauto

theorem arrayFromSet_nodup (xs : List Val) : (arrayFromSet xs).Nodup :=
  (arrayFromSet_foldl xs [] List.nodup_nil).1

theorem mem_arrayFromSet (xs : List Val) (c : Val) : c ∈ arrayFromSet xs ↔ c ∈ xs := by
  unfold arrayFromSet
  rw [(arrayFromSet_foldl xs [] List.nodup_nil).2 c]
  simp

theorem routeEndpoints_foldl :
    ∀ (routes : List Obj) (acc : List Val) (c : Val),
      c ∈ routes.foldl
          (fun acc el => acc ++ [el.get "source_airport"] ++ [el.get "destination_airport"]) acc ↔
        c ∈ acc ∨ ∃ r ∈ routes, c = r.get "source_airport" ∨ c = r.get "destination_airport" := by
  intro routes
  induction routes with
  | nil => intro acc c; simp
  | cons r routes ih =>
    intro acc c
    rw [List.foldl_cons, ih]
    simp only [List.mem_append, List.mem_singleton, List.mem_cons, exists_eq_or_imp]
    generalize (∃ r ∈ routes, c = r.get "source_airport" ∨ c = r.get "destination_airport") = P
    tauto

theorem mem_routeEndpoints (routes : List Obj) (c : Val) :
    c ∈ routeEndpoints routes ↔
      ∃ r ∈ routes, c = r.get "source_airport" ∨ c = r.get "destination_airport" := by
  unfold routeEndpoints
  rw [routeEndpoints_foldl]
  simp

theorem indexOfFrom_eq_neg_one (v : Val) :
    ∀ (xs : List Val) (i : Int), 0 ≤ i →
      (indexOfFrom v i xs = -1 ↔ ∀ x ∈ xs, strictEq x v = false) := by
  intro xs
  induction xs with
  | nil => intro i _; simp [indexOfFrom]
  | cons x xs ih =>
    intro i hi
    unfold indexOfFrom
    by_cases hx : strictEq x v = true
    · simp only [hx, if_true, List.mem_cons, forall_eq_or_imp]
      constructor
      · intro h; omega
      · intro h; simp [hx] at h
    · have hx' : strictEq x v = false := by simpa using hx
      simp only [hx', Bool.false_eq_true, if_false, List.mem_cons, forall_eq_or_imp, true_and]
      exact ih (i + 1) (by omega)

/-- The test `arr.indexOf(v) === -1` holds exactly when no element of `arr` is strictly equal
to `v`. -/
theorem indexOf_eq_neg_one (arr : List Val) (v : Val) :
    indexOf arr v = -1 ↔ ∀ x ∈ arr, strictEq x v = false :=
  indexOfFrom_eq_neg_one v arr 0 (le_refl 0)

theorem hasNoIata_iff (el : Obj) :
    hasNoIata el = true ↔ el.get "iata" = .str "\\N" ∨ el.get "iata" = .str "" := by
  unfold hasNoIata
  cases h : el.get "iata" <;> simp [strictEq]

theorem codes_foldl :
    ∀ (airports : List Obj) (acc : List Val),
      airports.foldl (fun acc el =>
        if !strictEq (el.get "iata") (.str "\\N") && !strictEq (el.get "iata") (.str "")
        then acc ++ [el.get "iata"] else acc) acc
      = acc ++ (airports.filter (fun el => !hasNoIata el)).map (fun el => el.get "iata") := by
  intro airports
  induction airports with
  | nil => intro acc; simp
  | cons a airports ih =>
    intro acc
    rw [List.foldl_cons, ih]
    by_cases h : hasNoIata a = true
    · have h2 : (!strictEq (a.get "iata") (.str "\\N") && !strictEq (a.get "iata") (.str ""))
          = false := by
        unfold hasNoIata at h
        simpa [← Bool.not_or] using h
      simp [h, h2]
    · have h' : hasNoIata a = false := by simpa using h
      have h2 : (!strictEq (a.get "iata") (.str "\\N") && !strictEq (a.get "iata") (.str ""))
          = true := by
        unfold hasNoIata at h'
        simpa [← Bool.not_or] using h'
      simp [h', h2]

/-- The separate pass that computes `airports_with_iata3_codes` yields the `iata` values of
`airports_with_iata3`, in order. -/
theorem codes_eq_map (airports : List Obj) :
    airports_with_iata3_codes airports
      = (airports_with_iata3 airports).map (fun el => el.get "iata") := by
  unfold airports_with_iata3_codes airports_with_iata3 partitionAirports
  rw [codes_foldl, partitionWith_notArray]
  simp

theorem get_set_str (o : Obj) (a k t : String) (h : ∃ s, o.get a = .str s) :
    ∃ s, (o.set k (.str t)).get a = .str s := by
  by_cases hak : a = k
  · by_cases hk : k = "__proto__"
    · simpa [Obj.set, hk] using h
    · subst hak
      exact ⟨t, get_set_self o a (.str t) hk⟩
  · rw [get_set_of_ne o a k _ hak]
    exact h

theorem fieldsToObject_get_str (prop_list : List String) (a : String) :
    ∀ (fields : List (List Char)) (idx : Nat) (acc : Obj), (∃ s, acc.get a = .str s) →
      ∃ s, (fieldsToObject prop_list idx fields acc).get a = .str s := by
  intro fields
  induction fields with
  | nil => intro idx acc h; simpa [fieldsToObject] using h
  | cons f fields ih =>
    intro idx acc h
    unfold fieldsToObject
    exact ih _ _ (get_set_str acc a _ _ h)

theorem splitFields_ne_nil : ∀ line : List Char, splitFields line ≠ [] := by
  intro line
  cases line with
  | nil => simp [splitFields]
  | cons c rest =>
    unfold splitFields
    split
    · simp
    · cases splitFields rest <;> simp [consHead]

/-- Every record decoded from a non-empty line holds a string under the first column name. -/
theorem lineToObject_first_column (prop_list : List String) (k : String) (line : List Char)
    (o : Obj) (hk : prop_list.head? = some k) (hp : k ≠ "__proto__")
    (h : lineToObject prop_list line = some o) : ∃ s, o.get k = .str s := by
  unfold lineToObject at h
  split at h
  · cases hs : splitFields line with
    | nil => exact absurd hs (splitFields_ne_nil line)
    | cons f fields =>
      rw [hs] at h
      simp only [fieldsToObject, Option.some.injEq] at h
      rw [← h]
      apply fieldsToObject_get_str
      have hkey : propKey prop_list 0 = k := by
        cases prop_list with
        | nil => simp at hk
        | cons p ps =>
          simp only [List.head?_cons, Option.some.injEq] at hk
          simp [propKey, hk]
      rw [hkey]
      exact ⟨_, get_set_self [] k _ hp⟩
  · simp at h

theorem mem_csv_to_object_array (text : String) (prop_list : List String) (hasHdr : Bool)
    (o : Obj) (h : o ∈ csv_to_object_array text prop_list hasHdr) :
    ∃ line : List Char, lineToObject prop_list line = some o := by
  unfold csv_to_object_array at h
  rw [List.mem_filterMap] at h
  obtain ⟨x, hx, hxo⟩ := h
  rw [List.mem_map] at hx
  obtain ⟨line, _, hline⟩ := hx
  exact ⟨line, by rw [hline]; exact hxo⟩

theorem twoCharAirline_iff (el : Obj) :
    twoCharAirline el = true ↔ ∃ s, el.get "airline" = .str s ∧ jsLength s = 2 := by
  unfold twoCharAirline
  cases h : el.get "airline" <;> simp

/-- The airline filter does not throw on a table whose records all hold a string under
`airline`, and keeps exactly the records whose airline has length 2, in order. -/
theorem filterAirline_total :
    ∀ rows : List Obj, (∀ el ∈ rows, ∃ s, el.get "airline" = .str s) →
      filterAirline rows = some (rows.filter twoCharAirline) := by
  intro rows
  induction rows with
  | nil => intro _; rfl
  | cons el rows ih =>
    intro h
    obtain ⟨s, hs⟩ := h el (List.mem_cons_self _ _)
    have ih' := ih (fun x hx => h x (List.mem_cons_of_mem _ hx))
    unfold filterAirline
    rw [hs, ih']
    simp only [lengthIs, List.filter_cons, twoCharAirline, hs]

/-- Decoding the route feed never makes the airline filter throw. -/
theorem openflights_routes_eq (routesText : String) :
    openflights_routes routesText
      = some ((csv_to_object_array routesText dat_properties_routes false).filter
          twoCharAirline) := by
  unfold openflights_routes
  apply filterAirline_total
  intro el hel
  obtain ⟨line, hline⟩ := mem_csv_to_object_array _ _ _ _ hel
  exact lineToObject_first_column dat_properties_routes "airline" line el rfl (by decide) hline

theorem airports_missing_eq_filter (routes airports : List Obj) :
    airports_missing_from_routes routes airports
      = (unique_route_airports routes).filter
          (fun el => indexOf (airports_with_iata3_codes airports) el == -1) := by
  unfold airports_missing_from_routes
  rw [partitionWith_notArray]

theorem mem_airports_missing (routes airports : List Obj) (c : Val) :
    c ∈ airports_missing_from_routes routes airports ↔
      (∃ r ∈ routes, c = r.get "source_airport" ∨ c = r.get "destination_airport") ∧
      ∀ a ∈ airports_with_iata3 airports, strictEq (a.get "iata") c = false := by
  rw [airports_missing_eq_filter, List.mem_filter]
  unfold unique_route_airports
  rw [mem_arrayFromSet, mem_routeEndpoints, beq_iff_eq, indexOf_eq_neg_one, codes_eq_map]
  simp only [List.mem_map, forall_exists_index, and_imp, forall_apply_eq_imp_iff₂]

theorem intercalate_cons_ne_nil (sep x : List Char) (l : List (List Char)) (hl : l ≠ []) :
    List.intercalate sep (x :: l) = x ++ sep ++ List.intercalate sep l := by
  cases l with
  | nil => exact absurd rfl hl
  | cons y l => simp [List.intercalate]

theorem intercalate_consHead (sep : List Char) (c : Char) (h : List Char)
    (t : List (List Char)) :
    List.intercalate sep ((c :: h) :: t) = c :: List.intercalate sep (h :: t) := by
  cases t with
  | nil => simp [List.intercalate]
  | cons y l => simp [List.intercalate]

/-- Joining the fields of a line with commas gives the line back. -/
theorem intercalate_splitFields : ∀ line : List Char,
    List.intercalate [','] (splitFields line) = line := by
  intro line
  induction line with
  | nil => simp [splitFields, List.intercalate]
  | cons c rest ih =>
    unfold splitFields
    split
    · rename_i hc
      rw [intercalate_cons_ne_nil _ _ _ (splitFields_ne_nil rest), ih, hc.1]
      rfl
    · cases hs : splitFields rest with
      | nil => exact absurd hs (splitFields_ne_nil rest)
      | cons h t =>
        rw [hs] at ih
        simp only [consHead]
        rw [intercalate_consHead, ih]

theorem upToQuote_none {s : List Char} (h : upToQuote s = none) :
    noQuoteToEnd s = true ∧ s.count '"' = 0 := by
  induction s with
  | nil => simp [noQuoteToEnd]
  | cons c cs ih =>
    unfold upToQuote at h
    by_cases hc : c = '"'
    · simp [hc] at h
    · rw [if_neg hc] at h
      have := ih h
      have hc' : ('"' == c) = false := by simpa using fun h' : '"' = c => hc h'.symm
      constructor
      · simp only [noQuoteToEnd, List.all_cons, Bool.and_eq_true]
        exact ⟨by simpa using hc, this.1⟩
      · rw [List.count_cons, this.2]
        simp [hc]

theorem upToQuote_some {s r : List Char} (h : upToQuote s = some r) :
    noQuoteToEnd s = false ∧ s.count '"' = r.count '"' + 1 ∧ r.length < s.length := by
  induction s with
  | nil => simp [upToQuote] at h
  | cons c cs ih =>
    unfold upToQuote at h
    by_cases hc : c = '"'
    · rw [if_pos hc] at h
      simp only [Option.some.injEq] at h
      subst h
      subst hc
      simp [noQuoteToEnd]
    · rw [if_neg hc] at h
      have := ih h
      refine ⟨?_, ?_, ?_⟩
      · have h1 := this.1
        simp only [noQuoteToEnd] at h1 ⊢
        rw [List.all_cons, h1]
        simp
      · rw [List.count_cons, this.2.1]
        simp [hc]
      · simp only [List.length_cons]
        omega

theorem lookaheadFuel_iff : ∀ (fuel : Nat) (s : List Char), s.length ≤ fuel →
    (lookaheadFuel fuel s = true ↔ s.count '"' % 2 = 0) := by
  intro fuel
  induction fuel with
  | zero =>
    intro s hs
    have : s = [] := List.length_eq_zero.mp (Nat.le_zero.mp hs)
    subst this
    simp [lookaheadFuel, noQuoteToEnd]
  | succ n ih =>
    intro s hs
    unfold lookaheadFuel
    cases h1 : upToQuote s with
    | none =>
      have := upToQuote_none h1
      simp [this.1, this.2]
    | some r1 =>
      have a1 := upToQuote_some h1
      cases h2 : upToQuote r1 with
      | none =>
        have a2 := upToQuote_none h2
        simp only [h2, a1.1, Bool.or_false]
        rw [a1.2.1, a2.2]
        simp
      | some r2 =>
        have a2 := upToQuote_some h2
        simp only [h2, a1.1, Bool.or_false]
        rw [ih r2 (by omega), a1.2.1, a2.2.1]
        omega

/-- The lookahead of the field separator succeeds exactly when the number of double quotes in
the rest of the line is even. -/
theorem lookahead_iff (s : List Char) : lookahead s = true ↔ s.count '"' % 2 = 0 :=
  lookaheadFuel_iff s.length s (le_refl _)

theorem fieldBoundary_nil_cons (fields : List (List Char)) (pre post : List Char) :
    FieldBoundary ([] :: fields) (',' :: pre) post ↔ FieldBoundary fields pre post := by
  constructor
  · rintro ⟨before, after, hb, ha, hf, hpre, hpost⟩
    cases before with
    | nil => exact absurd rfl hb
    | cons b bs =>
      simp only [List.cons_append, List.cons.injEq] at hf
      obtain ⟨hb0, hf⟩ := hf
      subst hb0
      cases bs with
      | nil => simp [List.intercalate] at hpre
      | cons b' bs' =>
        rw [intercalate_cons_ne_nil _ _ _ (by simp)] at hpre
        simp only [List.nil_append, List.singleton_append, List.cons.injEq, true_and] at hpre
        exact ⟨b' :: bs', after, by simp, ha, hf, hpre, hpost⟩
  · rintro ⟨before, after, hb, ha, hf, hpre, hpost⟩
    refine ⟨[] :: before, after, by simp, ha, by simp [hf], ?_, hpost⟩
    rw [intercalate_cons_ne_nil _ _ _ hb, hpre]
    rfl

theorem fieldBoundary_consHead (c : Char) (h : List Char) (t : List (List Char))
    (pre post : List Char) :
    FieldBoundary ((c :: h) :: t) (c :: pre) post ↔ FieldBoundary (h :: t) pre post := by
  constructor
  · rintro ⟨before, after, hb, ha, hf, hpre, hpost⟩
    cases before with
    | nil => exact absurd rfl hb
    | cons b bs =>
      simp only [List.cons_append, List.cons.injEq] at hf
      obtain ⟨hb0, hf⟩ := hf
      subst hb0
      rw [intercalate_consHead] at hpre
      simp only [List.cons.injEq, true_and] at hpre
      exact ⟨h :: bs, after, by simp, ha, by simp [hf], hpre, hpost⟩
  · rintro ⟨before, after, hb, ha, hf, hpre, hpost⟩
    cases before with
    | nil => exact absurd rfl hb
    | cons b bs =>
      simp only [List.cons_append, List.cons.injEq] at hf
      obtain ⟨hb0, hf⟩ := hf
      subst hb0
      refine ⟨(c :: h) :: bs, after, by simp, ha, by simp [hf], ?_, hpost⟩
      rw [intercalate_consHead, hpre]

/-- The field list of a line has a boundary at a comma exactly when the lookahead succeeds on
the text after that comma. -/
theorem fieldBoundary_iff_lookahead : ∀ (pre post : List Char),
    FieldBoundary (splitFields (pre ++ ',' :: post)) pre post ↔ lookahead post = true := by
  intro pre
  induction pre with
  | nil =>
    intro post
    simp only [List.nil_append]
    unfold splitFields
    by_cases hl : lookahead post = true
    · rw [if_pos ⟨rfl, hl⟩]
      refine ⟨fun _ => hl, fun _ => ?_⟩
      exact ⟨[[]], splitFields post, by simp, splitFields_ne_nil post, rfl, rfl,
        intercalate_splitFields post⟩
    · rw [if_neg (fun h => hl h.2)]
      refine ⟨?_, fun h => absurd h hl⟩
      rintro ⟨before, after, hb, ha, hf, hpre, hpost⟩
      exfalso
      cases hs : splitFields post with
      | nil => exact absurd hs (splitFields_ne_nil post)
      | cons h t =>
        rw [hs] at hf
        simp only [consHead] at hf
        cases before with
        | nil => exact absurd rfl hb
        | cons b bs =>
          simp only [List.cons_append, List.cons.injEq] at hf
          rw [← hf.1, intercalate_consHead] at hpre
          simp at hpre
  | cons c pre ih =>
    intro post
    simp only [List.cons_append]
    unfold splitFields
    split
    · rename_i hc
      rw [hc.1, fieldBoundary_nil_cons]
      exact ih post
    · cases hs : splitFields (pre ++ ',' :: post) with
      | nil => exact absurd hs (splitFields_ne_nil _)
      | cons h t =>
        simp only [consHead]
        rw [fieldBoundary_consHead, ← hs]
        exact ih post

theorem stripQuotesAux_false : ∀ s : List Char, stripQuotesAux false s = dropTrailingQuote s := by
  intro s
  induction s with
  | nil => simp [stripQuotesAux, dropTrailingQuote]
  | cons c cs ih =>
    unfold stripQuotesAux
    cases cs with
    | nil =>
      by_cases hc : c = '"'
      · simp [hc, stripQuotesAux, dropTrailingQuote]
      · simp [hc, stripQuotesAux, dropTrailingQuote]
    | cons d ds =>
      have hcond : ¬ (c = '"' ∧ (false = true ∨ d :: ds = [])) := by simp
      rw [if_neg hcond, ih]
      unfold dropTrailingQuote
      rw [List.getLast?_cons_cons]
      by_cases hl : (d :: ds).getLast? = some '"'
      · rw [if_pos hl, if_pos hl, List.dropLast_cons₂]
      · rw [if_neg hl, if_neg hl]

/-- The scan of `stripQuotes` removes one leading and then one trailing double quote. -/
theorem stripQuotesAux_true (s : List Char) :
    stripQuotesAux true s = dropTrailingQuote (dropLeadingQuote s) := by
  cases s with
  | nil => simp [stripQuotesAux, dropLeadingQuote, dropTrailingQuote]
  | cons c cs =>
    unfold stripQuotesAux dropLeadingQuote
    by_cases hc : c = '"'
    · simp only [hc, true_or, and_self, if_true]
      exact stripQuotesAux_false cs
    · simp only [hc, false_and, if_false]
      rw [stripQuotesAux_false]
      unfold dropTrailingQuote
      cases cs with
      | nil => simp [hc]
      | cons d ds =>
        rw [List.getLast?_cons_cons]
        by_cases hl : (d :: ds).getLast? = some '"'
        · rw [if_pos hl, if_pos hl, List.dropLast_cons₂]
        · rw [if_neg hl, if_neg hl]

theorem cleanTxt_eq (field : List Char) :
    cleanTxt (String.mk field)
      = String.mk ((dropTrailingQuote (dropLeadingQuote field)).filter (fun c => c != ',')) := by
  simp [cleanTxt, compose, stripQuotes, removeCommas, stripQuotesAux_true]

theorem mem_insertIndex (n : Nat) (k : String) (v : Val) (kv : String × Val) :
    ∀ o : Obj, kv ∈ insertIndex n k v o → kv ∈ o ∨ kv = (k, v) := by
  intro o
  induction o with
  | nil => intro h; simpa [insertIndex] using h
  | cons x rest ih =>
    obtain ⟨k', v'⟩ := x
    intro h
    unfold insertIndex at h
    cases hi : arrayIndex k' with
    | none =>
      simp only [hi, List.mem_cons] at h
      simp only [List.mem_cons]
      tauto
    | some m =>
      simp only [hi] at h
      by_cases hmn : m < n
      · simp only [hmn, if_true, List.mem_cons] at h
        rcases h with h | h
        · exact Or.inl (List.mem_cons.mpr (Or.inl h))
        · rcases ih h with h' | h'
          · exact Or.inl (List.mem_cons_of_mem _ h')
          · exact Or.inr h'
      · simp only [hmn, if_false, List.mem_cons] at h
        simp only [List.mem_cons]
        tauto

/-- Every property of an object after an assignment was there before or is the assigned one. -/
theorem mem_set (o : Obj) (k : String) (v : Val) (kv : String × Val)
    (h : kv ∈ o.set k v) : kv ∈ o ∨ kv = (k, v) := by
  unfold Obj.set at h
  split at h
  · exact Or.inl h
  · split at h
    · rw [List.mem_map] at h
      obtain ⟨x, hx, hxe⟩ := h
      split at hxe
      · exact Or.inr hxe.symm
      · exact Or.inl (hxe ▸ hx)
    · split at h
      · exact mem_insertIndex _ _ _ _ _ h
      · rw [List.mem_append, List.mem_singleton] at h
        exact h

theorem mem_fieldsToObject (prop_list : List String) (kv : String × Val) :
    ∀ (fields : List (List Char)) (idx : Nat) (acc : Obj),
      kv ∈ fieldsToObject prop_list idx fields acc →
      kv ∈ acc ∨ ∃ field ∈ fields, kv.2 = .str (cleanTxt (String.mk field)) := by
  intro fields
  induction fields with
  | nil => intro idx acc h; exact Or.inl (by simpa [fieldsToObject] using h)
  | cons f fields ih =>
    intro idx acc h
    unfold fieldsToObject at h
    rcases ih _ _ h with h' | ⟨field, hf, hv⟩
    · rcases mem_set _ _ _ _ h' with h'' | h''
      · exact Or.inl h''
      · exact Or.inr ⟨f, List.mem_cons_self _ _, by rw [h'']⟩
    · exact Or.inr ⟨field, List.mem_cons_of_mem _ hf, hv⟩

/-- Every record of `csv_to_object_array` is the record of a non-empty line of the text. -/
theorem mem_csv_to_object_array_line (text : String) (prop_list : List String) (hasHdr : Bool)
    (o : Obj) (h : o ∈ csv_to_object_array text prop_list hasHdr) :
    ∃ line ∈ splitLines text.data, line ≠ [] ∧
      o = fieldsToObject prop_list 0 (splitFields line) [] := by
  unfold csv_to_object_array at h
  rw [List.mem_filterMap] at h
  obtain ⟨x, hx, hxo⟩ := h
  rw [List.mem_map] at hx
  obtain ⟨line, hmem, hline⟩ := hx
  have hmem' : line ∈ splitLines text.data := by
    cases hasHdr with
    | true => exact List.mem_of_mem_drop hmem
    | false => exact hmem
  refine ⟨line, hmem', ?_⟩
  rw [← hline] at hxo
  unfold lineToObject at hxo
  simp only [id] at hxo
  split at hxo
  · rename_i hlen
    exact ⟨List.length_pos.mp hlen, by simpa using hxo.symm⟩
  · simp at hxo

theorem splitOnLF_ne_nil : ∀ text : List Char, splitOnLF text ≠ [] := by
  intro text
  cases text with
  | nil => simp [splitOnLF]
  | cons c rest =>
    unfold splitOnLF
    split
    · simp
    · cases splitOnLF rest <;> simp [consHead]

theorem splitOnLF_head_nil_iff (text : List Char) :
    (splitOnLF text).head? = some [] ↔ text = [] ∨ text.head? = some '\n' := by
  cases text with
  | nil => simp [splitOnLF]
  | cons c rest =>
    unfold splitOnLF
    by_cases hc : c = '\n'
    · simp [hc]
    · rw [if_neg hc]
      cases splitOnLF rest <;> simp [consHead, hc]

/-- The lines `text.split(/\r?\n/)` are the pieces between line feeds, without the carriage
return that stands right before a line feed. -/
theorem splitLines_eq : ∀ text : List Char, splitLines text = stripBreakCR (splitOnLF text) := by
  intro text
  induction text with
  | nil => simp [splitLines, splitOnLF, stripBreakCR]
  | cons c rest ih =>
    unfold splitLines splitOnLF
    by_cases hc : c = '\n'
    · rw [if_pos hc, if_pos hc, ih]
      cases hs : splitOnLF rest with
      | nil => exact absurd hs (splitOnLF_ne_nil rest)
      | cons h t => simp [stripBreakCR, dropTrailingCR]
    · rw [if_neg hc, if_neg hc]
      by_cases hcr : c = '\r' ∧ rest.head? = some '\n'
      · rw [if_pos hcr, ih]
        obtain ⟨hc1, hrest⟩ := hcr
        cases rest with
        | nil => simp at hrest
        | cons d ds =>
          simp only [List.head?_cons, Option.some.injEq] at hrest
          subst hrest
          subst hc1
          simp only [splitOnLF, if_true]
          cases hs : splitOnLF ds with
          | nil => exact absurd hs (splitOnLF_ne_nil ds)
          | cons h t => simp [consHead, stripBreakCR, dropTrailingCR]
      · rw [if_neg hcr, ih]
        cases hs : splitOnLF rest with
        | nil => exact absurd hs (splitOnLF_ne_nil rest)
        | cons h t =>
          cases t with
          | nil => simp [consHead, stripBreakCR]
          | cons h2 t2 =>
            simp only [consHead, stripBreakCR, List.cons.injEq, and_true]
            unfold dropTrailingCR
            cases h with
            | nil =>
              have hh : (splitOnLF rest).head? = some [] := by rw [hs]; rfl
              rw [splitOnLF_head_nil_iff] at hh
              have hne : c ≠ '\r' := by
                intro hcr'
                rcases hh with hh | hh
                · rw [hh] at hs
                  simp [splitOnLF] at hs
                · exact hcr ⟨hcr', hh⟩
              simp [hne]
            | cons x xs =>
              rw [List.getLast?_cons_cons]
              by_cases hl : (x :: xs).getLast? = some '\r'
              · rw [if_pos hl, if_pos hl, List.dropLast_cons₂]
              · rw [if_neg hl, if_neg hl]

theorem filterMap_lineToObject (prop_list : List String) :
    ∀ lines : List (List Char),
      (lines.map (lineToObject prop_list)).filterMap id
        = (lines.filter (fun line => !line.isEmpty)).map
            (fun line => fieldsToObject prop_list 0 (splitFields line) []) := by
  intro lines
  induction lines with
  | nil => rfl
  | cons l ls ih =>
    rw [List.map_cons, List.filterMap_cons, List.filter_cons]
    cases l with
    | nil => simpa [lineToObject] using ih
    | cons c cs => simp [lineToObject, ih]

theorem propKey_of_get? {prop_list : List String} {idx : Nat} {name : String}
    (h : prop_list.get? idx = some name) : propKey prop_list idx = name := by
  unfold propKey
  rw [h]

theorem fieldsToObject_get_other (prop_list : List String) (a : String) :
    ∀ (fields : List (List Char)) (idx : Nat) (acc : Obj),
      (∀ j, j < fields.length → propKey prop_list (idx + j) ≠ a) →
      (fieldsToObject prop_list idx fields acc).get a = acc.get a := by
  intro fields
  induction fields with
  | nil => intro idx acc _; rfl
  | cons f fields ih =>
    intro idx acc h
    unfold fieldsToObject
    rw [ih]
    · exact get_set_of_ne acc a _ _ (fun hk => h 0 (by simp) (by simpa using hk.symm))
    · intro j hj
      have := h (j + 1) (by simpa using hj)
      rwa [show idx + (j + 1) = idx + 1 + j by omega] at this

/-- With distinct column names, none of them `__proto__`, and no more fields than columns, the
record reads the cleaned `i`-th field under the `i`-th column name. -/
theorem fieldsToObject_get (prop_list : List String) (hnd : prop_list.Nodup)
    (hp : "__proto__" ∉ prop_list) :
    ∀ (fields : List (List Char)) (idx : Nat) (acc : Obj) (i : Nat) (field : List Char)
      (name : String),
      idx + fields.length ≤ prop_list.length →
      fields.get? i = some field → prop_list.get? (idx + i) = some name →
      (fieldsToObject prop_list idx fields acc).get name
        = .str (cleanTxt (String.mk field)) := by
  intro fields
  induction fields with
  | nil => intro idx acc i field name _ hf; simp at hf
  | cons f fields ih =>
    intro idx acc i field name hlen hf hn
    simp only [List.length_cons] at hlen
    unfold fieldsToObject
    cases i with
    | zero =>
      simp only [List.get?_cons_zero, Option.some.injEq] at hf
      subst hf
      rw [Nat.add_zero] at hn
      rw [propKey_of_get? hn, fieldsToObject_get_other]
      · apply get_set_self
        intro h
        exact hp (h ▸ List.get?_mem hn)
      · intro j hj hk
        have hlt : idx + 1 + j < prop_list.length := by omega
        have hne := (List.nodup_iff_get?_ne_get?.mp hnd) idx (idx + 1 + j) (by omega) hlt
        apply hne
        rw [hn]
        unfold propKey at hk
        cases hg : prop_list.get? (idx + 1 + j) with
        | none =>
          rw [List.get?_eq_none] at hg
          omega
        | some k =>
          rw [hg] at hk
          simp only at hk
          rw [hk]
    | succ i' =>
      simp only [List.get?_cons_succ] at hf
      exact ih (idx + 1) _ i' field name (by omega) hf
        (by rwa [show idx + 1 + i' = idx + (i' + 1) by omega])

theorem flatten_map_cons_eq (sep : Char) : ∀ (x : List Char) (l : List (List Char)),
    List.intercalate [sep] (x :: l) = x ++ (l.map (fun y => sep :: y)).flatten := by
  intro x l
  induction l generalizing x with
  | nil => simp [List.intercalate]
  | cons y l ih =>
    rw [intercalate_cons_ne_nil _ _ _ (by simp), ih y]
    simp

theorem count_flatten_map_cons (c sep : Char) (hsep : c ≠ sep) :
    ∀ l : List (List Char),
      (l.map (fun y => sep :: y)).flatten.count c = (l.map (fun y => y.count c)).sum := by
  intro l
  induction l with
  | nil => rfl
  | cons y l ih =>
    have hb : (sep == c) = false := by simpa using fun h : sep = c => hsep h.symm
    simp only [List.map_cons, List.flatten_cons, List.count_append, List.sum_cons, ih,
      List.count_cons, hb, Bool.false_eq_true, if_false, Nat.add_zero]

/-- Joining with a separator adds no character other than the separator. -/
theorem count_intercalate (c sep : Char) (hsep : c ≠ sep) (xs : List (List Char)) :
    (List.intercalate [sep] xs).count c = (xs.map (fun y => y.count c)).sum := by
  cases xs with
  | nil => simp [List.intercalate]
  | cons x l =>
    rw [flatten_map_cons_eq, List.count_append, count_flatten_map_cons c sep hsep]
    simp

/-! ## The route resolver and the routes output -/

/-- C1 (as amended): the routes output table is the computed routes followed by the override
routes, and every computed route has a `StartingAirport` and a `DestinationAirport` that each
equal the `IATA3` of some record of `all_airports`; the override routes are not checked. -/
theorem routes_output_computed_endpoints (haversine : Val → Val → Val → Val → Val)
    (routes airportsWithIata3 : List Obj) (files : List CacheFile)
    (extraAirportsText extraRoutesText : String) (table : List Obj)
    (h : routes_output haversine routes airportsWithIata3 files extraAirportsText
      extraRoutesText = some table) :
    ∃ computed : List Obj,
      table = computed ++ extra_routes extraRoutesText ∧
      ∀ r ∈ computed,
        (∃ a ∈ all_airports airportsWithIata3 files extraAirportsText,
          a.get "IATA3" = r.get "StartingAirport") ∧
        (∃ b ∈ all_airports airportsWithIata3 files extraAirportsText,
          b.get "IATA3" = r.get "DestinationAirport") := by
  unfold routes_output at h
  cases hc : clean_routes_csv haversine routes (still_nothing files extraAirportsText)
      (all_airports airportsWithIata3 files extraAirportsText) with
  | none => simp [hc] at h
  | some computed =>
    simp only [hc, Option.some.injEq] at h
    refine ⟨computed, h.symm, ?_⟩
    intro r hr
    rcases reduceRoutes_mem haversine _ _ [] computed hc r hr with
      hnil | ⟨el, _, s, d, e, h1, h2, _, h4⟩
    · simp at hnil
    · have hg := newRoute_get haversine s d el (splitOnSpace e.data)
      rw [← h4] at hg
      exact ⟨⟨s, (find_kv_some h1).1, by rw [hg.1]; exact (find_kv_some h1).2⟩,
        ⟨d, (find_kv_some h2).1, by rw [hg.2.1]; exact (find_kv_some h2).2⟩⟩

/-- C1, witness: the amended statement on a run with one computed and one override route. -/
theorem routes_output_computed_endpoints_witness :
    routes_output exampleDistance [exampleRoute] [] exampleCache exampleExtraAirportsText
        exampleExtraRoutesText
      = some (exampleComputed :: extra_routes exampleExtraRoutesText) ∧
    ∃ computed : List Obj,
      exampleComputed :: extra_routes exampleExtraRoutesText
        = computed ++ extra_routes exampleExtraRoutesText ∧
      ∀ r ∈ computed,
        (∃ a ∈ all_airports [] exampleCache exampleExtraAirportsText,
          a.get "IATA3" = r.get "StartingAirport") ∧
        (∃ b ∈ all_airports [] exampleCache exampleExtraAirportsText,
          b.get "IATA3" = r.get "DestinationAirport") :=
  ⟨by decide,
    routes_output_computed_endpoints exampleDistance [exampleRoute] [] exampleCache
      exampleExtraAirportsText exampleExtraRoutesText _ (by decide)⟩

/-- C1, counterexample: with no computed route and the override route `ERT` to `MON`, the routes
output table holds a record whose `StartingAirport` is the `IATA3` of no record of
`all_airports` (which holds `MON` only). -/
theorem override_route_endpoint_unknown :
    routes_output exampleDistance [] [] [] exampleExtraAirportsText exampleExtraRoutesText
      = some [[("ID", .str "ERTMONXX"), ("StartingAirport", .str "ERT"),
          ("DestinationAirport", .str "MON"), ("Airline", .str "XX"),
          ("Distance", .str "384400"), ("Equipment1", .str "SAT"), ("Equipment2", .str ""),
          ("Equipment3", .str ""), ("Equipment4", .str ""), ("Equipment5", .str ""),
          ("Equipment6", .str ""), ("Equipment7", .str ""), ("Equipment8", .str ""),
          ("Equipment9", .str "")]] ∧
    (all_airports [] [] exampleExtraAirportsText).map (fun a => a.get "IATA3") = [.str "MON"] ∧
    ¬ ∃ a ∈ all_airports [] [] exampleExtraAirportsText, a.get "IATA3" = Val.str "ERT" := by
  decide

/-- C2: every record emitted by the route resolver comes from an input route both of whose
lookups in `all_airports` succeeded, so that its `StartingAirport` and `DestinationAirport` are
each the `IATA3` of a record of `all_airports`; and a route for which a lookup finds nothing
leaves the accumulator unchanged without raising an error. -/
theorem clean_routes_csv_lookups_succeeded (haversine : Val → Val → Val → Val → Val)
    (routes : List Obj) (stillNothing : List Val) (allAirports computed : List Obj)
    (h : clean_routes_csv haversine routes stillNothing allAirports = some computed) :
    (∀ r ∈ computed, ∃ dat_el ∈ routes, ∃ s ∈ allAirports, ∃ d ∈ allAirports,
      find_kv_in_obj_array allAirports "IATA3" (dat_el.get "source_airport") = some s ∧
      find_kv_in_obj_array allAirports "IATA3" (dat_el.get "destination_airport") = some d ∧
      r.get "StartingAirport" = dat_el.get "source_airport" ∧
      r.get "DestinationAirport" = dat_el.get "destination_airport" ∧
      s.get "IATA3" = r.get "StartingAirport" ∧
      d.get "IATA3" = r.get "DestinationAirport") ∧
    (∀ (acc : List Obj) (dat_el : Obj),
      (find_kv_in_obj_array allAirports "IATA3" (dat_el.get "source_airport") = none ∨
       find_kv_in_obj_array allAirports "IATA3" (dat_el.get "destination_airport") = none) →
      routeReducer haversine allAirports acc dat_el = some acc) := by
  constructor
  · intro r hr
    rcases reduceRoutes_mem haversine _ _ [] computed h r hr with
      hnil | ⟨el, hel, s, d, e, h1, h2, _, h4⟩
    · simp at hnil
    · have hg := newRoute_get haversine s d el (splitOnSpace e.data)
      rw [← h4] at hg
      refine ⟨el, List.mem_of_mem_filter hel, s, (find_kv_some h1).1, d, (find_kv_some h2).1,
        h1, h2, hg.1, hg.2.1, ?_, ?_⟩
      · rw [hg.1]; exact (find_kv_some h1).2
      · rw [hg.2.1]; exact (find_kv_some h2).2
  · intro acc dat_el hnone
    unfold routeReducer
    rcases hnone with h1 | h1
    · rw [h1]
    · rw [h1]
      cases find_kv_in_obj_array allAirports "IATA3" (dat_el.get "source_airport") <;> rfl

/-- C2, witness: the resolver on the route JFK to LAX with both airports known. -/
theorem clean_routes_csv_lookups_succeeded_witness :
    clean_routes_csv exampleDistance [exampleRoute] [] exampleAirports = some [exampleComputed] ∧
    ∀ r ∈ [exampleComputed], ∃ dat_el ∈ [exampleRoute],
      ∃ s ∈ exampleAirports, ∃ d ∈ exampleAirports,
      find_kv_in_obj_array exampleAirports "IATA3" (dat_el.get "source_airport") = some s ∧
      find_kv_in_obj_array exampleAirports "IATA3" (dat_el.get "destination_airport") = some d ∧
      r.get "StartingAirport" = dat_el.get "source_airport" ∧
      r.get "DestinationAirport" = dat_el.get "destination_airport" ∧
      s.get "IATA3" = r.get "StartingAirport" ∧
      d.get "IATA3" = r.get "DestinationAirport" :=
  ⟨by decide,
    (clean_routes_csv_lookups_succeeded exampleDistance [exampleRoute] [] exampleAirports
      [exampleComputed] (by decide)).1⟩

/-! ## Set reconciliation -/

/-- C3: a code is in the gap list `airports_missing_from_routes` exactly when it is the source
or the destination code of some route and no usable airport has it as `iata` (compared with
`===`, as `indexOf` does); the unique route-airport list and the gap list have no duplicates. -/
theorem gap_list_characterised (routes airports : List Obj) :
    (∀ c : Val, c ∈ airports_missing_from_routes routes airports ↔
      (∃ r ∈ routes, c = r.get "source_airport" ∨ c = r.get "destination_airport") ∧
      ∀ a ∈ airports_with_iata3 airports, strictEq (a.get "iata") c = false) ∧
    (unique_route_airports routes).Nodup ∧
    (airports_missing_from_routes routes airports).Nodup := by
  refine ⟨mem_airports_missing routes airports, arrayFromSet_nodup _, ?_⟩
  rw [airports_missing_eq_filter]
  exact (arrayFromSet_nodup _).filter _

/-- C4: `partitionWith` puts an airport record in `airports_with_iata3` exactly when its `iata`
is neither `\N` nor the empty string and in the second (codeless) part otherwise, keeping the
order; `airports_with_iata3_codes` is the list of `iata` values of `airports_with_iata3` in the
same order; hence a row whose `iata` is `\N` is codeless and `\N` is no known code. -/
theorem partition_airports_by_iata (airports : List Obj) :
    (partitionAirports airports).1
      = airports.filter
          (fun el => decide (el.get "iata" ≠ .str "\\N" ∧ el.get "iata" ≠ .str "")) ∧
    (partitionAirports airports).2
      = airports.filter
          (fun el => decide (el.get "iata" = .str "\\N" ∨ el.get "iata" = .str "")) ∧
    airports_with_iata3_codes airports
      = (airports_with_iata3 airports).map (fun el => el.get "iata") ∧
    (∀ el ∈ airports, el.get "iata" = .str "\\N" →
      el ∈ (partitionAirports airports).2 ∧ el ∉ airports_with_iata3 airports) ∧
    Val.str "\\N" ∉ airports_with_iata3_codes airports := by
  have h1 : (partitionAirports airports).1
      = airports.filter
          (fun el => decide (el.get "iata" ≠ .str "\\N" ∧ el.get "iata" ≠ .str "")) := by
    unfold partitionAirports
    rw [partitionWith_notArray]
    apply List.filter_congr
    intro el _
    have := hasNoIata_iff el
    by_cases h : hasNoIata el = true
    · have h' := this.mp h
      simp only [h, Bool.not_true]
      symm
      rw [decide_eq_false_iff_not]
      tauto
    · have h' : ¬ (el.get "iata" = .str "\\N" ∨ el.get "iata" = .str "") :=
        fun hh => h (this.mpr hh)
      have hf : hasNoIata el = false := by simpa using h
      simp only [hf, Bool.not_false]
      symm
      rw [decide_eq_true_iff]
      tauto
  have h2 : (partitionAirports airports).2
      = airports.filter
          (fun el => decide (el.get "iata" = .str "\\N" ∨ el.get "iata" = .str "")) := by
    unfold partitionAirports
    rw [partitionWith_notArray]
    apply List.filter_congr
    intro el _
    have := hasNoIata_iff el
    by_cases h : hasNoIata el = true
    · rw [h]
      symm
      rw [decide_eq_true_iff]
      exact this.mp h
    · have hf : hasNoIata el = false := by simpa using h
      rw [hf]
      symm
      rw [decide_eq_false_iff_not]
      exact fun hh => h (this.mpr hh)
  refine ⟨h1, h2, codes_eq_map airports, ?_, ?_⟩
  · intro el hel hN
    constructor
    · rw [h2, List.mem_filter]
      exact ⟨hel, by simp [hN]⟩
    · unfold airports_with_iata3
      rw [h1, List.mem_filter]
      simp [hN]
  · rw [codes_eq_map]
    unfold airports_with_iata3
    rw [h1]
    simp only [List.mem_map, List.mem_filter, not_exists, not_and]
    intro el hel hN
    rw [decide_eq_true_iff] at hel
    exact absurd hN hel.2.1

/-- The example of the docstring of `partitionWith`: the numbers 1 to 10 and `isEven`. -/
theorem partitionWith_docstring_example :
    partitionWith JsItem.asArray
        (fun el => match el with
          | .num n => n % 2 == 0
          | .arr _ => false)
        [.num 1, .num 2, .num 3, .num 4, .num 5, .num 6, .num 7, .num 8, .num 9, .num 10]
      = ([.num 1, .num 3, .num 5, .num 7, .num 9],
         [.num 2, .num 4, .num 6, .num 8, .num 10]) := by
  rfl

/-- C5 (failing input): on the array `[[1,2],[3],4]` with the predicate `Array.isArray`,
`partitionWith` returns `[[4],[1,2,3]]`: the matching elements `[1,2]` and `[3]` are spread by
`concat`, so the second array holds the three numbers, none of which matches, and the two
lengths sum to 4 and not to 3. -/
theorem partitionWith_spreads_array_elements :
    partitionWith JsItem.asArray (fun el => (JsItem.asArray el).isSome)
        [.arr [.num 1, .num 2], .arr [.num 3], .num 4]
      = ([.num 4], [.num 1, .num 2, .num 3]) := by
  rfl

/-- C6: decoding the route feed and filtering on the airline never fails, and keeps exactly
the rows whose airline code is a string of length 2, the length being the one JavaScript tests:
the number of UTF-16 code units. Everything downstream is computed from the kept rows only:
every code of the unique route-airport list and of the gap list is an endpoint of a kept row,
and every computed route record has an `Airline` of length exactly 2. -/
theorem airline_filter_excludes_rows (routesText : String) :
    ∃ routes : List Obj,
      openflights_routes routesText = some routes ∧
      (∀ el : Obj, el ∈ routes ↔
        el ∈ csv_to_object_array routesText dat_properties_routes false ∧
        ∃ s, el.get "airline" = .str s ∧ jsLength s = 2) ∧
      (∀ c ∈ unique_route_airports routes,
        ∃ el ∈ csv_to_object_array routesText dat_properties_routes false,
          (∃ s, el.get "airline" = .str s ∧ jsLength s = 2) ∧
          (c = el.get "source_airport" ∨ c = el.get "destination_airport")) ∧
      (∀ (airports : List Obj), ∀ c ∈ airports_missing_from_routes routes airports,
        ∃ el ∈ csv_to_object_array routesText dat_properties_routes false,
          (∃ s, el.get "airline" = .str s ∧ jsLength s = 2) ∧
          (c = el.get "source_airport" ∨ c = el.get "destination_airport")) ∧
      (∀ (haversine : Val → Val → Val → Val → Val) (stillNothing : List Val)
          (allAirports computed : List Obj),
        clean_routes_csv haversine routes stillNothing allAirports = some computed →
        ∀ r ∈ computed, ∃ s, r.get "Airline" = .str s ∧ jsLength s = 2) := by
  refine ⟨_, openflights_routes_eq routesText, ?_, ?_, ?_, ?_⟩
  · intro el
    rw [List.mem_filter, twoCharAirline_iff]
  · intro c hc
    unfold unique_route_airports at hc
    rw [mem_arrayFromSet, mem_routeEndpoints] at hc
    obtain ⟨el, hel, hce⟩ := hc
    rw [List.mem_filter, twoCharAirline_iff] at hel
    exact ⟨el, hel.1, hel.2, hce⟩
  · intro airports c hc
    rw [mem_airports_missing] at hc
    obtain ⟨⟨el, hel, hce⟩, _⟩ := hc
    rw [List.mem_filter, twoCharAirline_iff] at hel
    exact ⟨el, hel.1, hel.2, hce⟩
  · intro haversine stillNothing allAirports computed h r hr
    rcases reduceRoutes_mem haversine _ _ [] computed h r hr with
      hnil | ⟨el, hel, s, d, e, _, _, _, h4⟩
    · simp at hnil
    · have hel' := List.mem_of_mem_filter hel
      rw [List.mem_filter, twoCharAirline_iff] at hel'
      rw [h4, (newRoute_get haversine s d el _).2.2]
      exact hel'.2

/-- C6, witness: of the two rows `AB1,...` and `AA,...` only the second is kept. The length
is counted in UTF-16 code units: an airline written with the one character U+1F600 has length 2
and its row is kept, an airline of that character after a letter has length 3 and its row is
dropped. -/
theorem airline_filter_excludes_rows_witness :
    openflights_routes
        "AB1,24,JFK,3797,LAX,3484,,0,738\nAA,24,JFK,3797,LAX,3484,,0,738 320"
      = some [exampleRoute] ∧
    (openflights_routes "😀,24,JFK,3797,LAX,3484,,0,738\nA😀,24,JFK,3797,LAX,3484,,0,738").map
        (List.map (fun el => el.get "airline"))
      = some [.str "😀"] ∧
    ∃ routes : List Obj,
      openflights_routes
          "AB1,24,JFK,3797,LAX,3484,,0,738\nAA,24,JFK,3797,LAX,3484,,0,738 320"
        = some routes ∧
      (∀ el : Obj, el ∈ routes ↔
        el ∈ csv_to_object_array
            "AB1,24,JFK,3797,LAX,3484,,0,738\nAA,24,JFK,3797,LAX,3484,,0,738 320"
            dat_properties_routes false ∧
        ∃ s, el.get "airline" = .str s ∧ jsLength s = 2) :=
  ⟨by decide, by decide,
    (airline_filter_excludes_rows
      "AB1,24,JFK,3797,LAX,3484,,0,738\nAA,24,JFK,3797,LAX,3484,,0,738 320").imp
      (fun _ h => ⟨h.1, h.2.1⟩)⟩

/-! ## The tabular decoder and encoder -/

/-- C7: a non-empty line is turned into a record from the fields of `splitFields`; these fields,
joined by commas, are the line again (so fields are separated at commas only), and there is a
field boundary at a comma of the line exactly when the number of double quotes after that comma
is even. Hence in a line with an even number of quotes, a comma preceded by an odd number of
quotes (a comma inside a quoted field) starts no new field. -/
theorem split_at_commas_before_even_quotes (prop_list : List String) (line : List Char)
    (hline : line ≠ []) :
    lineToObject prop_list line = some (fieldsToObject prop_list 0 (splitFields line) []) ∧
    List.intercalate [','] (splitFields line) = line ∧
    (∀ pre post : List Char, line = pre ++ ',' :: post →
      (FieldBoundary (splitFields line) pre post ↔ post.count '"' % 2 = 0)) ∧
    (∀ pre post : List Char, line = pre ++ ',' :: post →
      line.count '"' % 2 = 0 → pre.count '"' % 2 = 1 →
      ¬ FieldBoundary (splitFields line) pre post) := by
  refine ⟨?_, intercalate_splitFields line, ?_, ?_⟩
  · unfold lineToObject
    rw [if_pos (List.length_pos.mpr hline)]
  · intro pre post h
    rw [h, fieldBoundary_iff_lookahead, lookahead_iff]
  · intro pre post h heven hodd hb
    rw [h, fieldBoundary_iff_lookahead, lookahead_iff] at hb
    rw [h, List.count_append, List.count_cons] at heven
    simp only [show (',' == '"') = false from by decide, Bool.false_eq_true, if_false,
      Nat.add_zero] at heven
    omega

/-- C7, witness: the line `a,"b,c",d` has three fields. -/
theorem split_at_commas_before_even_quotes_witness :
    "a,\"b,c\",d".data ≠ [] ∧
    splitFields "a,\"b,c\",d".data = ["a".data, "\"b,c\"".data, "d".data] ∧
    List.intercalate [','] (splitFields "a,\"b,c\",d".data) = "a,\"b,c\",d".data :=
  ⟨by decide, by decide,
    (split_at_commas_before_even_quotes [] "a,\"b,c\",d".data (by decide)).2.1⟩

/-- C8: every value stored in a record of `csv_to_object_array` is a string: a field of one of
the lines, with one leading double quote removed if there is one, then one trailing double
quote removed if there is one (all other quotes are kept), then every comma removed; so the
value holds no comma. -/
theorem decoded_values_cleaned (text : String) (prop_list : List String) (hasHdr : Bool)
    (o : Obj) (kv : String × Val) (ho : o ∈ csv_to_object_array text prop_list hasHdr)
    (hkv : kv ∈ o) :
    ∃ line ∈ splitLines text.data, ∃ field ∈ splitFields line,
      kv.2 = .str (String.mk
        ((dropTrailingQuote (dropLeadingQuote field)).filter (fun c => c != ','))) ∧
      kv.2 = .str (cleanTxt (String.mk field)) ∧
      ',' ∉ (cleanTxt (String.mk field)).data := by
  obtain ⟨line, hline, _, hrec⟩ := mem_csv_to_object_array_line text prop_list hasHdr o ho
  rw [hrec] at hkv
  rcases mem_fieldsToObject prop_list kv _ _ _ hkv with h | ⟨field, hf, hv⟩
  · simp at h
  · refine ⟨line, hline, field, hf, ?_, hv, ?_⟩
    · rw [hv, cleanTxt_eq]
    · rw [cleanTxt_eq]
      simp [List.mem_filter]

/-- C8, witness: the value decoded from the quoted field of the line `a,"b ""q"", c",d` keeps
its inner quotes and loses its comma. -/
theorem decoded_values_cleaned_witness :
    csv_to_object_array "a,\"b \"\"q\"\", c\",d" ["x", "y", "z"] false
      = [[("x", .str "a"), ("y", .str "b \"\"q\"\" c"), ("z", .str "d")]] ∧
    ∃ line ∈ splitLines "a,\"b \"\"q\"\", c\",d".data, ∃ field ∈ splitFields line,
      Val.str "b \"\"q\"\" c" = .str (String.mk
        ((dropTrailingQuote (dropLeadingQuote field)).filter (fun c => c != ','))) ∧
      Val.str "b \"\"q\"\" c" = .str (cleanTxt (String.mk field)) ∧
      ',' ∉ (cleanTxt (String.mk field)).data :=
  ⟨by decide,
    decoded_values_cleaned "a,\"b \"\"q\"\", c\",d" ["x", "y", "z"] false
      [("x", .str "a"), ("y", .str "b \"\"q\"\" c"), ("z", .str "d")]
      ("y", .str "b \"\"q\"\" c") (by decide) (by decide)⟩

/-- C9 (as amended): the lines are the pieces of the text between line feeds, a carriage return
right before a line feed being part of the break; the first line is dropped when `hasHdr` is
true; `csv_to_object_array` returns one record for every remaining non-empty line, in line
order, and none for an empty line. When the field count of a line equals the column count, the
column names are distinct and none of them is `__proto__`, the record of the line reads the
cleaned `i`-th field under `prop_list[i]`. -/
theorem csv_records_of_lines (text : String) (prop_list : List String) (hasHdr : Bool)
    (line : List Char) (hcount : (splitFields line).length = prop_list.length)
    (hdistinct : prop_list.Nodup) (hproto : "__proto__" ∉ prop_list) :
    splitLines text.data = stripBreakCR (splitOnLF text.data) ∧
    csv_to_object_array text prop_list hasHdr
      = (((splitLines text.data).drop (if hasHdr then 1 else 0)).filter
          (fun line => !line.isEmpty)).map
          (fun line => fieldsToObject prop_list 0 (splitFields line) []) ∧
    (∀ (i : Nat) (field : List Char) (name : String),
      (splitFields line).get? i = some field → prop_list.get? i = some name →
      (fieldsToObject prop_list 0 (splitFields line) []).get name
        = .str (cleanTxt (String.mk field))) := by
  refine ⟨splitLines_eq _, ?_, ?_⟩
  · unfold csv_to_object_array
    cases hasHdr with
    | true => exact filterMap_lineToObject prop_list ((splitLines text.data).drop 1)
    | false => exact filterMap_lineToObject prop_list (splitLines text.data)
  · intro i field name hf hn
    exact fieldsToObject_get prop_list hdistinct hproto _ 0 [] i field name (by omega) hf
      (by simpa using hn)

/-- C9, witness: a text with a header line, a CRLF break, an empty line and a trailing break. -/
theorem csv_records_of_lines_witness :
    (splitFields "1,\"b,c\"".data).length = ["x", "y"].length ∧
    csv_to_object_array "h1,h2\r\n1,\"b,c\"\n\n3,4\n" ["x", "y"] true
      = [[("x", .str "1"), ("y", .str "bc")], [("x", .str "3"), ("y", .str "4")]] ∧
    (∀ (i : Nat) (field : List Char) (name : String),
      (splitFields "1,\"b,c\"".data).get? i = some field →
      ["x", "y"].get? i = some name →
      (fieldsToObject ["x", "y"] 0 (splitFields "1,\"b,c\"".data) []).get name
        = .str (cleanTxt (String.mk field))) :=
  ⟨by decide, by decide,
    (csv_records_of_lines "h1,h2\r\n1,\"b,c\"\n\n3,4\n" ["x", "y"] true "1,\"b,c\"".data
      (by decide) (by decide) (by decide)).2.2⟩

/-- C9, counterexample: with the column names `a`, `a` the line `x,y` has as many fields as there
are columns, but the record reads `y`, not the cleaned first field `x`, under
`prop_list[0]`. -/
theorem duplicate_column_names_overwrite :
    (splitFields "x,y".data).length = ["a", "a"].length ∧
    csv_to_object_array "x,y" ["a", "a"] false = [[("a", .str "y")]] ∧
    (splitFields "x,y".data).get? 0 = some "x".data ∧
    Obj.get [("a", .str "y")] (propKey ["a", "a"] 0) ≠ .str (cleanTxt "x") := by
  decide

/-- C10: for a non-empty list of records, `object_array_to_csv(records, true)` is the field
names of the first record joined by commas, followed, for every record in order, by a newline
and the field values of the record joined by commas in `Object.values` order; with `hasHdr`
false it is the value lines alone, separated by single newlines; in both cases nothing follows
the last line. Every character of the output other than the separating commas and newlines
comes from a field name or a value: no quote or escape character is added. -/
theorem object_array_to_csv_layout (first : Obj) (rest : List Obj) :
    (object_array_to_csv (first :: rest) true).map String.data
      = some (List.intercalate [','] (first.keys.map String.data) ++
          ((first :: rest).map (fun obj =>
            '\n' :: List.intercalate [',']
              (obj.values.map (fun v => (joinToString v).data)))).flatten) ∧
    (object_array_to_csv (first :: rest) false).map String.data
      = some (List.intercalate [','] (first.values.map (fun v => (joinToString v).data)) ++
          (rest.map (fun obj =>
            '\n' :: List.intercalate [',']
              (obj.values.map (fun v => (joinToString v).data)))).flatten) ∧
    (∀ (c : Char) (out : String), c ≠ ',' → c ≠ '\n' →
      object_array_to_csv (first :: rest) true = some out →
      out.data.count c
        = (first.keys.map (fun k => k.data.count c)).sum +
          ((first :: rest).map (fun obj =>
            (obj.values.map (fun v => (joinToString v).data.count c)).sum)).sum) ∧
    (∀ (c : Char) (out : String), c ≠ ',' → c ≠ '\n' →
      object_array_to_csv (first :: rest) false = some out →
      out.data.count c
        = ((first :: rest).map (fun obj =>
            (obj.values.map (fun v => (joinToString v).data.count c)).sum)).sum) := by
  have hT : (object_array_to_csv (first :: rest) true).map String.data
      = some (List.intercalate ['\n']
          (List.intercalate [','] (first.keys.map String.data) ::
            (first :: rest).map (fun obj =>
              List.intercalate [','] (obj.values.map (fun v => (joinToString v).data))))) := by
    simp [object_array_to_csv, jsJoin, List.map_map, Function.comp_def]
  have hF : (object_array_to_csv (first :: rest) false).map String.data
      = some (List.intercalate ['\n']
          ((first :: rest).map (fun obj =>
              List.intercalate [','] (obj.values.map (fun v => (joinToString v).data))))) := by
    simp [object_array_to_csv, jsJoin, List.map_map, Function.comp_def]
  refine ⟨?_, ?_, ?_, ?_⟩
  · rw [hT, flatten_map_cons_eq]
    simp [List.map_map, Function.comp_def]
  · rw [hF, List.map_cons, flatten_map_cons_eq]
    simp [List.map_map, Function.comp_def]
  · intro c out hc hn hout
    have h := hT
    rw [hout] at h
    simp only [Option.map_some', Option.some.injEq] at h
    rw [h, count_intercalate c '\n' hn, List.map_cons, List.sum_cons,
      count_intercalate c ',' hc]
    simp [List.map_map, Function.comp_def, count_intercalate c ',' hc]
  · intro c out hc hn hout
    have h := hF
    rw [hout] at h
    simp only [Option.map_some', Option.some.injEq] at h
    rw [h, count_intercalate c '\n' hn]
    simp [List.map_map, Function.comp_def, count_intercalate c ',' hc]

/-- C10, witness: the CSV text of the example route, with and without its header line. -/
theorem object_array_to_csv_layout_witness :
    object_array_to_csv [exampleComputed, exampleComputed] true
      = some ("ID,StartingAirport,DestinationAirport,Airline,Distance,Equipment1,Equipment2," ++
          "Equipment3,Equipment4,Equipment5,Equipment6,Equipment7,Equipment8,Equipment9\n" ++
          "JFKLAXAA,JFK,LAX,AA,3983,738,320,,,,,,,\nJFKLAXAA,JFK,LAX,AA,3983,738,320,,,,,,,") ∧
    object_array_to_csv [exampleComputed, exampleComputed] false
      = some "JFKLAXAA,JFK,LAX,AA,3983,738,320,,,,,,,\nJFKLAXAA,JFK,LAX,AA,3983,738,320,,,,,,," ∧
    (object_array_to_csv [exampleComputed, exampleComputed] false).map String.data
      = some (List.intercalate [',']
            (exampleComputed.values.map (fun v => (joinToString v).data)) ++
          ([exampleComputed].map (fun obj =>
            '\n' :: List.intercalate [',']
              (obj.values.map (fun v => (joinToString v).data)))).flatten) :=
  ⟨by decide, by decide, (object_array_to_csv_layout exampleComputed [exampleComputed]).2.1⟩

/-! ## Decoding a clean row and encoding it again -/

theorem splitLines_of_no_lf : ∀ line : List Char, '\n' ∉ line → splitLines line = [line] := by
  intro line
  induction line with
  | nil => intro _; rfl
  | cons c rest ih =>
    intro h
    have hc : c ≠ '\n' := fun hc => h (hc ▸ List.mem_cons_self _ _)
    have hrest : '\n' ∉ rest := fun hr => h (List.mem_cons_of_mem _ hr)
    have hhead : ¬ (c = '\r' ∧ rest.head? = some '\n') := by
      rintro ⟨_, hh⟩
      exact hrest (List.mem_of_mem_head? hh)
    unfold splitLines
    rw [if_neg hc, if_neg hhead, ih hrest]
    rfl

theorem lookahead_of_no_quote (s : List Char) (h : '"' ∉ s) : lookahead s = true := by
  rw [lookahead_iff, List.count_eq_zero.mpr h]

/-- In a line without double quotes every comma separates two fields, so no field holds a
comma or a double quote. -/
theorem splitFields_of_no_quote : ∀ line : List Char, '"' ∉ line →
    ∀ f ∈ splitFields line, ',' ∉ f ∧ '"' ∉ f := by
  intro line
  induction line with
  | nil =>
    intro _ f hf
    simp only [splitFields, List.mem_singleton] at hf
    subst hf
    simp
  | cons c rest ih =>
    intro h f hf
    have hc : c ≠ '"' := fun hc => h (hc ▸ List.mem_cons_self _ _)
    have hrest : '"' ∉ rest := fun hr => h (List.mem_cons_of_mem _ hr)
    unfold splitFields at hf
    by_cases hcomma : c = ','
    · rw [if_pos ⟨hcomma, lookahead_of_no_quote rest hrest⟩] at hf
      rcases List.mem_cons.mp hf with hf | hf
      · subst hf
        simp
      · exact ih hrest f hf
    · rw [if_neg (fun hh => hcomma hh.1)] at hf
      cases hs : splitFields rest with
      | nil => exact absurd hs (splitFields_ne_nil rest)
      | cons x xs =>
        rw [hs] at hf ih
        simp only [consHead] at hf
        rcases List.mem_cons.mp hf with hf | hf
        · have hx := ih hrest x (List.mem_cons_self _ _)
          subst hf
          simp only [List.mem_cons, not_or]
          exact ⟨⟨fun hh => hcomma hh.symm, hx.1⟩, ⟨fun hh => hc hh.symm, hx.2⟩⟩
        · exact ih hrest f (List.mem_cons_of_mem _ hf)

theorem dropLeadingQuote_of_no_quote (f : List Char) (h : '"' ∉ f) : dropLeadingQuote f = f := by
  cases f with
  | nil => rfl
  | cons c cs =>
    have hc : c ≠ '"' := fun hc => h (hc ▸ List.mem_cons_self _ _)
    simp [dropLeadingQuote, hc]

theorem dropTrailingQuote_of_no_quote (f : List Char) (h : '"' ∉ f) :
    dropTrailingQuote f = f := by
  unfold dropTrailingQuote
  rw [if_neg]
  intro hl
  exact h (List.mem_of_mem_getLast? hl)

/-- A field without comma and without double quote is stored as it is. -/
theorem cleanTxt_of_clean (f : List Char) (h : ',' ∉ f ∧ '"' ∉ f) :
    cleanTxt (String.mk f) = String.mk f := by
  rw [cleanTxt_eq, dropLeadingQuote_of_no_quote f h.2, dropTrailingQuote_of_no_quote f h.2]
  congr 1
  rw [List.filter_eq_self]
  intro c hc
  simpa using fun hh : c = ',' => h.1 (hh ▸ hc)

/-- With distinct column names, none an array index and none `__proto__`, every field adds one
property at the end of the record: the record is the list of the column names paired with the
cleaned fields. -/
theorem fieldsToObject_eq_zip (prop_list : List String) (hnd : prop_list.Nodup)
    (hidx : ∀ k ∈ prop_list, arrayIndex k = none) (hp : "__proto__" ∉ prop_list) :
    ∀ (fields : List (List Char)) (idx : Nat) (acc : Obj),
      idx + fields.length ≤ prop_list.length → acc.map Prod.fst = prop_list.take idx →
      fieldsToObject prop_list idx fields acc
        = acc ++ (List.zip (prop_list.drop idx) fields).map
            (fun kf => (kf.1, Val.str (cleanTxt (String.mk kf.2)))) := by
  intro fields
  induction fields with
  | nil => intro idx acc _ _; simp [fieldsToObject]
  | cons f fields ih =>
    intro idx acc hlen hkeys
    simp only [List.length_cons] at hlen
    have hlt : idx < prop_list.length := by omega
    have hdrop : prop_list.drop idx = prop_list[idx] :: prop_list.drop (idx + 1) :=
      List.drop_eq_getElem_cons hlt
    have hkey : propKey prop_list idx = prop_list[idx] := by
      apply propKey_of_get?
      rw [List.get?_eq_getElem?, List.getElem?_eq_getElem hlt]
    have hmem : prop_list[idx] ∈ prop_list := List.getElem_mem _
    have hnotin : prop_list[idx] ∉ prop_list.take idx := by
      have h1 : (prop_list.take idx ++ prop_list.drop idx).Nodup := by
        rw [List.take_append_drop]; exact hnd
      rw [hdrop, List.nodup_append] at h1
      intro hin
      exact h1.2.2 hin (List.mem_cons_self _ _)
    have hany : acc.any (fun kv => kv.1 == prop_list[idx]) = false := by
      rw [Bool.eq_false_iff]
      intro hh
      rw [List.any_eq_true] at hh
      obtain ⟨kv, hkv, hk⟩ := hh
      apply hnotin
      rw [← hkeys, List.mem_map]
      exact ⟨kv, hkv, by simpa using hk⟩
    unfold fieldsToObject
    rw [hkey, set_new acc _ _ (fun h => hp (h ▸ hmem)) hany (hidx _ hmem),
      ih (idx + 1) _ (by omega)
        (by rw [List.map_append, hkeys, List.take_succ, List.getElem?_eq_getElem hlt]; rfl),
      hdrop, List.zip_cons_cons, List.map_cons, List.append_assoc]
    rfl

theorem values_of_zip (prop_list : List String) :
    ∀ fields : List (List Char), fields.length = prop_list.length →
      (((List.zip prop_list fields).map
          (fun kf => (kf.1, Val.str (String.mk kf.2)))).map Prod.snd).map
        (fun v => (joinToString v).data) = fields := by
  induction prop_list with
  | nil =>
    intro fields h
    cases fields with
    | nil => rfl
    | cons f fs => simp at h
  | cons k ks ih =>
    intro fields h
    cases fields with
    | nil => simp at h
    | cons f fs =>
      simp only [List.length_cons, Nat.add_right_cancel_iff] at h
      simp only [List.zip_cons_cons, List.map_cons, joinToString, List.cons.injEq, true_and]
      exact ih fs h

/-- C11 (as amended): for a non-empty line without double quote and without line feed, whose
field count equals the number of column names, the names being distinct, none of them an array
index (the canonical decimal form of an integer below 2^32 - 1) and none `__proto__`, decoding
the line gives one record, and encoding this record without a header gives the line back. -/
theorem decode_encode_clean_line (line : String) (prop_list : List String)
    (hne : line.data ≠ []) (hquote : '"' ∉ line.data) (hlf : '\n' ∉ line.data)
    (hcount : (splitFields line.data).length = prop_list.length)
    (hdistinct : prop_list.Nodup) (hindex : ∀ k ∈ prop_list, arrayIndex k = none)
    (hproto : "__proto__" ∉ prop_list) :
    ∃ record : Obj,
      csv_to_object_array line prop_list false = [record] ∧
      object_array_to_csv [record] false = some line := by
  have hrec : fieldsToObject prop_list 0 (splitFields line.data) []
      = (List.zip prop_list (splitFields line.data)).map
          (fun kf => (kf.1, Val.str (String.mk kf.2))) := by
    rw [fieldsToObject_eq_zip prop_list hdistinct hindex hproto _ 0 [] (by omega) rfl]
    simp only [List.nil_append, List.drop_zero]
    apply List.map_congr_left
    intro kf hkf
    rw [cleanTxt_of_clean kf.2
      (splitFields_of_no_quote line.data hquote kf.2 (List.of_mem_zip hkf).2)]
  refine ⟨fieldsToObject prop_list 0 (splitFields line.data) [], ?_, ?_⟩
  · unfold csv_to_object_array
    simp only [Bool.false_eq_true, if_false, splitLines_of_no_lf line.data hlf, List.map_cons,
      List.map_nil, lineToObject, List.length_pos.mpr hne, if_true, List.filterMap_cons,
      List.filterMap_nil, id]
  · rw [hrec]
    unfold object_array_to_csv
    simp only [Bool.false_eq_true, if_false, List.map_cons, List.map_nil, jsJoin, Obj.values,
      List.map_map]
    have hv := values_of_zip prop_list (splitFields line.data) hcount
    simp only [List.map_map] at hv
    simp only [Function.comp_def] at hv ⊢
    rw [hv, intercalate_splitFields]
    simp [List.intercalate]

/-- C11, witness: the row `AA,24,JFK,3797,LAX,3484,,0,738 320` with the route columns. -/
theorem decode_encode_clean_line_witness :
    csv_to_object_array "AA,24,JFK,3797,LAX,3484,,0,738 320" dat_properties_routes false
      = [exampleRoute] ∧
    ∃ record : Obj,
      csv_to_object_array "AA,24,JFK,3797,LAX,3484,,0,738 320" dat_properties_routes false
        = [record] ∧
      object_array_to_csv [record] false = some "AA,24,JFK,3797,LAX,3484,,0,738 320" :=
  ⟨by decide,
    decode_encode_clean_line "AA,24,JFK,3797,LAX,3484,,0,738 320" dat_properties_routes
      (by decide) (by decide) (by decide) (by decide) (by decide) (by decide) (by decide)⟩

/-- C11, counterexample: with the distinct column names `b`, `1` the line `x,y` has two fields
and neither quote nor line break, but the record enumerates the array-index key `1` first, and
encoding it gives `y,x`. -/
theorem array_index_column_reorders :
    (splitFields "x,y".data).length = ["b", "1"].length ∧
    csv_to_object_array "x,y" ["b", "1"] false = [[("1", .str "y"), ("b", .str "x")]] ∧
    object_array_to_csv [[("1", .str "y"), ("b", .str "x")]] false = some "y,x" := by
  decide

/-! ## The merged airport table and the lookup by code -/

theorem strictEq_iff_eq (a b : Val) (hb : b ≠ .nan) : strictEq a b = true ↔ a = b := by
  cases a <;> cases b <;> simp_all [strictEq]

theorem strictEq_eq_false_iff (a b : Val) (hb : b ≠ .nan) : strictEq a b = false ↔ a ≠ b := by
  have h := strictEq_iff_eq a b hb
  constructor
  · intro hf hab
    rw [h.mpr hab] at hf
    exact Bool.noConfusion hf
  · intro hne
    cases hs : strictEq a b with
    | false => rfl
    | true => exact absurd (h.mp hs) hne

/-- The lookup returns the first record whose value under the key is the wanted one. -/
theorem find_kv_eq_some_iff (obj_array : List Obj) (key : String) (value : Val)
    (hv : value ≠ .nan) (el : Obj) :
    find_kv_in_obj_array obj_array key value = some el ↔
      ∃ pre post : List Obj, obj_array = pre ++ el :: post ∧ el.get key = value ∧
        ∀ x ∈ pre, x.get key ≠ value := by
  unfold find_kv_in_obj_array
  rw [List.find?_eq_some]
  constructor
  · rintro ⟨hel, pre, post, hsplit, hpre⟩
    refine ⟨pre, post, hsplit, (strictEq_iff_eq _ _ hv).mp hel, fun x hx => ?_⟩
    have := hpre x hx
    exact (strictEq_eq_false_iff _ _ hv).mp (by simpa using this)
  · rintro ⟨pre, post, hsplit, hel, hpre⟩
    refine ⟨(strictEq_iff_eq _ _ hv).mpr hel, pre, post, hsplit, fun x hx => ?_⟩
    have := (strictEq_eq_false_iff _ _ hv).mpr (hpre x hx)
    simpa using this

theorem find_kv_eq_none_iff (obj_array : List Obj) (key : String) (value : Val)
    (hv : value ≠ .nan) :
    find_kv_in_obj_array obj_array key value = none ↔ ∀ x ∈ obj_array, x.get key ≠ value := by
  unfold find_kv_in_obj_array
  rw [List.find?_eq_none]
  constructor
  · intro h x hx
    exact (strictEq_eq_false_iff _ _ hv).mp (by simpa using h x hx)
  · intro h x hx
    simpa using (strictEq_eq_false_iff _ _ hv).mpr (h x hx)

/-- A record of the first part of a table that has the wanted value shadows the rest of the
table. -/
theorem find_kv_append_left (first rest : List Obj) (key : String) (value : Val)
    (hv : value ≠ .nan) (p : Obj) (hp : p ∈ first) (hpv : p.get key = value) :
    ∃ el ∈ first, find_kv_in_obj_array (first ++ rest) key value = some el := by
  unfold find_kv_in_obj_array
  rw [List.find?_append]
  cases hf : first.find? (fun el => strictEq (el.get key) value) with
  | none =>
    rw [List.find?_eq_none] at hf
    exact absurd ((strictEq_iff_eq _ _ hv).mpr hpv) (hf p hp)
  | some el => exact ⟨el, List.mem_of_find?_eq_some hf, rfl⟩

/-- C12: `all_airports` is the mapped primary airports, then the backfilled airports, then the
override airports, and its length is the sum of the three lengths. The lookup by `IATA3`
returns the first record of that table with the wanted code, and nothing exactly when no record
has the code; so a code held by a primary record is answered by a primary record, whatever the
override table holds. -/
theorem all_airports_order_and_lookup (airportsWithIata3 : List Obj) (files : List CacheFile)
    (extraAirportsText : String) (code : Val) (hcode : code ≠ .nan) :
    all_airports airportsWithIata3 files extraAirportsText
      = airportsWithIata3.map (dat_to_csv_mapper csv_properties_airports) ++
          (readCache files).1 ++ extra_airports extraAirportsText ∧
    (all_airports airportsWithIata3 files extraAirportsText).length
      = airportsWithIata3.length + (readCache files).1.length +
          (extra_airports extraAirportsText).length ∧
    (∀ el : Obj,
      find_kv_in_obj_array (all_airports airportsWithIata3 files extraAirportsText) "IATA3" code
          = some el ↔
        ∃ pre post : List Obj,
          all_airports airportsWithIata3 files extraAirportsText = pre ++ el :: post ∧
          el.get "IATA3" = code ∧ ∀ x ∈ pre, x.get "IATA3" ≠ code) ∧
    (find_kv_in_obj_array (all_airports airportsWithIata3 files extraAirportsText) "IATA3" code
        = none ↔
      ∀ x ∈ all_airports airportsWithIata3 files extraAirportsText, x.get "IATA3" ≠ code) ∧
    (∀ p ∈ airports_csv airportsWithIata3, p.get "IATA3" = code →
      ∃ el ∈ airports_csv airportsWithIata3,
        find_kv_in_obj_array (all_airports airportsWithIata3 files extraAirportsText)
          "IATA3" code = some el) := by
  refine ⟨rfl, ?_, fun el => find_kv_eq_some_iff _ _ _ hcode el,
    find_kv_eq_none_iff _ _ _ hcode, ?_⟩
  · simp [all_airports, airports_csv, Nat.add_assoc]
  · intro p hp hpv
    unfold all_airports
    rw [List.append_assoc]
    exact find_kv_append_left _ _ _ _ hcode p hp hpv

/-- C12, witness: JFK is both a primary and an override airport; the lookup answers with the
primary record. -/
theorem all_airports_order_and_lookup_witness :
    Val.str "JFK" ≠ Val.nan ∧
    find_kv_in_obj_array (all_airports [examplePrimaryAirport] [] exampleOverrideJfkText)
        "IATA3" (.str "JFK")
      = some [("IATA3", .str "JFK"), ("Name", .str "John F Kennedy International Airport"),
          ("City", .str "New York"), ("Country", .str "United States"),
          ("Elevation", .str "13"), ("Latitude", .str "40.6398"),
          ("Longitude", .str "-73.7789")] ∧
    (all_airports [examplePrimaryAirport] [] exampleOverrideJfkText).length
      = [examplePrimaryAirport].length + (readCache []).1.length +
          (extra_airports exampleOverrideJfkText).length :=
  ⟨by decide, by decide,
    (all_airports_order_and_lookup [examplePrimaryAirport] [] exampleOverrideJfkText
      (.str "JFK") (by decide)).2.1⟩

/-! ## Codes without lookup result -/

theorem readCache_snd_foldl :
    ∀ (files : List CacheFile) (acc : List Obj × List Val),
      (files.foldl readCacheStep acc).2
        = acc.2 ++ (files.filter (fun file =>
            !decide (indexOf ignore_files (.str file.filename) > -1) &&
              file.airports.isEmpty)).map
            (fun file => Val.str (substr03 file.filename)) := by
  intro files
  induction files with
  | nil => intro acc; simp
  | cons file files ih =>
    intro acc
    rw [List.foldl_cons, ih, List.filter_cons]
    unfold readCacheStep
    by_cases hig : indexOf ignore_files (.str file.filename) > -1
    · simp [hig]
    · cases ha : file.airports with
      | nil => simp [hig]
      | cons a as => simp [hig]

/-- The array `nothing` holds the first three characters of the name of every cache file that
is not ignored and whose response has no match, in directory order. -/
theorem readCache_snd (files : List CacheFile) :
    (readCache files).2
      = (files.filter (fun file =>
          !decide (indexOf ignore_files (.str file.filename) > -1) &&
            file.airports.isEmpty)).map
          (fun file => Val.str (substr03 file.filename)) := by
  unfold readCache
  rw [readCache_snd_foldl]
  rfl

theorem mem_still_nothing (files : List CacheFile) (extraAirportsText : String) (c : Val) :
    c ∈ still_nothing files extraAirportsText ↔
      c ∈ (readCache files).2 ∧
      ∀ e ∈ extra_airports extraAirportsText, strictEq (e.get "IATA3") c = false := by
  unfold still_nothing
  rw [partitionWith_notArray, List.mem_filter]
  simp only [Bool.not_eq_true', decide_eq_false_iff_not, gt_iff_lt, List.length_pos,
    ne_eq, not_not, List.filter_eq_nil_iff, Bool.not_eq_true]

/-- A route that passes the filter in front of the route reducer has no endpoint in
`still_nothing`. -/
theorem notStillNothing_iff (stillNothing : List Val) (el : Obj) :
    notStillNothing stillNothing el = true ↔
      (∀ x ∈ stillNothing, strictEq x (el.get "source_airport") = false) ∧
      (∀ x ∈ stillNothing, strictEq x (el.get "destination_airport") = false) := by
  unfold notStillNothing
  rw [Bool.and_eq_true, beq_iff_eq, beq_iff_eq, indexOf_eq_neg_one, indexOf_eq_neg_one]

theorem indexOfFrom_ge (v : Val) :
    ∀ (xs : List Val) (i : Int), 0 ≤ i → -1 ≤ indexOfFrom v i xs := by
  intro xs
  induction xs with
  | nil => intro i _; simp [indexOfFrom]
  | cons x xs ih =>
    intro i hi
    unfold indexOfFrom
    split
    · omega
    · exact ih (i + 1) (by omega)

/-- A file name that is none of the three ignored names is not skipped by the read-back. -/
theorem not_ignored_iff (filename : String) :
    ¬ (indexOf ignore_files (.str filename) > -1) ↔
      filename ∉ [".DS_Store", "airports.dat", "routes.dat"] := by
  have hge := indexOfFrom_ge (.str filename) ignore_files 0 (le_refl 0)
  have heq := indexOf_eq_neg_one ignore_files (.str filename)
  unfold indexOf at heq ⊢
  constructor
  · intro h
    have h1 : indexOfFrom (.str filename) 0 ignore_files = -1 := by omega
    have h2 := heq.mp h1
    simp only [ignore_files, List.mem_cons, List.mem_singleton, forall_eq_or_imp, forall_eq,
      strictEq, beq_eq_false_iff_ne, ne_eq, List.not_mem_nil, false_implies, implies_true,
      and_true] at h2
    simp only [List.mem_cons, List.mem_singleton, List.not_mem_nil, or_false, not_or]
    exact ⟨fun h => h2.1 h.symm, fun h => h2.2.1 h.symm, fun h => h2.2.2 h.symm⟩
  · intro h
    simp only [List.mem_cons, List.mem_singleton, List.not_mem_nil, or_false, not_or] at h
    have h1 : indexOfFrom (.str filename) 0 ignore_files = -1 := by
      apply heq.mpr
      simp only [ignore_files, List.mem_cons, List.mem_singleton, forall_eq_or_imp, forall_eq,
        strictEq, beq_eq_false_iff_ne, ne_eq, List.not_mem_nil, false_implies, implies_true,
        and_true]
      exact ⟨fun hh => h.1 hh.symm, fun hh => h.2.1 hh.symm, fun hh => h.2.2 hh.symm⟩
    omega

/-- C13 (as amended): take a cache file that is not ignored and whose lookup response holds no
match, and let `code` be the first three characters of its name, the code recorded as unknown.
If `code` is the `IATA3` of no override airport, no computed route has `code` as
`StartingAirport` or as `DestinationAirport`. -/
theorem unknown_code_routes_dropped (haversine : Val → Val → Val → Val → Val)
    (routes allAirports : List Obj) (files : List CacheFile) (extraAirportsText : String)
    (file : CacheFile) (computed : List Obj) (hfile : file ∈ files)
    (hname : file.filename ∉ [".DS_Store", "airports.dat", "routes.dat"])
    (hempty : file.airports = [])
    (hextra : ∀ e ∈ extra_airports extraAirportsText,
      e.get "IATA3" ≠ .str (substr03 file.filename))
    (h : clean_routes_csv haversine routes (still_nothing files extraAirportsText) allAirports
      = some computed) :
    Val.str (substr03 file.filename) ∈ (readCache files).2 ∧
    ∀ r ∈ computed,
      r.get "StartingAirport" ≠ .str (substr03 file.filename) ∧
      r.get "DestinationAirport" ≠ .str (substr03 file.filename) := by
  have hnothing : Val.str (substr03 file.filename) ∈ (readCache files).2 := by
    rw [readCache_snd, List.mem_map]
    refine ⟨file, ?_, rfl⟩
    rw [List.mem_filter]
    refine ⟨hfile, ?_⟩
    have := (not_ignored_iff file.filename).mpr hname
    simp [this, hempty]
  have hstill : Val.str (substr03 file.filename) ∈ still_nothing files extraAirportsText := by
    rw [mem_still_nothing]
    exact ⟨hnothing, fun e he =>
      (strictEq_eq_false_iff _ _ (by simp)).mpr (hextra e he)⟩
  refine ⟨hnothing, fun r hr => ?_⟩
  rcases reduceRoutes_mem haversine _ _ [] computed h r hr with
    hnil | ⟨el, hel, s, d, e, _, _, _, h4⟩
  · simp at hnil
  · have hkeep := (List.mem_filter.mp hel).2
    rw [notStillNothing_iff] at hkeep
    have hg := newRoute_get haversine s d el (splitOnSpace e.data)
    rw [← h4] at hg
    constructor
    · intro hcontra
      have := hkeep.1 _ hstill
      rw [← hg.1, hcontra] at this
      simp [strictEq] at this
    · intro hcontra
      have := hkeep.2 _ hstill
      rw [← hg.2.1, hcontra] at this
      simp [strictEq] at this

/-- C13, witness: MON has no lookup result and is no override airport; the route JFK to MON is
dropped. -/
theorem unknown_code_routes_dropped_witness :
    clean_routes_csv exampleDistance [exampleRoute, exampleMoonRoute]
        (still_nothing exampleCacheWithUnknown "IATA3,Name") exampleAirports
      = some [exampleComputed] ∧
    Val.str (substr03 "MON.json") ∈ (readCache exampleCacheWithUnknown).2 ∧
    ∀ r ∈ [exampleComputed],
      r.get "StartingAirport" ≠ .str (substr03 "MON.json") ∧
      r.get "DestinationAirport" ≠ .str (substr03 "MON.json") :=
  ⟨by decide,
    unknown_code_routes_dropped exampleDistance [exampleRoute, exampleMoonRoute]
      exampleAirports exampleCacheWithUnknown "IATA3,Name" ⟨"MON.json", []⟩ [exampleComputed]
      (by simp [exampleCacheWithUnknown]) (by decide) rfl (by decide) (by decide)⟩

/-- C13, counterexample: the lookup response for MON holds no match, so MON is recorded in
`nothing`; MON is an override airport, so it is not in `still_nothing`, and the route JFK to
MON is computed with `DestinationAirport` MON. -/
theorem unknown_code_in_overrides_kept :
    (readCache exampleCacheWithUnknown).2 = [.str "MON"] ∧
    still_nothing exampleCacheWithUnknown exampleExtraAirportsText = [] ∧
    (clean_routes_csv exampleDistance [exampleMoonRoute]
        (still_nothing exampleCacheWithUnknown exampleExtraAirportsText)
        (all_airports [] exampleCacheWithUnknown exampleExtraAirportsText)).map
      (fun computed => computed.map (fun r => r.get "DestinationAirport"))
      = some [.str "MON"] := by
  decide

/-! ## The fields of a computed route -/

theorem splitOnSpace_ne_nil : ∀ s : List Char, splitOnSpace s ≠ [] := by
  intro s
  cases s with
  | nil => simp [splitOnSpace]
  | cons c rest =>
    unfold splitOnSpace
    split
    · simp
    · cases splitOnSpace rest <;> simp [consHead]

theorem splitOnSpace_append_space : ∀ (code rest : List Char), ' ' ∉ code →
    splitOnSpace (code ++ ' ' :: rest) = code :: splitOnSpace rest := by
  intro code
  induction code with
  | nil => intro rest _; simp [splitOnSpace]
  | cons c cs ih =>
    intro rest h
    have hc : c ≠ ' ' := fun hc => h (hc ▸ List.mem_cons_self _ _)
    have hcs : ' ' ∉ cs := fun hh => h (List.mem_cons_of_mem _ hh)
    have hstep : splitOnSpace (c :: (cs ++ ' ' :: rest))
        = consHead c (splitOnSpace (cs ++ ' ' :: rest)) := by
      simp [splitOnSpace, hc]
    rw [List.cons_append, hstep, ih rest hcs]
    rfl

theorem splitOnSpace_of_no_space : ∀ code : List Char, ' ' ∉ code →
    splitOnSpace code = [code] := by
  intro code
  induction code with
  | nil => intro _; rfl
  | cons c cs ih =>
    intro h
    have hc : c ≠ ' ' := fun hc => h (hc ▸ List.mem_cons_self _ _)
    have hcs : ' ' ∉ cs := fun hh => h (List.mem_cons_of_mem _ hh)
    have hstep : splitOnSpace (c :: cs) = consHead c (splitOnSpace cs) := by
      simp [splitOnSpace, hc]
    rw [hstep, ih hcs]
    rfl

/-- Splitting on a space gives back the codes that were joined by single spaces. -/
theorem splitOnSpace_intercalate : ∀ codes : List (List Char), codes ≠ [] →
    (∀ c ∈ codes, ' ' ∉ c) → splitOnSpace (List.intercalate [' '] codes) = codes := by
  intro codes
  induction codes with
  | nil => intro h; exact absurd rfl h
  | cons c rest ih =>
    intro _ hsp
    cases rest with
    | nil =>
      simp only [List.intercalate, List.intersperse_single, List.flatten_cons,
        List.flatten_nil, List.append_nil]
      exact splitOnSpace_of_no_space c (hsp c (List.mem_cons_self _ _))
    | cons c2 rest2 =>
      rw [intercalate_cons_ne_nil _ _ _ (by simp), List.append_assoc, List.singleton_append,
        splitOnSpace_append_space _ _ (hsp c (List.mem_cons_self _ _)),
        ih (by simp) (fun x hx => hsp x (List.mem_cons_of_mem _ hx))]

theorem equipmentKey_get (hav : Val → Val → Val → Val → Val) (s d el : Obj)
    (codes : List (List Char)) (i : Nat) (hi : i < 9) :
    (newRoute hav s d el codes).get (equipmentKey i) = equipAt codes i := by
  rw [newRoute_eq]
  interval_cases i
  · rw [show equipmentKey 0 = "Equipment1" from by decide]
    simp +decide [Obj.get, List.lookup]
  · rw [show equipmentKey 1 = "Equipment2" from by decide]
    simp +decide [Obj.get, List.lookup]
  · rw [show equipmentKey 2 = "Equipment3" from by decide]
    simp +decide [Obj.get, List.lookup]
  · rw [show equipmentKey 3 = "Equipment4" from by decide]
    simp +decide [Obj.get, List.lookup]
  · rw [show equipmentKey 4 = "Equipment5" from by decide]
    simp +decide [Obj.get, List.lookup]
  · rw [show equipmentKey 5 = "Equipment6" from by decide]
    simp +decide [Obj.get, List.lookup]
  · rw [show equipmentKey 6 = "Equipment7" from by decide]
    simp +decide [Obj.get, List.lookup]
  · rw [show equipmentKey 7 = "Equipment8" from by decide]
    simp +decide [Obj.get, List.lookup]
  · rw [show equipmentKey 8 = "Equipment9" from by decide]
    simp +decide [Obj.get, List.lookup]

theorem newRoute_keys (hav : Val → Val → Val → Val → Val) (s d el : Obj)
    (codes : List (List Char)) :
    (newRoute hav s d el codes).keys
      = ["ID", "StartingAirport", "DestinationAirport", "Airline", "Distance",
         "Equipment1", "Equipment2", "Equipment3", "Equipment4", "Equipment5",
         "Equipment6", "Equipment7", "Equipment8", "Equipment9"] := by
  rw [newRoute_eq]
  rfl

/-- C14: a route both of whose lookups succeed and whose equipment string is `k ≥ 1` codes
joined by single spaces is emitted as a record with the fourteen fields `ID` to `Equipment9`,
in which `Equipment(i+1)`, for `i < 9`, is the code of index `i` when there is one and
`undefined` (which is not the empty string) otherwise; codes of index 9 and more are in no
field. -/
theorem equipment_fields_of_codes (haversine : Val → Val → Val → Val → Val)
    (allAirports acc : List Obj) (dat_el start_airport dest_airport : Obj)
    (codes : List (List Char))
    (hstart : find_kv_in_obj_array allAirports "IATA3" (dat_el.get "source_airport")
      = some start_airport)
    (hdest : find_kv_in_obj_array allAirports "IATA3" (dat_el.get "destination_airport")
      = some dest_airport)
    (hcodes : codes ≠ []) (hspace : ∀ c ∈ codes, ' ' ∉ c)
    (hequip : dat_el.get "equipment" = .str (String.mk (List.intercalate [' '] codes))) :
    ∃ r : Obj,
      routeReducer haversine allAirports acc dat_el = some (acc ++ [r]) ∧
      r.keys = ["ID", "StartingAirport", "DestinationAirport", "Airline", "Distance",
         "Equipment1", "Equipment2", "Equipment3", "Equipment4", "Equipment5",
         "Equipment6", "Equipment7", "Equipment8", "Equipment9"] ∧
      (∀ (i : Nat) (code : List Char), i < 9 → codes.get? i = some code →
        r.get (equipmentKey i) = .str (String.mk code)) ∧
      (∀ i : Nat, i < 9 → codes.length ≤ i →
        r.get (equipmentKey i) = .undefined ∧ r.get (equipmentKey i) ≠ .str "") := by
  refine ⟨newRoute haversine start_airport dest_airport dat_el codes, ?_, newRoute_keys _ _ _ _ _,
    ?_, ?_⟩
  · unfold routeReducer
    rw [hstart, hdest, hequip]
    simp only [splitOnSpace_intercalate codes hcodes hspace]
  · intro i code hi hc
    rw [equipmentKey_get _ _ _ _ _ i hi]
    unfold equipAt
    rw [hc]
  · intro i hi hlen
    rw [equipmentKey_get _ _ _ _ _ i hi]
    unfold equipAt
    rw [List.get?_eq_none.mpr hlen]
    exact ⟨rfl, by simp⟩

/-- C14, witness: the equipment string `738 320` of the example route. -/
theorem equipment_fields_of_codes_witness :
    exampleRoute.get "equipment"
      = .str (String.mk (List.intercalate [' '] ["738".data, "320".data])) ∧
    routeReducer exampleDistance exampleAirports [] exampleRoute = some [exampleComputed] ∧
    ∃ r : Obj,
      routeReducer exampleDistance exampleAirports [] exampleRoute = some ([] ++ [r]) ∧
      r.keys = ["ID", "StartingAirport", "DestinationAirport", "Airline", "Distance",
         "Equipment1", "Equipment2", "Equipment3", "Equipment4", "Equipment5",
         "Equipment6", "Equipment7", "Equipment8", "Equipment9"] ∧
      (∀ (i : Nat) (code : List Char), i < 9 →
        ["738".data, "320".data].get? i = some code →
        r.get (equipmentKey i) = .str (String.mk code)) ∧
      (∀ i : Nat, i < 9 → ["738".data, "320".data].length ≤ i →
        r.get (equipmentKey i) = .undefined ∧ r.get (equipmentKey i) ≠ .str "") :=
  ⟨by decide, by decide,
    equipment_fields_of_codes exampleDistance exampleAirports [] exampleRoute
      exampleJfk exampleLax ["738".data, "320".data]
      (by decide) (by decide) (by decide) (by decide) (by decide)⟩

theorem set_equipment_empty (hav : Val → Val → Val → Val → Val) (s d el : Obj)
    (codes : List (List Char)) (i : Nat) (hi : i < 9)
    (hmissing : equipAt codes i = .undefined) :
    ((newRoute hav s d el codes).set (equipmentKey i) (.str "")).keys
        = (newRoute hav s d el codes).keys ∧
    ((newRoute hav s d el codes).set (equipmentKey i) (.str "")).values.map joinToString
        = (newRoute hav s d el codes).values.map joinToString := by
  rw [newRoute_eq]
  interval_cases i
  · rw [show equipmentKey 0 = "Equipment1" from by decide, hmissing]
    simp +decide [Obj.set, Obj.keys, Obj.values, joinToString]
  · rw [show equipmentKey 1 = "Equipment2" from by decide, hmissing]
    simp +decide [Obj.set, Obj.keys, Obj.values, joinToString]
  · rw [show equipmentKey 2 = "Equipment3" from by decide, hmissing]
    simp +decide [Obj.set, Obj.keys, Obj.values, joinToString]
  · rw [show equipmentKey 3 = "Equipment4" from by decide, hmissing]
    simp +decide [Obj.set, Obj.keys, Obj.values, joinToString]
  · rw [show equipmentKey 4 = "Equipment5" from by decide, hmissing]
    simp +decide [Obj.set, Obj.keys, Obj.values, joinToString]
  · rw [show equipmentKey 5 = "Equipment6" from by decide, hmissing]
    simp +decide [Obj.set, Obj.keys, Obj.values, joinToString]
  · rw [show equipmentKey 6 = "Equipment7" from by decide, hmissing]
    simp +decide [Obj.set, Obj.keys, Obj.values, joinToString]
  · rw [show equipmentKey 7 = "Equipment8" from by decide, hmissing]
    simp +decide [Obj.set, Obj.keys, Obj.values, joinToString]
  · rw [show equipmentKey 8 = "Equipment9" from by decide, hmissing]
    simp +decide [Obj.set, Obj.keys, Obj.values, joinToString]

/-- C15 (as amended): a missing equipment slot is encoded as the empty field, the same text as an
empty but present one: for a computed route record in which `Equipment(i+1)` is `undefined`,
`object_array_to_csv` gives the same text for the record and for the record with that field set
to the empty string. -/
theorem missing_equipment_encoded_as_empty (haversine : Val → Val → Val → Val → Val)
    (start_airport dest_airport dat_el : Obj) (equip_codes : List (List Char)) (i : Nat)
    (hasHdr : Bool) (hi : i < 9)
    (hmissing : (newRoute haversine start_airport dest_airport dat_el equip_codes).get
      (equipmentKey i) = .undefined) :
    object_array_to_csv
        [(newRoute haversine start_airport dest_airport dat_el equip_codes).set
          (equipmentKey i) (.str "")] hasHdr
      = object_array_to_csv
        [newRoute haversine start_airport dest_airport dat_el equip_codes] hasHdr := by
  rw [equipmentKey_get _ _ _ _ _ i hi] at hmissing
  have h := set_equipment_empty haversine start_airport dest_airport dat_el equip_codes i hi
    hmissing
  unfold object_array_to_csv
  simp only [List.map_cons, List.map_nil, h.1, h.2]

/-- C15, witness: the example route has no third equipment code. -/
theorem missing_equipment_encoded_as_empty_witness :
    (newRoute exampleDistance exampleJfk exampleLax exampleRoute
      ["738".data, "320".data]).get (equipmentKey 2) = .undefined ∧
    object_array_to_csv
        [(newRoute exampleDistance exampleJfk exampleLax exampleRoute
          ["738".data, "320".data]).set (equipmentKey 2) (.str "")] true
      = object_array_to_csv
        [newRoute exampleDistance exampleJfk exampleLax exampleRoute
          ["738".data, "320".data]] true :=
  ⟨by decide,
    missing_equipment_encoded_as_empty exampleDistance exampleJfk exampleLax exampleRoute
      ["738".data, "320".data] 2 true (by decide) (by decide)⟩

/-- C15, counterexample: the record of the example route, whose `Equipment3` is `undefined`, and
the same record with `Equipment3` equal to the empty string are encoded as the same line. -/
theorem missing_and_empty_equipment_same_line :
    exampleComputed.get "Equipment3" = .undefined ∧
    (exampleComputed.set "Equipment3" (.str "")).get "Equipment3" = .str "" ∧
    object_array_to_csv [exampleComputed] false
      = some "JFKLAXAA,JFK,LAX,AA,3983,738,320,,,,,,," ∧
    object_array_to_csv [exampleComputed.set "Equipment3" (.str "")] false
      = some "JFKLAXAA,JFK,LAX,AA,3983,738,320,,,,,,," := by
  decide

theorem newRoute_get_id (hav : Val → Val → Val → Val → Val) (s d el : Obj)
    (codes : List (List Char)) :
    (newRoute hav s d el codes).get "ID"
      = jsAdd (jsAdd (el.get "source_airport") (el.get "destination_airport"))
          (el.get "airline") := by
  rw [newRoute_eq]
  simp +decide [Obj.get, List.lookup]

/-- A field of index `i` is stored as a string under the `i`-th property key. -/
theorem fieldsToObject_get_field (prop_list : List String) :
    ∀ (fields : List (List Char)) (idx : Nat) (acc : Obj) (i : Nat),
      i < fields.length → propKey prop_list (idx + i) ≠ "__proto__" →
      ∃ s, (fieldsToObject prop_list idx fields acc).get (propKey prop_list (idx + i))
        = .str s := by
  intro fields
  induction fields with
  | nil => intro idx acc i hi; simp at hi
  | cons f fields ih =>
    intro idx acc i hi hp
    unfold fieldsToObject
    cases i with
    | zero =>
      rw [Nat.add_zero] at hp ⊢
      exact fieldsToObject_get_str prop_list _ fields (idx + 1) _
        ⟨_, get_set_self acc _ _ hp⟩
    | succ i' =>
      have hi' : i' < fields.length := by simpa using hi
      have := ih (idx + 1) (acc.set (propKey prop_list idx) (.str (cleanTxt (String.mk f)))) i' hi'
        (by rwa [show idx + 1 + i' = idx + (i' + 1) by omega])
      rwa [show idx + 1 + i' = idx + (i' + 1) by omega] at this

/-- A property that the record holds and the accumulator did not was assigned from a field. -/
theorem fieldsToObject_key_of_get (prop_list : List String) (a : String)
    (fields : List (List Char)) (idx : Nat) (acc : Obj)
    (h : (fieldsToObject prop_list idx fields acc).get a ≠ acc.get a) :
    ∃ j, j < fields.length ∧ propKey prop_list (idx + j) = a := by
  by_contra hcon
  push_neg at hcon
  exact h (fieldsToObject_get_other prop_list a fields idx acc hcon)

theorem propKey_routes_equipment (j : Nat)
    (h : propKey dat_properties_routes j = "equipment") : j = 8 := by
  by_cases hj : j < 9
  · interval_cases j <;> first | rfl | (exact absurd h (by decide))
  · have hnone : dat_properties_routes.get? j = none := by
      rw [List.get?_eq_none]
      simp only [dat_properties_routes, List.length_cons, List.length_nil]
      omega
    unfold propKey at h
    rw [hnone] at h
    exact absurd h (by decide)

/-- A decoded route row that has an equipment value has all nine columns: its source,
destination and airline are strings. -/
theorem route_row_with_equipment (line : List Char) (el : Obj) (e : String)
    (hline : lineToObject dat_properties_routes line = some el)
    (he : el.get "equipment" = .str e) :
    ∃ src dst al : String, el.get "source_airport" = .str src ∧
      el.get "destination_airport" = .str dst ∧ el.get "airline" = .str al := by
  unfold lineToObject at hline
  split at hline
  · simp only [Option.some.injEq] at hline
    subst hline
    obtain ⟨j, hj, hkey⟩ := fieldsToObject_key_of_get dat_properties_routes "equipment"
      (splitFields line) 0 [] (by rw [he]; simp [Obj.get, List.lookup])
    rw [Nat.zero_add] at hkey
    have hj8 := propKey_routes_equipment j hkey
    subst hj8
    obtain ⟨src, hsrc⟩ := fieldsToObject_get_field dat_properties_routes (splitFields line)
      0 [] 2 (by omega) (by decide)
    obtain ⟨dst, hdst⟩ := fieldsToObject_get_field dat_properties_routes (splitFields line)
      0 [] 4 (by omega) (by decide)
    obtain ⟨al, hal⟩ := fieldsToObject_get_field dat_properties_routes (splitFields line)
      0 [] 0 (by omega) (by decide)
    exact ⟨src, dst, al, hsrc, hdst, hal⟩
  · simp at hline

/-- C16: every record the resolver emits for the decoded route feed comes from a row whose
source, destination and airline codes are strings; its `ID` is the source code followed by the
destination code followed by the airline code, with nothing in between, and its
`StartingAirport`, `DestinationAirport` and `Airline` are these three codes. -/
theorem computed_route_identity (haversine : Val → Val → Val → Val → Val)
    (routesText : String) (routes : List Obj) (stillNothing : List Val)
    (allAirports computed : List Obj)
    (hroutes : openflights_routes routesText = some routes)
    (h : clean_routes_csv haversine routes stillNothing allAirports = some computed) :
    ∀ r ∈ computed, ∃ el ∈ routes, ∃ src dst al : String,
      el.get "source_airport" = .str src ∧ el.get "destination_airport" = .str dst ∧
      el.get "airline" = .str al ∧
      r.get "ID" = .str (src ++ dst ++ al) ∧ r.get "StartingAirport" = .str src ∧
      r.get "DestinationAirport" = .str dst ∧ r.get "Airline" = .str al := by
  intro r hr
  rcases reduceRoutes_mem haversine _ _ [] computed h r hr with
    hnil | ⟨el, hel, s, d, e, _, _, he, h4⟩
  · simp at hnil
  · have hel' : el ∈ routes := List.mem_of_mem_filter hel
    rw [openflights_routes_eq] at hroutes
    simp only [Option.some.injEq] at hroutes
    rw [← hroutes] at hel'
    obtain ⟨line, hline⟩ := mem_csv_to_object_array _ _ _ _ (List.mem_of_mem_filter hel')
    obtain ⟨src, dst, al, hsrc, hdst, hal⟩ := route_row_with_equipment line el e hline he
    have hg := newRoute_get haversine s d el (splitOnSpace e.data)
    have hid := newRoute_get_id haversine s d el (splitOnSpace e.data)
    rw [← h4] at hg hid
    refine ⟨el, List.mem_of_mem_filter hel, src, dst, al, hsrc, hdst, hal, ?_, ?_, ?_, ?_⟩
    · rw [hid, hsrc, hdst, hal]
      simp [jsAdd, jsToString]
    · rw [hg.1, hsrc]
    · rw [hg.2.1, hdst]
    · rw [hg.2.2, hal]

/-- C16, witness: with JFK and LAX in the airport table, the row `AA,24,JFK,3797,LAX,3484,,0,738`
is emitted with `ID` `JFKLAXAA`, `Equipment1` `738` and `Equipment2` to `Equipment9`
`undefined`. -/
theorem computed_route_identity_witness :
    openflights_routes "AA,24,JFK,3797,LAX,3484,,0,738"
      = some [(exampleRoute.set "equipment" (.str "738"))] ∧
    clean_routes_csv exampleDistance [(exampleRoute.set "equipment" (.str "738"))] []
        exampleAirports
      = some [[("ID", .str "JFKLAXAA"), ("StartingAirport", .str "JFK"),
          ("DestinationAirport", .str "LAX"), ("Airline", .str "AA"), ("Distance", .num 3983),
          ("Equipment1", .str "738"), ("Equipment2", .undefined), ("Equipment3", .undefined),
          ("Equipment4", .undefined), ("Equipment5", .undefined), ("Equipment6", .undefined),
          ("Equipment7", .undefined), ("Equipment8", .undefined),
          ("Equipment9", .undefined)]] ∧
    ∀ r ∈ [[("ID", Val.str "JFKLAXAA"), ("StartingAirport", .str "JFK"),
          ("DestinationAirport", .str "LAX"), ("Airline", .str "AA"), ("Distance", .num 3983),
          ("Equipment1", .str "738"), ("Equipment2", .undefined), ("Equipment3", .undefined),
          ("Equipment4", .undefined), ("Equipment5", .undefined), ("Equipment6", .undefined),
          ("Equipment7", .undefined), ("Equipment8", .undefined),
          ("Equipment9", .undefined)]],
      ∃ el ∈ [(exampleRoute.set "equipment" (.str "738"))], ∃ src dst al : String,
        el.get "source_airport" = .str src ∧ el.get "destination_airport" = .str dst ∧
        el.get "airline" = .str al ∧
        Obj.get r "ID" = .str (src ++ dst ++ al) ∧ Obj.get r "StartingAirport" = .str src ∧
        Obj.get r "DestinationAirport" = .str dst ∧ Obj.get r "Airline" = .str al :=
  ⟨by decide, by decide,
    computed_route_identity exampleDistance "AA,24,JFK,3797,LAX,3484,,0,738"
      [(exampleRoute.set "equipment" (.str "738"))] [] exampleAirports _
      (by decide) (by decide)⟩

/-! ## The routes output table -/

/-- The route reducer appends, in order, one record for every route both of whose lookups
succeed, and nothing for the other routes. -/
theorem reduceRoutes_forall₂ (hav : Val → Val → Val → Val → Val) (allAirports : List Obj) :
    ∀ (rest acc out : List Obj), reduceRoutes hav allAirports acc rest = some out →
      ∃ recs : List Obj, out = acc ++ recs ∧
        List.Forall₂ (ComputedFrom hav allAirports) (rest.filter (bothFound allAirports))
          recs := by
  intro rest
  induction rest with
  | nil =>
    intro acc out h
    simp only [reduceRoutes, Option.some.injEq] at h
    exact ⟨[], by simp [h], List.Forall₂.nil⟩
  | cons el rest ih =>
    intro acc out h
    simp only [reduceRoutes] at h
    cases hstep : routeReducer hav allAirports acc el with
    | none => simp [hstep] at h
    | some acc' =>
      simp only [hstep] at h
      obtain ⟨recs, hout, hall⟩ := ih acc' out h
      unfold routeReducer at hstep
      cases hs : find_kv_in_obj_array allAirports "IATA3" (el.get "source_airport") with
      | none =>
        simp only [hs, Option.some.injEq] at hstep
        subst hstep
        refine ⟨recs, hout, ?_⟩
        rw [List.filter_cons]
        simpa [bothFound, hs] using hall
      | some s =>
        cases hd : find_kv_in_obj_array allAirports "IATA3"
            (el.get "destination_airport") with
        | none =>
          simp only [hs, hd, Option.some.injEq] at hstep
          subst hstep
          refine ⟨recs, hout, ?_⟩
          rw [List.filter_cons]
          simpa [bothFound, hs, hd] using hall
        | some d =>
          cases he : el.get "equipment" with
          | str e =>
            simp only [hs, hd, he, Option.some.injEq] at hstep
            subst hstep
            refine ⟨newRoute hav s d el (splitOnSpace e.data) :: recs, by simp [hout], ?_⟩
            rw [List.filter_cons]
            simp only [bothFound, hs, hd, Option.isSome_some, Bool.and_self, if_true]
            exact List.Forall₂.cons ⟨s, d, e, hs, hd, he, rfl⟩ hall
          | undefined => simp [hs, hd, he] at hstep
          | num n => simp [hs, hd, he] at hstep
          | nan => simp [hs, hd, he] at hstep

/-- The route reducer does not throw when every route both of whose lookups succeed has a
string as equipment. -/
theorem reduceRoutes_total (hav : Val → Val → Val → Val → Val) (allAirports : List Obj) :
    ∀ (rest acc : List Obj),
      (∀ el ∈ rest.filter (bothFound allAirports), ∃ e, el.get "equipment" = .str e) →
      ∃ out, reduceRoutes hav allAirports acc rest = some out := by
  intro rest
  induction rest with
  | nil => intro acc _; exact ⟨acc, rfl⟩
  | cons el rest ih =>
    intro acc h
    have hrest : ∀ x ∈ rest.filter (bothFound allAirports), ∃ e, x.get "equipment" = .str e := by
      intro x hx
      apply h x
      rw [List.mem_filter] at hx ⊢
      exact ⟨List.mem_cons_of_mem _ hx.1, hx.2⟩
    simp only [reduceRoutes]
    unfold routeReducer
    cases hs : find_kv_in_obj_array allAirports "IATA3" (el.get "source_airport") with
    | none => exact ih acc hrest
    | some s =>
      cases hd : find_kv_in_obj_array allAirports "IATA3" (el.get "destination_airport") with
      | none => exact ih acc hrest
      | some d =>
        obtain ⟨e, he⟩ := h el (by
          rw [List.mem_filter]
          exact ⟨List.mem_cons_self _ _, by simp [bothFound, hs, hd]⟩)
        simp only [he]
        exact ih _ hrest

/-- A string is strictly equal to a value exactly when it is that value. -/
theorem strictEq_str_iff (s : String) (c : Val) : strictEq (.str s) c = true ↔ Val.str s = c := by
  cases c <;> simp [strictEq]

/-- The codes of `still_nothing` are strings: prefixes of file names. -/
theorem still_nothing_str (files : List CacheFile) (extraAirportsText : String) :
    ∀ x ∈ still_nothing files extraAirportsText, ∃ s, x = .str s := by
  intro x hx
  rw [mem_still_nothing, readCache_snd, List.mem_map] at hx
  obtain ⟨⟨file, _, hfile⟩, _⟩ := hx
  exact ⟨_, hfile.symm⟩

/-- The filter in front of the route reducer keeps the routes neither endpoint of which is an
element of the excluded set, when that set holds strings only. -/
theorem notStillNothing_eq (stillNothing : List Val)
    (hstr : ∀ x ∈ stillNothing, ∃ s, x = .str s) (el : Obj) :
    notStillNothing stillNothing el
      = (decide (el.get "source_airport" ∉ stillNothing) &&
          decide (el.get "destination_airport" ∉ stillNothing)) := by
  have hmem : ∀ c : Val, (∀ x ∈ stillNothing, strictEq x c = false) ↔ c ∉ stillNothing := by
    intro c
    constructor
    · intro h hc
      obtain ⟨s, hs⟩ := hstr c hc
      have := h c hc
      rw [hs] at this
      simp [strictEq] at this
    · intro h x hx
      obtain ⟨s, hs⟩ := hstr x hx
      cases hb : strictEq x c with
      | false => rfl
      | true =>
        rw [hs, strictEq_str_iff] at hb
        rw [hs, hb] at hx
        exact absurd hx h
  rw [Bool.eq_iff_iff, notStillNothing_iff, Bool.and_eq_true, decide_eq_true_iff,
    decide_eq_true_iff, hmem, hmem]

/-- The lookup finds a record exactly when the table holds one with the wanted code. -/
theorem hasAirport_eq (allAirports : List Obj) (c : Val) :
    hasAirport allAirports c = (find_kv_in_obj_array allAirports "IATA3" c).isSome := by
  unfold hasAirport find_kv_in_obj_array
  rw [Bool.eq_iff_iff, List.any_eq_true, List.find?_isSome]

/-- The routes for which the reducer behind the filter appends a record are the resolved
routes. -/
theorem filter_routeKept (stillNothing : List Val) (allAirports routes : List Obj)
    (hstr : ∀ x ∈ stillNothing, ∃ s, x = .str s) :
    (routes.filter (notStillNothing stillNothing)).filter (bothFound allAirports)
      = routes.filter (routeKept stillNothing allAirports) := by
  rw [List.filter_filter]
  apply List.filter_congr
  intro el _
  rw [routeKept, notStillNothing_eq stillNothing hstr, hasAirport_eq, hasAirport_eq, bothFound]
  simp only [Bool.and_assoc, Bool.and_comm, Bool.and_left_comm]

/-- C17: when the routes output table is produced, it is the computed records followed by the
override routes as decoded from `extra_routes.csv`; the computed records correspond one to one
and in input order to the input routes neither endpoint code of which is an element of
`still_nothing` and for both endpoint codes of which `all_airports` holds a record, and no
other input route has a record. The table is produced whenever every such route has an
equipment string. The override records do not pass through the distance function. -/
theorem routes_output_exact (haversine : Val → Val → Val → Val → Val)
    (routes airportsWithIata3 : List Obj) (files : List CacheFile)
    (extraAirportsText extraRoutesText : String) :
    (∀ table : List Obj,
      routes_output haversine routes airportsWithIata3 files extraAirportsText extraRoutesText
        = some table →
      ∃ computed : List Obj,
        table = computed ++ csv_to_object_array extraRoutesText csv_properties_extra_routes true ∧
        List.Forall₂
          (ComputedFrom haversine (all_airports airportsWithIata3 files extraAirportsText))
          (routes.filter (fun el =>
            decide (el.get "source_airport" ∉ still_nothing files extraAirportsText) &&
            decide (el.get "destination_airport" ∉ still_nothing files extraAirportsText) &&
            hasAirport (all_airports airportsWithIata3 files extraAirportsText)
              (el.get "source_airport") &&
            hasAirport (all_airports airportsWithIata3 files extraAirportsText)
              (el.get "destination_airport")))
          computed) ∧
    ((∀ el ∈ routes.filter (routeKept (still_nothing files extraAirportsText)
          (all_airports airportsWithIata3 files extraAirportsText)),
        ∃ e, el.get "equipment" = .str e) →
      ∃ table : List Obj,
        routes_output haversine routes airportsWithIata3 files extraAirportsText
          extraRoutesText = some table) := by
  have hstr := still_nothing_str files extraAirportsText
  constructor
  · intro table h
    unfold routes_output at h
    cases hc : clean_routes_csv haversine routes (still_nothing files extraAirportsText)
        (all_airports airportsWithIata3 files extraAirportsText) with
    | none => simp [hc] at h
    | some computed =>
      simp only [hc, Option.some.injEq] at h
      obtain ⟨recs, hrecs, hall⟩ := reduceRoutes_forall₂ haversine _ _ [] computed hc
      rw [filter_routeKept _ _ _ hstr] at hall
      refine ⟨computed, h.symm, ?_⟩
      rw [hrecs, List.nil_append]
      exact hall
  · intro h
    rw [← filter_routeKept _ _ _ hstr] at h
    obtain ⟨out, hout⟩ := reduceRoutes_total haversine _ _ [] h
    refine ⟨out ++ extra_routes extraRoutesText, ?_⟩
    unfold routes_output clean_routes_csv
    rw [hout]

/-- C17, witness: MON is an airport of `airports.dat`, so the lookup finds it, and the cached
response for MON holds no match, so MON is in `still_nothing`. Of the routes JFK to LAX and
JFK to MON the first has a record and the second has none, although both of its lookups would
succeed; the override route follows as decoded, its distance 384400 as supplied. -/
theorem routes_output_exact_witness :
    routes_output exampleDistance [exampleRoute, exampleMoonRoute] [examplePrimaryMoon]
        exampleCacheWithUnknown "IATA3,Name" exampleExtraRoutesText
      = some (exampleComputed :: extra_routes exampleExtraRoutesText) ∧
    still_nothing exampleCacheWithUnknown "IATA3,Name" = [.str "MON"] ∧
    bothFound (all_airports [examplePrimaryMoon] exampleCacheWithUnknown "IATA3,Name")
        exampleMoonRoute = true ∧
    (extra_routes exampleExtraRoutesText).map (fun r => r.get "Distance") = [.str "384400"] ∧
    ∃ computed : List Obj,
      exampleComputed :: extra_routes exampleExtraRoutesText
        = computed ++
          csv_to_object_array exampleExtraRoutesText csv_properties_extra_routes true ∧
      List.Forall₂
        (ComputedFrom exampleDistance
          (all_airports [examplePrimaryMoon] exampleCacheWithUnknown "IATA3,Name"))
        ([exampleRoute, exampleMoonRoute].filter (fun el =>
          decide (el.get "source_airport" ∉ still_nothing exampleCacheWithUnknown "IATA3,Name") &&
          decide (el.get "destination_airport" ∉
            still_nothing exampleCacheWithUnknown "IATA3,Name") &&
          hasAirport (all_airports [examplePrimaryMoon] exampleCacheWithUnknown "IATA3,Name")
            (el.get "source_airport") &&
          hasAirport (all_airports [examplePrimaryMoon] exampleCacheWithUnknown "IATA3,Name")
            (el.get "destination_airport")))
        computed :=
  ⟨by decide, by decide, by decide, by decide,
    (routes_output_exact exampleDistance [exampleRoute, exampleMoonRoute] [examplePrimaryMoon]
      exampleCacheWithUnknown "IATA3,Name" exampleExtraRoutesText).1 _ (by decide)⟩

/-! ## The backfill loop -/

theorem request_airport_info_foldl (existsSync : String → Bool) :
    ∀ (gap acc : List Val),
      gap.foldl (fun acc airport =>
          if existsSync (local_filename airport) then acc else acc ++ [airport]) acc
        = acc ++ gap.filter (fun airport => !existsSync (local_filename airport)) := by
  intro gap
  induction gap with
  | nil => intro acc; simp
  | cons c gap ih =>
    intro acc
    rw [List.foldl_cons, ih, List.filter_cons]
    cases existsSync (local_filename c) <;> simp

/-- The codes to request are the codes of the gap list without cache file, in order. -/
theorem request_airport_info_eq (existsSync : String → Bool) (gap : List Val) :
    request_airport_info existsSync gap
      = gap.filter (fun airport => !existsSync (local_filename airport)) := by
  unfold request_airport_info
  rw [request_airport_info_foldl]
  rfl

theorem runTicks_requests (requestInfo : List Val) :
    ∀ (n idx : Nat), idx + n ≤ requestInfo.length →
      runTicks requestInfo n ⟨idx, requestInfo.take idx, false⟩
        = ⟨idx + n, requestInfo.take (idx + n), false⟩ := by
  intro n
  induction n with
  | zero => intro idx _; rfl
  | succ n ih =>
    intro idx h
    have hlt : idx < requestInfo.length := by omega
    have hstep : fetch_missing_airports requestInfo ⟨idx, requestInfo.take idx, false⟩
        = ⟨idx + 1, requestInfo.take (idx + 1), false⟩ := by
      unfold fetch_missing_airports
      simp only [ge_iff_le, Nat.not_le.mpr hlt, if_false]
      rw [List.get?_eq_getElem?, List.getElem?_eq_getElem hlt, List.take_succ,
        List.getElem?_eq_getElem hlt]
      rfl
    simp only [runTicks, Bool.false_eq_true, if_false, hstep]
    rw [ih (idx + 1) (by omega), show idx + 1 + n = idx + (n + 1) by omega]

theorem runTicks_finalised (requestInfo : List Val) (n : Nat) (st : BackfillState)
    (h : st.finalised = true) : runTicks requestInfo n st = st := by
  cases n with
  | zero => rfl
  | succ n => simp [runTicks, h]

theorem runTicks_add (requestInfo : List Val) :
    ∀ (a b : Nat) (st : BackfillState),
      runTicks requestInfo (a + b) st = runTicks requestInfo b (runTicks requestInfo a st) := by
  intro a
  induction a with
  | zero => intro b st; simp [runTicks]
  | succ a ih =>
    intro b st
    rw [show a + 1 + b = (a + b) + 1 by omega]
    simp only [runTicks]
    by_cases hf : st.finalised = true
    · simp only [hf, if_true]
      exact (runTicks_finalised requestInfo b st hf).symm
    · simp only [hf, Bool.false_eq_true, if_false]
      exact ih b _

/-- C20: `request_airport_info` is the gap codes that have no cache file, in gap-list order.
Started with `idx = 0`, the loop posts on its `n`-th tick, for `n` up to the length of the list,
the request for the `n`-th code of the list, so after `n` ticks the requests posted are the
first `n` codes; tick number `length + 1` is the first that enters the finalisation branch, and
no later tick posts anything. Every code of the list is requested exactly once, and no code
with a cache file is requested. -/
theorem backfill_requests_in_order (existsSync : String → Bool) (routes airports : List Obj) :
    request_airport_info existsSync (airports_missing_from_routes routes airports)
      = (airports_missing_from_routes routes airports).filter
          (fun airport => !existsSync (local_filename airport)) ∧
    (∀ n : Nat,
      n ≤ (request_airport_info existsSync
        (airports_missing_from_routes routes airports)).length →
      runTicks (request_airport_info existsSync (airports_missing_from_routes routes airports))
          n backfillStart
        = ⟨n, (request_airport_info existsSync
            (airports_missing_from_routes routes airports)).take n, false⟩) ∧
    (∀ n : Nat,
      (request_airport_info existsSync
        (airports_missing_from_routes routes airports)).length < n →
      runTicks (request_airport_info existsSync (airports_missing_from_routes routes airports))
          n backfillStart
        = ⟨(request_airport_info existsSync
            (airports_missing_from_routes routes airports)).length,
           request_airport_info existsSync (airports_missing_from_routes routes airports),
           true⟩) ∧
    (∀ c ∈ request_airport_info existsSync (airports_missing_from_routes routes airports),
      (request_airport_info existsSync
        (airports_missing_from_routes routes airports)).count c = 1 ∧
      existsSync (local_filename c) = false) ∧
    (∀ c ∈ airports_missing_from_routes routes airports,
      existsSync (local_filename c) = true →
      c ∉ request_airport_info existsSync (airports_missing_from_routes routes airports)) := by
  have hnodup : (request_airport_info existsSync
      (airports_missing_from_routes routes airports)).Nodup := by
    rw [request_airport_info_eq, airports_missing_eq_filter]
    exact ((arrayFromSet_nodup _).filter _).filter _
  have hrun : ∀ (list : List Val) (n : Nat), n ≤ list.length →
      runTicks list n backfillStart = ⟨n, list.take n, false⟩ := by
    intro list n hn
    have := runTicks_requests list n 0 (by omega)
    simpa [backfillStart] using this
  refine ⟨request_airport_info_eq _ _, fun n hn => hrun _ n hn, ?_, ?_, ?_⟩
  · intro n hn
    generalize request_airport_info existsSync (airports_missing_from_routes routes airports)
      = list at hn ⊢
    obtain ⟨m, rfl⟩ : ∃ m, n = list.length + (1 + m) := ⟨n - list.length - 1, by omega⟩
    rw [runTicks_add, hrun list list.length (le_refl _), List.take_length, runTicks_add]
    have hfinal : runTicks list 1 ⟨list.length, list, false⟩ = ⟨list.length, list, true⟩ := by
      simp [runTicks, fetch_missing_airports]
    rw [hfinal]
    exact runTicks_finalised list m _ rfl
  · intro c hc
    refine ⟨List.count_eq_one_of_mem hnodup hc, ?_⟩
    rw [request_airport_info_eq, List.mem_filter] at hc
    simpa using hc.2
  · intro c _ hex hc
    rw [request_airport_info_eq, List.mem_filter] at hc
    simp [hex] at hc

/-- C20, witness: of the two gap codes JFK and LAX, LAX has a cache file; the loop posts the
request for JFK on the first tick and finalises on the second. -/
theorem backfill_requests_in_order_witness :
    airports_missing_from_routes [exampleRoute] [] = [.str "JFK", .str "LAX"] ∧
    request_airport_info (fun path => path == "./data/LAX.json")
        (airports_missing_from_routes [exampleRoute] []) = [.str "JFK"] ∧
    runTicks [.str "JFK"] 1 backfillStart = ⟨1, [.str "JFK"], false⟩ ∧
    runTicks [.str "JFK"] 2 backfillStart = ⟨1, [.str "JFK"], true⟩ ∧
    request_airport_info (fun path => path == "./data/LAX.json")
        (airports_missing_from_routes [exampleRoute] [])
      = (airports_missing_from_routes [exampleRoute] []).filter
          (fun airport => !(fun path => path == "./data/LAX.json") (local_filename airport)) :=
  ⟨by decide, by decide, by decide, by decide,
    (backfill_requests_in_order (fun path => path == "./data/LAX.json") [exampleRoute] []).1⟩

/-! ## Completion of the finalisation step -/

/-- Encoding a non-empty table with a header line does not throw. -/
theorem object_array_to_csv_of_ne_nil (objArray : List Obj) (h : objArray ≠ []) :
    ∃ out, object_array_to_csv objArray true = some out := by
  cases objArray with
  | nil => exact absurd rfl h
  | cons first rest => exact ⟨_, rfl⟩

/-- Encoding the empty table with a header line throws. -/
theorem object_array_to_csv_nil : object_array_to_csv [] true = none := rfl

/-- The computed routes, when the reducer does not throw, are as many as the resolved routes. -/
theorem clean_routes_csv_length (hav : Val → Val → Val → Val → Val) (routes : List Obj)
    (stillNothing : List Val) (allAirports computed : List Obj)
    (hstr : ∀ x ∈ stillNothing, ∃ s, x = .str s)
    (h : clean_routes_csv hav routes stillNothing allAirports = some computed) :
    computed.length = (routes.filter (routeKept stillNothing allAirports)).length := by
  obtain ⟨recs, hrecs, hall⟩ := reduceRoutes_forall₂ hav _ _ [] computed h
  rw [filter_routeKept _ _ _ hstr] at hall
  rw [hrecs, List.nil_append]
  exact hall.length_eq.symm

/-- On a file that is ignored or holds a lookup response, the reducer over the directory does
not throw and does what it does on the response. -/
theorem readDataDirStep_response (acc : List Obj × List Val) (file : DataFile)
    (h : file.filename ∉ [".DS_Store", "airports.dat", "routes.dat"] →
      ∃ airports, file.body = .response airports) :
    readDataDirStep acc file
      = some (readCacheStep acc ⟨file.filename, match file.body with
          | .response airports => airports
          | _ => []⟩) := by
  unfold readDataDirStep readCacheStep
  by_cases hig : indexOf ignore_files (.str file.filename) > -1
  · simp only [hig, if_true]
  · obtain ⟨airports, hbody⟩ := h ((not_ignored_iff file.filename).mp hig)
    simp only [hig, if_false, hbody]
    cases airports <;> rfl

theorem readDataDirFrom_response :
    ∀ (dataDir : List DataFile) (acc : List Obj × List Val),
      (∀ file ∈ dataDir, file.filename ∉ [".DS_Store", "airports.dat", "routes.dat"] →
        ∃ airports, file.body = .response airports) →
      readDataDirFrom acc dataDir = some ((lookupResponses dataDir).foldl readCacheStep acc) := by
  intro dataDir
  induction dataDir with
  | nil => intro acc _; rfl
  | cons file rest ih =>
    intro acc h
    unfold readDataDirFrom
    rw [readDataDirStep_response acc file (h file (List.mem_cons_self _ _))]
    exact ih _ (fun f hf => h f (List.mem_cons_of_mem _ hf))

/-- When every file of `./data/` that is not ignored holds a lookup response, the read-back does
not throw and gives the arrays of `readCache`. -/
theorem readDataDir_response (dataDir : List DataFile)
    (h : ∀ file ∈ dataDir, file.filename ∉ [".DS_Store", "airports.dat", "routes.dat"] →
      ∃ airports, file.body = .response airports) :
    readDataDir dataDir = some (readCache (lookupResponses dataDir)) :=
  readDataDirFrom_response dataDir ([], []) h

/-- A file that is not ignored and whose text is not JSON, or is JSON on which a property read
throws, makes the read-back throw. -/
theorem readDataDirFrom_throws :
    ∀ (dataDir : List DataFile) (acc : List Obj × List Val) (file : DataFile),
      file ∈ dataDir → file.filename ∉ [".DS_Store", "airports.dat", "routes.dat"] →
      (file.body = .notJson ∨ file.body = .malformed) →
      readDataDirFrom acc dataDir = none := by
  intro dataDir
  induction dataDir with
  | nil => intro acc file hfile; simp at hfile
  | cons first rest ih =>
    intro acc file hfile hname hbody
    unfold readDataDirFrom
    cases hstep : readDataDirStep acc first with
    | none => rfl
    | some acc' =>
      rcases List.mem_cons.mp hfile with heq | hmem
      · subst heq
        have hig := (not_ignored_iff file.filename).mpr hname
        unfold readDataDirStep at hstep
        rcases hbody with hb | hb <;> simp [hig, hb] at hstep
      · exact ih acc' file hmem hname hbody

/-- The read-back of `./data/` does not throw exactly when every file that is not ignored holds
a lookup response, and its result is then that of `readCache` on the responses. -/
theorem readDataDir_eq_some_iff (dataDir : List DataFile) (result : List Obj × List Val) :
    readDataDir dataDir = some result ↔
      (∀ file ∈ dataDir, file.filename ∉ [".DS_Store", "airports.dat", "routes.dat"] →
        ∃ airports, file.body = .response airports) ∧
      result = readCache (lookupResponses dataDir) := by
  constructor
  · intro h
    have hall : ∀ file ∈ dataDir,
        file.filename ∉ [".DS_Store", "airports.dat", "routes.dat"] →
        ∃ airports, file.body = .response airports := by
      intro file hfile hname
      cases hbody : file.body with
      | response airports => exact ⟨airports, rfl⟩
      | notJson =>
        have := readDataDirFrom_throws dataDir ([], []) file hfile hname (Or.inl hbody)
        unfold readDataDir at h
        rw [this] at h
        exact Option.noConfusion h
      | malformed =>
        have := readDataDirFrom_throws dataDir ([], []) file hfile hname (Or.inr hbody)
        unfold readDataDir at h
        rw [this] at h
        exact Option.noConfusion h
    refine ⟨hall, ?_⟩
    rw [readDataDir_response dataDir hall] at h
    exact (Option.some.inj h).symm
  · rintro ⟨hall, hresult⟩
    rw [hresult]
    exact readDataDir_response dataDir hall

/-- C21 (as amended): the finalisation step completes and produces the airports text and the
routes text whenever every file of `./data/` that is not ignored holds a lookup response (a
JSON document with an array of records under `airports`), `all_airports` holds at least one
record, every resolved route has an equipment string, and at least one route is resolved or
`extra_routes.csv` holds at least one route. The texts are the encodings of `all_airports` and
of the routes output table. -/
theorem finalise_completes (haversine : Val → Val → Val → Val → Val)
    (routes airportsWithIata3 : List Obj) (dataDir : List DataFile)
    (extraAirportsText extraRoutesText : String)
    (hcache : ∀ file ∈ dataDir, file.filename ∉ [".DS_Store", "airports.dat", "routes.dat"] →
      ∃ airports, file.body = .response airports)
    (hairports : all_airports airportsWithIata3 (lookupResponses dataDir) extraAirportsText ≠ [])
    (hequipment : ∀ el ∈ routes.filter
        (routeKept (still_nothing (lookupResponses dataDir) extraAirportsText)
          (all_airports airportsWithIata3 (lookupResponses dataDir) extraAirportsText)),
      ∃ e, el.get "equipment" = .str e)
    (hroutes : routes.filter
        (routeKept (still_nothing (lookupResponses dataDir) extraAirportsText)
          (all_airports airportsWithIata3 (lookupResponses dataDir) extraAirportsText)) ≠ [] ∨
      extra_routes extraRoutesText ≠ []) :
    ∃ (airportsOut routesOut : String) (table : List Obj),
      object_array_to_csv
          (all_airports airportsWithIata3 (lookupResponses dataDir) extraAirportsText) true
        = some airportsOut ∧
      routes_output haversine routes airportsWithIata3 (lookupResponses dataDir)
          extraAirportsText extraRoutesText
        = some table ∧
      object_array_to_csv table true = some routesOut ∧
      finalise haversine routes airportsWithIata3 dataDir extraAirportsText extraRoutesText
        = some (airportsOut, routesOut) := by
  obtain ⟨airportsOut, hA⟩ := object_array_to_csv_of_ne_nil _ hairports
  have hstr := still_nothing_str (lookupResponses dataDir) extraAirportsText
  have hequipment' := hequipment
  rw [← filter_routeKept _ _ _ hstr] at hequipment'
  obtain ⟨computed, hcomputed⟩ := reduceRoutes_total haversine _ _ [] hequipment'
  have hclean : clean_routes_csv haversine routes
      (still_nothing (lookupResponses dataDir) extraAirportsText)
      (all_airports airportsWithIata3 (lookupResponses dataDir) extraAirportsText)
        = some computed := hcomputed
  have htable : routes_output haversine routes airportsWithIata3 (lookupResponses dataDir)
      extraAirportsText extraRoutesText = some (computed ++ extra_routes extraRoutesText) := by
    unfold routes_output
    rw [hclean]
  have hne : computed ++ extra_routes extraRoutesText ≠ [] := by
    intro hnil
    rw [List.append_eq_nil] at hnil
    rcases hroutes with hr | hr
    · have hlen := clean_routes_csv_length haversine _ _ _ _ hstr hclean
      rw [hnil.1, List.length_nil] at hlen
      exact hr (List.length_eq_zero.mp hlen.symm)
    · exact hr hnil.2
  obtain ⟨routesOut, hR⟩ := object_array_to_csv_of_ne_nil _ hne
  refine ⟨airportsOut, routesOut, _, hA, htable, hR, ?_⟩
  unfold finalise
  rw [readDataDir_response dataDir hcache]
  unfold all_airports at hA
  unfold all_airports still_nothing at hclean
  simp only [hA, hclean, hR]

/-- C21, witness: the example run, whose directory holds the two feeds and the lookup responses
for JFK and LAX, produces both texts. -/
theorem finalise_completes_witness :
    all_airports [] (lookupResponses exampleDataDir) exampleExtraAirportsText ≠ [] ∧
    ∃ (airportsOut routesOut : String) (table : List Obj),
      object_array_to_csv
          (all_airports [] (lookupResponses exampleDataDir) exampleExtraAirportsText) true
        = some airportsOut ∧
      routes_output exampleDistance [exampleRoute] [] (lookupResponses exampleDataDir)
          exampleExtraAirportsText exampleExtraRoutesText
        = some table ∧
      object_array_to_csv table true = some routesOut ∧
      finalise exampleDistance [exampleRoute] [] exampleDataDir exampleExtraAirportsText
          exampleExtraRoutesText
        = some (airportsOut, routesOut) :=
  ⟨by decide,
    finalise_completes exampleDistance [exampleRoute] [] exampleDataDir
      exampleExtraAirportsText exampleExtraRoutesText
      (by
        intro file hfile hname
        simp only [exampleDataDir, exampleCache, List.map_cons, List.map_nil, List.cons_append,
          List.nil_append, List.mem_cons, List.mem_singleton, List.not_mem_nil, or_false]
          at hfile
        rcases hfile with h | h | h | h
        · rw [h] at hname; exact absurd (by decide) hname
        · rw [h] at hname; exact absurd (by decide) hname
        · rw [h]; exact ⟨_, rfl⟩
        · rw [h]; exact ⟨_, rfl⟩)
      (by decide)
      (by
        have hkept : [exampleRoute].filter
            (routeKept (still_nothing (lookupResponses exampleDataDir) exampleExtraAirportsText)
              (all_airports [] (lookupResponses exampleDataDir) exampleExtraAirportsText))
              = [exampleRoute] := by
          decide
        intro el hel
        rw [hkept, List.mem_singleton] at hel
        rw [hel]
        exact ⟨"738 320", by decide⟩)
      (by decide)⟩

/-- C21, counterexample: the finalisation step throws when a cache file holds a body that is
not JSON (the lookup service answered the request for XXX with an error page, which
`save_body` wrote to `XXX.json`) or a JSON body without `airports`, although the run without
that file completes; when no airport survives (the header of `airports.csv` is taken from the
first record of an empty table); when no route survives; and when a resolved route row has
fewer than nine columns (its equipment is `undefined`). -/
theorem finalise_throws :
    (finalise exampleDistance [exampleRoute] [] exampleDataDir exampleExtraAirportsText
        exampleExtraRoutesText).isSome = true ∧
    finalise exampleDistance [exampleRoute] [] (exampleDataDir ++ [⟨"XXX.json", .notJson⟩])
        exampleExtraAirportsText exampleExtraRoutesText = none ∧
    finalise exampleDistance [exampleRoute] [] (exampleDataDir ++ [⟨"XXX.json", .malformed⟩])
        exampleExtraAirportsText exampleExtraRoutesText = none ∧
    all_airports [] [] "IATA3,Name" = [] ∧
    finalise exampleDistance [exampleRoute] [] [] "IATA3,Name" exampleExtraRoutesText = none ∧
    routes_output exampleDistance [] [] exampleCache exampleExtraAirportsText
        "ID,StartingAirport" = some [] ∧
    finalise exampleDistance [] [] exampleDataDir exampleExtraAirportsText "ID,StartingAirport"
      = none ∧
    openflights_routes "AA,24,JFK,3797,LAX" = some [exampleShortRoute] ∧
    finalise exampleDistance [exampleShortRoute] [] exampleDataDir exampleExtraAirportsText
        exampleExtraRoutesText = none := by
  decide

/-! ## Requests and responses of the backfill loop -/

/-- The state of the loop after `n` ticks from the start. -/
theorem runTicks_start (requestInfo : List Val) (n : Nat) :
    runTicks requestInfo n backfillStart
      = ⟨min n requestInfo.length, requestInfo.take n, decide (requestInfo.length < n)⟩ := by
  have hrun : ∀ m : Nat, m ≤ requestInfo.length →
      runTicks requestInfo m backfillStart = ⟨m, requestInfo.take m, false⟩ := by
    intro m hm
    have := runTicks_requests requestInfo m 0 (by omega)
    simpa [backfillStart] using this
  by_cases hn : n ≤ requestInfo.length
  · rw [hrun n hn, Nat.min_eq_left hn]
    simp [Nat.not_lt.mpr hn]
  · have hlt : requestInfo.length < n := Nat.lt_of_not_le hn
    obtain ⟨m, rfl⟩ : ∃ m, n = requestInfo.length + (1 + m) :=
      ⟨n - requestInfo.length - 1, by omega⟩
    rw [runTicks_add, hrun _ (le_refl _), List.take_length, runTicks_add]
    have hfinal : runTicks requestInfo 1 ⟨requestInfo.length, requestInfo, false⟩
        = ⟨requestInfo.length, requestInfo, true⟩ := by
      simp [runTicks, fetch_missing_airports]
    rw [hfinal, runTicks_finalised requestInfo m _ rfl,
      List.take_of_length_le (by omega), Nat.min_eq_right (by omega)]
    simp

/-- The loop state after an execution is the one reached by its ticks alone: the responses do
not change it. -/
theorem runEvents_loop (requestInfo : List Val) :
    ∀ (evs : List BackfillEvent) (run run' : BackfillRun),
      runEvents requestInfo evs run = some run' →
      run'.loop = runTicks requestInfo (evs.count .tick) run.loop := by
  intro evs
  induction evs with
  | nil =>
    intro run run' h
    simp only [runEvents, Option.some.injEq] at h
    rw [← h]
    rfl
  | cons ev evs ih =>
    intro run run' h
    simp only [runEvents] at h
    cases hstep : handleEvent requestInfo run ev with
    | none => simp [hstep] at h
    | some mid =>
      simp only [hstep] at h
      have hmid := ih mid run' h
      cases ev with
      | tick =>
        simp only [handleEvent] at hstep
        by_cases hf : run.loop.finalised = true
        · simp [hf] at hstep
        · simp only [hf, Bool.false_eq_true, if_false, Option.some.injEq] at hstep
          rw [hmid, ← hstep, List.count_cons_self]
          simp only [runTicks, hf, Bool.false_eq_true, if_false]
      | response airport saved =>
        simp only [handleEvent] at hstep
        by_cases hin : airport ∈ run.inFlight
        · simp only [hin, if_true, Option.some.injEq] at hstep
          rw [hmid, ← hstep]
          have hne : (BackfillEvent.response airport saved == BackfillEvent.tick) = false := by
            rw [beq_eq_false_iff_ne]
            exact BackfillEvent.noConfusion
          rw [List.count_cons, hne]
          rfl
        · simp [hin] at hstep

/-- C23 (as amended): requests are issued by the timer alone, at most one per tick and in list
order, whether or not the response to an earlier request has been handled: after any execution
of ticks and responses, the loop state is the one reached by the ticks alone, and the requests
issued are the first codes of the list, one for each tick. -/
theorem requests_follow_ticks (requestInfo : List Val) (evs : List BackfillEvent)
    (run : BackfillRun) (h : runEvents requestInfo evs backfillRunStart = some run) :
    run.loop = runTicks requestInfo (evs.count .tick) backfillStart ∧
    run.loop.requested = requestInfo.take (evs.count .tick) ∧
    run.loop.requested.length ≤ evs.count .tick := by
  have hloop := runEvents_loop requestInfo evs backfillRunStart run h
  have hstart : backfillRunStart.loop = backfillStart := rfl
  rw [hstart] at hloop
  refine ⟨hloop, ?_, ?_⟩
  · rw [hloop, runTicks_start]
  · rw [hloop, runTicks_start]
    simp only [List.length_take]
    exact Nat.min_le_left _ _

/-- C23, witness: an execution in which the response for JFK is handled between two ticks. -/
theorem requests_follow_ticks_witness :
    runEvents [.str "JFK", .str "LAX"]
        [.tick, .response (.str "JFK") true, .tick] backfillRunStart
      = some ⟨⟨2, [.str "JFK", .str "LAX"], false⟩, [.str "LAX"], ["./data/JFK.json"]⟩ ∧
    (⟨2, [.str "JFK", .str "LAX"], false⟩ : BackfillState)
      = runTicks [.str "JFK", .str "LAX"]
          ([BackfillEvent.tick, .response (.str "JFK") true, .tick].count .tick)
          backfillStart :=
  ⟨by decide,
    (requests_follow_ticks [.str "JFK", .str "LAX"]
      [.tick, .response (.str "JFK") true, .tick]
      ⟨⟨2, [.str "JFK", .str "LAX"], false⟩, [.str "LAX"], ["./data/JFK.json"]⟩
      (by decide)).1⟩

/-- C23, counterexample: two ticks without a response in between post the request for LAX
while the request for JFK is in flight and no cache file is written; and with JFK as the only
code, the second tick enters the finalisation branch while the request for JFK is still in
flight. -/
theorem second_request_before_first_response :
    runEvents [.str "JFK", .str "LAX"] [.tick, .tick] backfillRunStart
      = some ⟨⟨2, [.str "JFK", .str "LAX"], false⟩, [.str "JFK", .str "LAX"], []⟩ ∧
    runEvents [.str "JFK"] [.tick, .tick] backfillRunStart
      = some ⟨⟨1, [.str "JFK"], true⟩, [.str "JFK"], []⟩ := by
  decide

/-! ## Splitting the equipment string -/

/-- Joining the pieces of `str.split(" ")` with single spaces gives the string back. -/
theorem intercalate_splitOnSpace : ∀ s : List Char,
    List.intercalate [' '] (splitOnSpace s) = s := by
  intro s
  induction s with
  | nil => simp [splitOnSpace, List.intercalate]
  | cons c rest ih =>
    by_cases hc : c = ' '
    · have hstep : splitOnSpace (c :: rest) = [] :: splitOnSpace rest := by
        simp [splitOnSpace, hc]
      rw [hstep, intercalate_cons_ne_nil _ _ _ (splitOnSpace_ne_nil rest), ih, hc]
      rfl
    · have hstep : splitOnSpace (c :: rest) = consHead c (splitOnSpace rest) := by
        simp [splitOnSpace, hc]
      rw [hstep]
      cases hs : splitOnSpace rest with
      | nil => exact absurd hs (splitOnSpace_ne_nil rest)
      | cons h t =>
        rw [hs] at ih
        simp only [consHead]
        rw [intercalate_consHead, ih]

/-- No piece of `str.split(" ")` holds a space. -/
theorem splitOnSpace_pieces : ∀ s : List Char, ∀ piece ∈ splitOnSpace s, ' ' ∉ piece := by
  intro s
  induction s with
  | nil =>
    intro piece hp
    simp only [splitOnSpace, List.mem_singleton] at hp
    subst hp
    simp
  | cons c rest ih =>
    intro piece hp
    by_cases hc : c = ' '
    · have hstep : splitOnSpace (c :: rest) = [] :: splitOnSpace rest := by
        simp [splitOnSpace, hc]
      rw [hstep] at hp
      rcases List.mem_cons.mp hp with hp | hp
      · subst hp
        simp
      · exact ih piece hp
    · have hstep : splitOnSpace (c :: rest) = consHead c (splitOnSpace rest) := by
        simp [splitOnSpace, hc]
      rw [hstep] at hp
      cases hs : splitOnSpace rest with
      | nil => exact absurd hs (splitOnSpace_ne_nil rest)
      | cons h t =>
        rw [hs] at hp ih
        simp only [consHead] at hp
        rcases List.mem_cons.mp hp with hp | hp
        · subst hp
          have hh := ih h (List.mem_cons_self _ _)
          simp only [List.mem_cons, not_or]
          exact ⟨fun heq => hc heq.symm, hh⟩
        · exact ih piece (List.mem_cons_of_mem _ hp)

/-- `str.split(" ")` has one piece more than the string has spaces. -/
theorem splitOnSpace_length : ∀ s : List Char,
    (splitOnSpace s).length = s.count ' ' + 1 := by
  intro s
  induction s with
  | nil => rfl
  | cons c rest ih =>
    by_cases hc : c = ' '
    · have hstep : splitOnSpace (c :: rest) = [] :: splitOnSpace rest := by
        simp [splitOnSpace, hc]
      rw [hstep, List.length_cons, ih, hc, List.count_cons_self]
    · have hstep : splitOnSpace (c :: rest) = consHead c (splitOnSpace rest) := by
        simp [splitOnSpace, hc]
      have hlen : (consHead c (splitOnSpace rest)).length = (splitOnSpace rest).length := by
        cases hs : splitOnSpace rest with
        | nil => exact absurd hs (splitOnSpace_ne_nil rest)
        | cons h t => rfl
      rw [hstep, hlen, ih, List.count_cons_of_ne (fun h => hc h.symm)]

/-- C24 (as amended): the equipment string is split at every single space character and nowhere
else. For a resolved route with equipment string `e`, `Equipment(i+1)` is the piece of index `i`
of `e.split(" ")` when there is one and `undefined` otherwise; the pieces joined by single
spaces are `e`, none holds a space, and there is one piece more than `e` has spaces. So the
empty string is one empty code (`Equipment1` is the empty string, `Equipment2` to `Equipment9`
are `undefined`), a tab separates nothing and a run of spaces gives empty codes. -/
theorem equipment_split_at_single_spaces (haversine : Val → Val → Val → Val → Val)
    (allAirports acc : List Obj) (dat_el start_airport dest_airport : Obj) (e : String)
    (hstart : find_kv_in_obj_array allAirports "IATA3" (dat_el.get "source_airport")
      = some start_airport)
    (hdest : find_kv_in_obj_array allAirports "IATA3" (dat_el.get "destination_airport")
      = some dest_airport)
    (hequip : dat_el.get "equipment" = .str e) :
    ∃ r : Obj,
      routeReducer haversine allAirports acc dat_el = some (acc ++ [r]) ∧
      (∀ i : Nat, i < 9 → r.get (equipmentKey i) = equipAt (splitOnSpace e.data) i) ∧
      List.intercalate [' '] (splitOnSpace e.data) = e.data ∧
      (∀ piece ∈ splitOnSpace e.data, ' ' ∉ piece) ∧
      (splitOnSpace e.data).length = e.data.count ' ' + 1 ∧
      (e.data = [] →
        r.get (equipmentKey 0) = .str "" ∧
        ∀ i : Nat, 0 < i → i < 9 → r.get (equipmentKey i) = .undefined) := by
  refine ⟨newRoute haversine start_airport dest_airport dat_el (splitOnSpace e.data), ?_,
    fun i hi => equipmentKey_get _ _ _ _ _ i hi, intercalate_splitOnSpace _,
    splitOnSpace_pieces _, splitOnSpace_length _, ?_⟩
  · unfold routeReducer
    rw [hstart, hdest, hequip]
  · intro hempty
    rw [hempty]
    constructor
    · rw [equipmentKey_get _ _ _ _ _ 0 (by omega)]
      rfl
    · intro i h0 hi
      rw [equipmentKey_get _ _ _ _ _ i hi]
      unfold equipAt
      rw [List.get?_eq_none.mpr (by simp [splitOnSpace]; omega)]

/-- C24, witness: the equipment string `738 320` of the example route. -/
theorem equipment_split_at_single_spaces_witness :
    routeReducer exampleDistance exampleAirports [] exampleRoute = some [exampleComputed] ∧
    ∃ r : Obj,
      routeReducer exampleDistance exampleAirports [] exampleRoute = some ([] ++ [r]) ∧
      (∀ i : Nat, i < 9 → r.get (equipmentKey i) = equipAt (splitOnSpace "738 320".data) i) ∧
      List.intercalate [' '] (splitOnSpace "738 320".data) = "738 320".data ∧
      (∀ piece ∈ splitOnSpace "738 320".data, ' ' ∉ piece) ∧
      (splitOnSpace "738 320".data).length = "738 320".data.count ' ' + 1 ∧
      ("738 320".data = [] →
        r.get (equipmentKey 0) = .str "" ∧
        ∀ i : Nat, 0 < i → i < 9 → r.get (equipmentKey i) = .undefined) :=
  ⟨by decide,
    equipment_split_at_single_spaces exampleDistance exampleAirports [] exampleRoute
      exampleJfk exampleLax "738 320" (by decide) (by decide) (by decide)⟩

/-- C24, counterexample: for the example route with the empty equipment string, `Equipment1`
is the empty string and not `undefined`; with `738` and `320` separated by a tab, `Equipment1`
is the whole string; with two spaces between them, `Equipment2` is the empty string and `320`
is `Equipment3`; with a single space they are `Equipment1` and `Equipment2`. -/
theorem equipment_not_split_on_whitespace :
    (routeReducer exampleDistance exampleAirports []
        (exampleRoute.set "equipment" (.str ""))).map
      (fun rs => rs.map (fun r => (List.range 9).map (fun i => r.get (equipmentKey i))))
      = some [[.str "", .undefined, .undefined, .undefined, .undefined, .undefined,
          .undefined, .undefined, .undefined]] ∧
    (routeReducer exampleDistance exampleAirports []
        (exampleRoute.set "equipment" (.str "738\t320"))).map
      (fun rs => rs.map (fun r => (List.range 9).map (fun i => r.get (equipmentKey i))))
      = some [[.str "738\t320", .undefined, .undefined, .undefined, .undefined, .undefined,
          .undefined, .undefined, .undefined]] ∧
    (routeReducer exampleDistance exampleAirports []
        (exampleRoute.set "equipment" (.str "738  320"))).map
      (fun rs => rs.map (fun r => (List.range 9).map (fun i => r.get (equipmentKey i))))
      = some [[.str "738", .str "", .str "320", .undefined, .undefined, .undefined,
          .undefined, .undefined, .undefined]] ∧
    (routeReducer exampleDistance exampleAirports []
        (exampleRoute.set "equipment" (.str "738 320"))).map
      (fun rs => rs.map (fun r => (List.range 9).map (fun i => r.get (equipmentKey i))))
      = some [[.str "738", .str "320", .undefined, .undefined, .undefined, .undefined,
          .undefined, .undefined, .undefined]] := by
  decide

/-! ## The distance of a point from itself -/

/-- C18: for every point with finite numeric latitude and longitude,
`haversine(lat, lng, lat, lng)` is `+0`, the number 0, in every arithmetic in which the facts
of `ZeroFacts` about the zeros of doubles hold. -/
theorem haversine_same_point {F : Type} (M : JsMath F) (finite : F → Prop)
    (posZero negZero : F) (facts : ZeroFacts M finite posZero negZero) (lat lng : F)
    (hlat : finite lat) (hlng : finite lng) :
    haversine M (.number lat) (.number lng) (.number lat) (.number lng) = posZero := by
  have hLat := facts.finite_radians lat hlat
  have hLng := facts.finite_radians lng hlng
  have hcos := facts.finite_cos _ hLat
  simp only [haversine, degToRad, kmPerRadian]
  rw [facts.sub_self _ hLat, facts.sub_self _ hLng, facts.zero_div_two, facts.sin_zero,
    facts.zero_mul_zero]
  have h1 := facts.zero_mul_finite posZero _ (Or.inl rfl) hcos
  have h2 := facts.zero_mul_finite _ _ h1 hcos
  rw [facts.zero_add_zero _ h2, facts.sqrt_zero, facts.asin_zero, facts.two_mul_zero,
    facts.zero_mul_km, facts.round_zero]

/-- C18, witness: the facts hold in the example arithmetic, in which the distance of JFK from
itself is 0; a coordinate that is not a number gives a distance that is not 0. -/
theorem haversine_same_point_witness :
    haversine exampleMath (.number (some 40.6398)) (.number (some (-73.7789)))
        (.number (some 40.6398)) (.number (some (-73.7789))) = some 0 ∧
    haversine exampleMath (.text "north") (.number (some (-73.7789)))
        (.text "north") (.number (some (-73.7789))) = none :=
  ⟨haversine_same_point exampleMath (fun x => x.isSome = true) (some 0) (some 0)
      { sub_self := by
          intro x hx
          cases x with
          | none => simp at hx
          | some q => simp [exampleMath, exampleLift]
        finite_radians := by
          intro x hx
          cases x with
          | none => simp at hx
          | some q => simp [exampleMath, exampleLift]
        finite_cos := by
          intro x hx
          cases x with
          | none => simp at hx
          | some q => simp [exampleMath]
        zero_div_two := by simp [exampleMath, exampleLift]
        sin_zero := by simp [exampleMath]
        zero_mul_zero := by simp [exampleMath, exampleLift]
        zero_mul_finite := by
          intro z c hz hc
          cases c with
          | none => simp at hc
          | some q => rcases hz with h | h <;> simp [h, exampleMath, exampleLift]
        zero_add_zero := by
          intro z hz
          rcases hz with h | h <;> simp [h, exampleMath, exampleLift]
        sqrt_zero := by simp [exampleMath]
        asin_zero := by simp [exampleMath]
        two_mul_zero := by simp [exampleMath, exampleLift]
        zero_mul_km := by simp [exampleMath, exampleLift]
        round_zero := by
          simp [exampleMath]
          norm_num }
      (some 40.6398) (some (-73.7789)) rfl rfl,
   by simp [haversine, degToRad, exampleMath, exampleLift]⟩

end CleanAirportRoutes
